import Mathlib

/-!
# pebble-fctx: a shallow embedding of the rendering core

Machine integers are modelled as follows.

* `uint8_t` / `uint16_t` values are natural numbers; every store that can leave the
  range is reduced `% 2^w` explicitly.
* `int32_t` / `fixed_t` values are mathematical integers.  Signed overflow is undefined
  behaviour in C, so all statements about `fixed_t` arithmetic are statements about
  executions in which no overflow occurs.  C's `/` and `%` on signed operands are
  `Int.tdiv` and `Int.tmod` (truncation toward zero).
* Conversions to `int16_t` wrap modulo `2^16` (`toInt16`).
-/

namespace Fctx

/-! ## `pebble-utf8.c` -/

/-- The two `uint16_t` cells `*state` and `*cp` that `utf8_decode_byte` works on. -/
structure Utf8 where
  state : Nat
  cp : Nat
deriving DecidableEq, Repr

/-- The function `utf8_decode_byte(byte, &state, &cp)` of `pebble-utf8.c`: the updated cells; the
function's return value is the `state` field of the result (`return *state;`). -/
def utf8_decode_byte (byte : Nat) (s : Utf8) : Utf8 :=
  if s.state = 0 ∨ s.state = 6 then
    if byte < 0b10000000 then { s with cp := byte }
    else if byte < 0b11000000 then { state := 6, cp := 0 }
    else if byte < 0b11100000 then { state := 1, cp := byte &&& 0b00011111 }
    else if byte < 0b11110000 then { state := 2, cp := byte &&& 0b00001111 }
    else if byte < 0b11111000 then { state := 3, cp := byte &&& 0b00000111 }
    else if byte < 0b11111100 then { state := 4, cp := byte &&& 0b00000011 }
    else if byte < 0b11111110 then { state := 5, cp := byte &&& 0b00000001 }
    else s
  else if s.state < 6 then
    if byte < 0b11000000 then
      { state := s.state - 1, cp := ((s.cp <<< 6) ||| (byte &&& 0b00111111)) % 65536 }
    else { state := 6, cp := 0 }
  else s

/-- The value returned by `utf8_decode_byte`: `*state` after the call. -/
def utf8_decode_ret (byte : Nat) (s : Utf8) : Nat := (utf8_decode_byte byte s).state

/-- Feed a byte sequence to `utf8_decode_byte` one byte at a time, as the loops of
`fctx_draw_string` do; the result is the list of return values and the final cells. -/
def utf8_feed : List Nat → Utf8 → List Nat × Utf8
  | [], s => ([], s)
  | b :: bs, s =>
    let s1 := utf8_decode_byte b s
    let r := utf8_feed bs s1
    (s1.state :: r.1, r.2)

/-- The UTF-8 encoding of a code point below `0x10000`, following the table in the
comment at the head of `utf8_decode_byte`:
`0xxxxxxx`, `110xxxxx 10xxxxxx`, `1110xxxx 10xxxxxx 10xxxxxx`. -/
def utf8_encode (c : Nat) : List Nat :=
  if c < 0x80 then [c]
  else if c < 0x800 then [0xC0 + c / 64, 0x80 + c % 64]
  else [0xE0 + c / 4096, 0x80 + (c / 64) % 64, 0x80 + c % 64]


/-! ## Host platform (Pebble SDK) types used by `fctx.c` -/

/-- Conversion of an integer to `int16_t` (wrapping modulo `2^16`). -/
def toInt16 (v : Int) : Int := (v + 32768) % 65536 - 32768

/-- The SDK rectangle `GRect`: `origin.x`, `origin.y`, `size.w`, `size.h` (`int16_t`). -/
structure GRect where
  origin_x : Int
  origin_y : Int
  size_w : Int
  size_h : Int
deriving DecidableEq, Repr

/-- The SDK pixel `GColor8`: a byte `argb` that is a union with four 2-bit fields
`a`, `r`, `g`, `b`.  Only the fields are modelled; the position of the fields inside
the byte is not needed by `fctx.c`. -/
structure GColor8 where
  a : Fin 4
  r : Fin 4
  g : Fin 4
  b : Fin 4
deriving DecidableEq, Repr

/-- The SDK record `GBitmapDataRowInfo`: the address of the row's data (as an offset
into the bitmap's memory) and the valid column span `min_x .. max_x` of the row. -/
structure GBitmapDataRowInfo where
  data : Int
  min_x : Int
  max_x : Int
deriving DecidableEq, Repr

/-- The SDK bitmap `GBitmap`, with cells of type `α` (bytes for the flag buffers, pixels
for the 8-bit frame buffer): memory by address, bounds, bytes per row, and the answer of
`gbitmap_get_data_row_info` for each row.  `gbitmap_get_data` is address 0. -/
structure GBitmap (α : Type) where
  mem : Int → α
  bounds : GRect
  bytes_per_row : Int
  row_info : Int → GBitmapDataRowInfo

/-- The SDK call `gbitmap_create_blank(size, GBitmapFormat1Bit)`: a zeroed rectangular 1-bit
bitmap whose rows are padded to a multiple of 4 bytes and stored one after the other. -/
def gbitmap_create_blank_1bit (w h : Int) : GBitmap Nat :=
  { mem := fun _ => 0
    bounds := ⟨0, 0, w, h⟩
    bytes_per_row := Int.tdiv (w + 31) 32 * 4
    row_info := fun row => ⟨row * (Int.tdiv (w + 31) 32 * 4), 0, w - 1⟩ }

/-- A zeroed byte-per-pixel flag bitmap with the row layout `row_info` of the frame buffer
it was created for (`gbitmap_create_blank(size, format)` in `fctx_init_context_aa`). -/
def gbitmap_create_blank_8bit (w h : Int) (bytes_per_row : Int)
    (row_info : Int → GBitmapDataRowInfo) : GBitmap Nat :=
  { mem := fun _ => 0
    bounds := ⟨0, 0, w, h⟩
    bytes_per_row := bytes_per_row
    row_info := row_info }

/-! ## `fctx.h` -/

/-- The constant `FIXED_POINT_SCALE`. -/
def FIXED_POINT_SCALE : Int := 16

/-- The function `INT_TO_FIXED(a)`. -/
def INT_TO_FIXED (a : Int) : Int := a * FIXED_POINT_SCALE

/-- The function `FIXED_TO_INT(a)`: C division, truncating toward zero. -/
def FIXED_TO_INT (a : Int) : Int := Int.tdiv a FIXED_POINT_SCALE

/-- The struct `FPoint`: a pair of `fixed_t` coordinates. -/
structure FPoint where
  x : Int
  y : Int
deriving DecidableEq, Repr, Inhabited

/-- The struct `FContext`, without the host handle `gctx`; `β` is the type of the flag buffer
(`GBitmap Nat` for both rasterizers).  `path_init_point` is used by `fctx.c`. -/
structure FContext (β : Type) where
  flag_buffer : β
  flag_bounds : GRect
  extent_min : FPoint
  extent_max : FPoint
  path_init_point : FPoint
  path_cur_point : FPoint
  transform_offset : FPoint
  transform_scale_from : FPoint
  transform_scale_to : FPoint
  subpixel_adjust : Int
  fill_color : GColor8

/-! ## `fctx.c`: drawing support shared between BW and AA -/

/-- The function `floorDivMod(numerator, denominator, &floor, &mod)`: the pair `(floor, mod)`;
`none` when `Assert(denominator > 0)` fails (the macro then writes through a null
pointer). -/
def floorDivMod (numerator denominator : Int) : Option (Int × Int) :=
  if denominator > 0 then
    if numerator ≥ 0 then
      some (Int.tdiv numerator denominator, Int.tmod numerator denominator)
    else
      let floor := -(Int.tdiv (-numerator) denominator)
      let mod := Int.tmod (-numerator) denominator
      if mod ≠ 0 then some (floor - 1, denominator - mod) else some (floor, mod)
  else none

/-- The struct `Edge`. -/
structure Edge where
  x : Int
  xStep : Int
  numerator : Int
  denominator : Int
  errorTerm : Int
  y : Int
  height : Int
deriving DecidableEq, Repr

/-- The function `edge_step(e)`: the updated edge (the returned value is its `height`). -/
def edge_step (e : Edge) : Edge :=
  let x := e.x + e.xStep
  let y := e.y + 1
  let height := e.height - 1
  let errorTerm := e.errorTerm + e.numerator
  if errorTerm ≥ e.denominator then
    { e with x := x + 1, y := y, height := height, errorTerm := errorTerm - e.denominator }
  else
    { e with x := x, y := y, height := height, errorTerm := errorTerm }

/-- The function `fctx_begin_fill(fctx)`. -/
def fctx_begin_fill {α : Type} (fctx : FContext (GBitmap α)) : FContext (GBitmap α) :=
  let bounds := fctx.flag_buffer.bounds
  { fctx with
    extent_max := ⟨INT_TO_FIXED bounds.origin_x, INT_TO_FIXED bounds.origin_y⟩
    extent_min := ⟨INT_TO_FIXED (bounds.origin_x + bounds.size_w),
                   INT_TO_FIXED (bounds.origin_y + bounds.size_h)⟩
    path_init_point := ⟨0, 0⟩
    path_cur_point := ⟨0, 0⟩ }

/-! ## `fctx.c`: BW, 1 bit-per-pixel flag buffer -/

/-- The function `fceil(value)`. -/
def fceil (value : Int) : Int :=
  let numerator := value - 1 + FIXED_POINT_SCALE
  if numerator ≥ 0 then
    Int.tdiv numerator FIXED_POINT_SCALE
  else
    -(Int.tdiv (-numerator) FIXED_POINT_SCALE) -
      (if Int.tmod (-numerator) FIXED_POINT_SCALE ≠ 0 then 1 else 0)

/-- The function `edge_init(e, top, bottom)`: `y` and `height` are always stored, the other fields
of `e` only when `height` is non-zero; `none` when a `floorDivMod` assertion fails. -/
def edge_init (e : Edge) (top bottom : FPoint) : Option Edge :=
  let y := fceil top.y
  let yEnd := fceil bottom.y
  let height := yEnd - y
  if height ≠ 0 then
    let dN := bottom.y - top.y
    let dM := bottom.x - top.x
    let initialNumerator := dM * 16 * y - dM * top.y + dN * top.x - 1 + dN * 16
    match floorDivMod initialNumerator (dN * 16), floorDivMod (dM * 16) (dN * 16) with
    | some (x, errorTerm), some (xStep, numerator) =>
      some { x := x, xStep := xStep, numerator := numerator, denominator := dN * 16,
             errorTerm := errorTerm, y := y, height := height }
    | _, _ => none
  else
    some { e with y := y, height := height }

/-- The local `Edge edge;` of the plot functions before `edge_init`: its fields are
indeterminate in C and are read only after `edge_init` has stored them. -/
def edge_uninit : Edge := ⟨0, 0, 0, 0, 0, 0, 0⟩

/-- The assignment `*p ^= m` on a byte memory. -/
def xorAt (data : Int → Nat) (p : Int) (m : Nat) : Int → Nat :=
  Function.update data p ((data p ^^^ m) % 256)

/-- The loop `while (edge.height > 0 && edge.y < 0) edge_step(&edge);`
(the first argument bounds the number of iterations). -/
def skip_rows : Nat → Edge → Edge
  | 0, e => e
  | n + 1, e => if e.height > 0 ∧ e.y < 0 then skip_rows n (edge_step e) else e

/-- The second loop of `fctx_plot_edge_bw`
(the first argument bounds the number of iterations). -/
def plot_rows_bw (stride max_x max_y : Int) : Nat → Edge → (Int → Nat) → (Int → Nat)
  | 0, _, data => data
  | n + 1, e, data =>
    if e.height > 0 ∧ e.y ≤ max_y then
      let data1 :=
        if e.x < 0 then xorAt data (e.y * stride) 1
        else if e.x ≤ max_x then
          xorAt data (e.y * stride + Int.tdiv e.x 8) (1 <<< (Int.tmod e.x 8).toNat)
        else data
      plot_rows_bw stride max_x max_y n (edge_step e) data1
    else data

/-- The function `fctx_plot_edge_bw(fctx, a, b)`.  Both loops run at most `edge.height` times, because
every `edge_step` decrements `height`. -/
def fctx_plot_edge_bw (fctx : FContext (GBitmap Nat)) (a b : FPoint) :
    Option (FContext (GBitmap Nat)) :=
  match (if a.y > b.y then edge_init edge_uninit b a else edge_init edge_uninit a b) with
  | none => none
  | some edge =>
    let stride := toInt16 fctx.flag_buffer.bytes_per_row
    let max_x := toInt16 (fctx.flag_bounds.size_w - 1)
    let max_y := toInt16 (fctx.flag_bounds.size_h - 1)
    let edge1 := skip_rows edge.height.toNat edge
    let data := plot_rows_bw stride max_x max_y edge1.height.toNat edge1 fctx.flag_buffer.mem
    some { fctx with flag_buffer := { fctx.flag_buffer with mem := data } }


/-- The function `fctx_init_context_bw(fctx, gctx)` when the frame buffer `fb` can be captured: the
fields stored by the function (the others keep their prior values). -/
def fctx_init_context_bw (fctx : FContext (GBitmap Nat)) (fb : GBitmap GColor8) :
    FContext (GBitmap Nat) :=
  { fctx with
    flag_bounds := fb.bounds
    flag_buffer := gbitmap_create_blank_1bit fb.bounds.size_w fb.bounds.size_h
    subpixel_adjust := Int.tdiv (-FIXED_POINT_SCALE) 2
    transform_offset := ⟨0, 0⟩
    transform_scale_from := ⟨1, 1⟩
    transform_scale_to := ⟨1, 1⟩ }

/-- The column loop of `fctx_end_fill_bw` for one row, `PBL_COLOR` build
(`for (col = spanMin; col <= spanMax; ++col)`; the first argument bounds the number of
iterations).  The result is the final `col`, the flag memory and the frame-buffer memory. -/
def end_fill_bw_cols (color : GColor8) (fbRow flagRow : GBitmapDataRowInfo) (spanMax : Int) :
    Nat → Int → Bool → (Int → Nat) → (Int → GColor8) → Int × (Int → Nat) × (Int → GColor8)
  | 0, col, _, flag, fb => (col, flag, fb)
  | n + 1, col, inside, flag, fb =>
    if col ≤ spanMax then
      let dest := fbRow.data + col
      let src := flagRow.data + Int.tdiv col 8
      let mask := (1 <<< (Int.tmod col 8).toNat) % 256
      let inside1 := if flag src &&& mask ≠ 0 then !inside else inside
      let flag1 := Function.update flag src (flag src &&& (255 ^^^ mask))
      let fb1 := if inside1 then Function.update fb dest color else fb
      end_fill_bw_cols color fbRow flagRow spanMax n (col + 1) inside1 flag1 fb1
    else (col, flag, fb)

/-- The body of the row loop of `fctx_end_fill_bw` (`PBL_COLOR` build) for `row`. -/
def end_fill_bw_row (color : GColor8) (colMin colMax : Int) (row : Int)
    (flagbuf : GBitmap Nat) (fb : GBitmap GColor8) : (Int → Nat) × (Int → GColor8) :=
  let fbRowInfo := fb.row_info row
  let flagRowInfo := flagbuf.row_info row
  let spanMin := toInt16 (if fbRowInfo.min_x > colMin then fbRowInfo.min_x else colMin)
  let spanMax := toInt16 (if fbRowInfo.max_x < colMax then fbRowInfo.max_x else colMax)
  let r := end_fill_bw_cols color fbRowInfo flagRowInfo spanMax
    (spanMax - spanMin + 1).toNat spanMin false flagbuf.mem fb.mem
  let col := r.1
  if col < flagRowInfo.max_x then
    let src := flagRowInfo.data + Int.tdiv col 8
    let mask := (1 <<< (Int.tmod col 8).toNat) % 256
    (Function.update r.2.1 src (r.2.1 src &&& (255 ^^^ mask)), r.2.2)
  else (r.2.1, r.2.2)

/-- The row loop of `fctx_end_fill_bw` (`for (row = rowMin; row <= rowMax; ++row)`; the
first argument bounds the number of iterations). -/
def end_fill_bw_rows (color : GColor8) (colMin colMax rowMax : Int) :
    Nat → Int → GBitmap Nat → GBitmap GColor8 → GBitmap Nat × GBitmap GColor8
  | 0, _, flagbuf, fb => (flagbuf, fb)
  | n + 1, row, flagbuf, fb =>
    if row ≤ rowMax then
      let r := end_fill_bw_row color colMin colMax row flagbuf fb
      end_fill_bw_rows color colMin colMax rowMax n (row + 1)
        { flagbuf with mem := r.1 } { fb with mem := r.2 }
    else (flagbuf, fb)

/-- The function `fctx_end_fill_bw(fctx)`, `PBL_COLOR` build, on the captured frame buffer `fb`: the
context (only its flag buffer changes) and the frame buffer after the call. -/
def fctx_end_fill_bw (fctx : FContext (GBitmap Nat)) (fb : GBitmap GColor8) :
    FContext (GBitmap Nat) × GBitmap GColor8 :=
  let color := fctx.fill_color
  let rowMin0 := toInt16 (FIXED_TO_INT fctx.extent_min.y)
  let rowMax0 := toInt16 (FIXED_TO_INT fctx.extent_max.y)
  let colMin := toInt16 (FIXED_TO_INT fctx.extent_min.x)
  let colMax := toInt16 (FIXED_TO_INT fctx.extent_max.x)
  let rowMin := if rowMin0 < 0 then 0 else rowMin0
  let rowMax := if rowMax0 ≥ fctx.flag_bounds.size_h
    then toInt16 (fctx.flag_bounds.size_h - 1) else rowMax0
  let r := end_fill_bw_rows color colMin colMax rowMax (rowMax - rowMin + 1).toNat rowMin
    fctx.flag_buffer fb
  ({ fctx with flag_buffer := r.1 }, r.2)

/-! ## `fctx.c`: AA, 8 bit-per-pixel flag buffer -/

/-- The constant `SUBPIXEL_COUNT`. -/
def SUBPIXEL_COUNT : Int := 8

/-- The constant `FIXED_POINT_SCALE_AA`. -/
def FIXED_POINT_SCALE_AA : Int := 2

/-- The function `fceil_aa(value)`. -/
def fceil_aa (value : Int) : Int :=
  let numerator := value - 1 + FIXED_POINT_SCALE_AA
  if numerator ≥ 0 then
    Int.tdiv numerator FIXED_POINT_SCALE_AA
  else
    -(Int.tdiv (-numerator) FIXED_POINT_SCALE_AA) -
      (if Int.tmod (-numerator) FIXED_POINT_SCALE_AA ≠ 0 then 1 else 0)

/-- The function `edge_init_aa(e, top, bottom)`, with `F = 2`. -/
def edge_init_aa (e : Edge) (top bottom : FPoint) : Option Edge :=
  let F : Int := 2
  let y := fceil_aa top.y
  let yEnd := fceil_aa bottom.y
  let height := yEnd - y
  if height ≠ 0 then
    let dN := bottom.y - top.y
    let dM := bottom.x - top.x
    let initialNumerator := dM * F * y - dM * top.y + dN * top.x - 1 + dN * F
    match floorDivMod initialNumerator (dN * F), floorDivMod (dM * F) (dN * F) with
    | some (x, errorTerm), some (xStep, numerator) =>
      some { x := x, xStep := xStep, numerator := numerator, denominator := dN * F,
             errorTerm := errorTerm, y := y, height := height }
    | _, _ => none
  else
    some { e with y := y, height := height }

/-- The function `fctx_init_context_aa(fctx, gctx)` when the frame buffer `fb` can be captured. -/
def fctx_init_context_aa (fctx : FContext (GBitmap Nat)) (fb : GBitmap GColor8) :
    FContext (GBitmap Nat) :=
  { fctx with
    flag_bounds := fb.bounds
    flag_buffer := gbitmap_create_blank_8bit fb.bounds.size_w fb.bounds.size_h
      fb.bytes_per_row fb.row_info
    fill_color := ⟨3, 3, 3, 3⟩
    subpixel_adjust := -1
    transform_offset := ⟨0, 0⟩
    transform_scale_from := ⟨1, 1⟩
    transform_scale_to := ⟨1, 1⟩ }

/-- The table entry `k_sampling_offsets[ySub]`. -/
def k_sampling_offsets (ySub : Int) : Int :=
  ([2, 7, 4, 1, 6, 3, 0, 5] : List Int).getD ySub.toNat 0

/-- The second loop of `fctx_plot_edge_aa`
(the first argument bounds the number of iterations). -/
def plot_rows_aa (flagbuf : GBitmap Nat) (max_y : Int) : Nat → Edge → (Int → Nat) → (Int → Nat)
  | 0, _, data => data
  | n + 1, e, data =>
    if e.height > 0 ∧ e.y ≤ max_y then
      let ySub := e.y % SUBPIXEL_COUNT
      let mask := (1 <<< ySub.toNat) % 256
      let pixelX := Int.tdiv (e.x + k_sampling_offsets ySub) SUBPIXEL_COUNT
      let pixelY := Int.tdiv e.y SUBPIXEL_COUNT
      let row := flagbuf.row_info pixelY
      let data1 :=
        if pixelX < row.min_x then xorAt data (row.data + row.min_x) mask
        else if pixelX ≤ row.max_x then xorAt data (row.data + pixelX) mask
        else data
      plot_rows_aa flagbuf max_y n (edge_step e) data1
    else data

/-- The function `fctx_plot_edge_aa(fctx, a, b)`. -/
def fctx_plot_edge_aa (fctx : FContext (GBitmap Nat)) (a b : FPoint) :
    Option (FContext (GBitmap Nat)) :=
  match (if a.y > b.y then edge_init_aa edge_uninit b a else edge_init_aa edge_uninit a b) with
  | none => none
  | some edge =>
    let edge1 := skip_rows edge.height.toNat edge
    let max_y := fctx.flag_bounds.size_h * SUBPIXEL_COUNT - 1
    let data := plot_rows_aa fctx.flag_buffer max_y edge1.height.toNat edge1 fctx.flag_buffer.mem
    some { fctx with flag_buffer := { fctx.flag_buffer with mem := data } }

/-- The loop of `countBits` (`for (c = 0; v; c++) v &= v - 1;`; the first argument bounds
the number of iterations). -/
def countBits_loop : Nat → Nat → Nat → Nat
  | 0, _, c => c
  | n + 1, v, c => if v ≠ 0 then countBits_loop n (v &&& (v - 1)) (c + 1) else c

/-- The function `countBits(v)` for a byte `v`: at most 8 iterations, one per set bit. -/
def countBits (v : Nat) : Nat := countBits_loop 8 v 0 % 256

/-- The function `clamp8(val, min, max)`. -/
def clamp8 (val min max : Int) : Int :=
  if val ≤ min then min else if val ≥ max then max else val

/-- One channel assignment of the compositing step of `fctx_end_fill_aa`, e.g.
`d.r = (s.r*a + d.r*(8 - a) + 4) / 8;`, stored into a 2-bit field. -/
def blend_channel (s d : Fin 4) (a : Int) : Fin 4 :=
  ⟨((Int.tdiv ((s.val : Int) * a + (d.val : Int) * (8 - a) + 4) 8) % 4).toNat,
    by have h : (0 : Int) ≤ (Int.tdiv ((s.val : Int) * a + (d.val : Int) * (8 - a) + 4) 8) % 4 :=
         Int.emod_nonneg _ (by decide)
       have h2 : (Int.tdiv ((s.val : Int) * a + (d.val : Int) * (8 - a) + 4) 8) % 4 < 4 :=
         Int.emod_lt_of_pos _ (by decide)
       omega⟩

/-- The compositing of one pixel in `fctx_end_fill_aa`, given the accumulator `mask`
after `mask ^= *src`: the new value of `*dest`. -/
def end_fill_aa_pixel (s : GColor8) (mask : Nat) (dest : GColor8) : GColor8 :=
  let a := clamp8 (countBits mask) 0 8
  if a ≠ 0 then
    { a := dest.a
      r := blend_channel s.r dest.r a
      g := blend_channel s.g dest.g a
      b := blend_channel s.b dest.b a }
  else dest

/-- The column loop of `fctx_end_fill_aa` for one row
(`for (col = spanMin; col <= spanMax; ++col, ++dest, ++src)`; the first argument bounds the
number of iterations).  The result is the final `col`, the flag memory and the frame-buffer
memory. -/
def end_fill_aa_cols (s : GColor8) (fbRow flagRow : GBitmapDataRowInfo) (spanMax : Int) :
    Nat → Int → Nat → (Int → Nat) → (Int → GColor8) → Int × (Int → Nat) × (Int → GColor8)
  | 0, col, _, flag, fb => (col, flag, fb)
  | n + 1, col, mask, flag, fb =>
    if col ≤ spanMax then
      let dest := fbRow.data + col
      let src := flagRow.data + col
      let mask1 := mask ^^^ flag src
      let flag1 := Function.update flag src 0
      let fb1 := Function.update fb dest (end_fill_aa_pixel s mask1 (fb dest))
      end_fill_aa_cols s fbRow flagRow spanMax n (col + 1) mask1 flag1 fb1
    else (col, flag, fb)

/-- The body of the row loop of `fctx_end_fill_aa` for `row`. -/
def end_fill_aa_row (s : GColor8) (colMin colMax : Int) (row : Int)
    (flagbuf : GBitmap Nat) (fb : GBitmap GColor8) : (Int → Nat) × (Int → GColor8) :=
  let fbRowInfo := fb.row_info row
  let flagRowInfo := flagbuf.row_info row
  let spanMin := toInt16 (if fbRowInfo.min_x > colMin then fbRowInfo.min_x else colMin)
  let spanMax := toInt16 (if fbRowInfo.max_x < colMax then fbRowInfo.max_x else colMax)
  let r := end_fill_aa_cols s fbRowInfo flagRowInfo spanMax
    (spanMax - spanMin + 1).toNat spanMin 0 flagbuf.mem fb.mem
  let col := r.1
  if col < flagRowInfo.max_x then
    (Function.update r.2.1 (flagRowInfo.data + col) 0, r.2.2)
  else (r.2.1, r.2.2)

/-- The row loop of `fctx_end_fill_aa` (the first argument bounds the number of
iterations). -/
def end_fill_aa_rows (s : GColor8) (colMin colMax rowMax : Int) :
    Nat → Int → GBitmap Nat → GBitmap GColor8 → GBitmap Nat × GBitmap GColor8
  | 0, _, flagbuf, fb => (flagbuf, fb)
  | n + 1, row, flagbuf, fb =>
    if row ≤ rowMax then
      let r := end_fill_aa_row s colMin colMax row flagbuf fb
      end_fill_aa_rows s colMin colMax rowMax n (row + 1)
        { flagbuf with mem := r.1 } { fb with mem := r.2 }
    else (flagbuf, fb)

/-- The function `fctx_end_fill_aa(fctx)` on the captured frame buffer `fb`: the context (only its
flag buffer changes) and the frame buffer after the call. -/
def fctx_end_fill_aa (fctx : FContext (GBitmap Nat)) (fb : GBitmap GColor8) :
    FContext (GBitmap Nat) × GBitmap GColor8 :=
  let rowMin0 := toInt16 (FIXED_TO_INT fctx.extent_min.y)
  let rowMax0 := toInt16 (FIXED_TO_INT fctx.extent_max.y)
  let colMin := toInt16 (FIXED_TO_INT fctx.extent_min.x)
  let colMax := toInt16 (FIXED_TO_INT fctx.extent_max.x)
  let rowMin := if rowMin0 < 0 then 0 else rowMin0
  let rowMax := if rowMax0 ≥ fctx.flag_bounds.size_h
    then toInt16 (fctx.flag_bounds.size_h - 1) else rowMax0
  let r := end_fill_aa_rows fctx.fill_color colMin colMax rowMax
    (rowMax - rowMin + 1).toNat rowMin fctx.flag_buffer fb
  ({ fctx with flag_buffer := r.1 }, r.2)

/-! ## `fctx.c`: transformed drawing -/

/-- The type of `fctx_plot_edge`, the active plot-edge function: `none` when the call
does not return (failed assertion). -/
abbrev PlotEdge (β : Type) := FContext β → FPoint → FPoint → Option (FContext β)

/-- The function `bezier(fctx, x1, y1, x2, y2, x3, y3, x4, y4)`, with `plot` the active
`fctx_plot_edge`. -/
def bezier {β : Type} (plot : PlotEdge β) (fctx : FContext β)
    (x1 y1 x2 y2 x3 y3 x4 y4 : Int) : Option (FContext β) :=
  let x12 := Int.tdiv (x1 + x2) 2
  let y12 := Int.tdiv (y1 + y2) 2
  let x23 := Int.tdiv (x2 + x3) 2
  let y23 := Int.tdiv (y2 + y3) 2
  let x34 := Int.tdiv (x3 + x4) 2
  let y34 := Int.tdiv (y3 + y4) 2
  let x123 := Int.tdiv (x12 + x23) 2
  let y123 := Int.tdiv (y12 + y23) 2
  let x234 := Int.tdiv (x23 + x34) 2
  let y234 := Int.tdiv (y23 + y34) 2
  (plot fctx ⟨x1, y1⟩ ⟨x12, y12⟩).bind fun c1 =>
  (plot c1 ⟨x12, y12⟩ ⟨x123, y123⟩).bind fun c2 =>
  (plot c2 ⟨x123, y123⟩ ⟨x234, y234⟩).bind fun c3 =>
  (plot c3 ⟨x234, y234⟩ ⟨x34, y34⟩).bind fun c4 =>
  plot c4 ⟨x34, y34⟩ ⟨x4, y4⟩

/-- The function `fctx_move_to_func(fctx, params)`. -/
def fctx_move_to_func {β : Type} (fctx : FContext β) (params : Nat → FPoint) :
    Option (FContext β) :=
  some { fctx with path_init_point := params 0, path_cur_point := params 0 }

/-- The function `fctx_line_to_func(fctx, params)`. -/
def fctx_line_to_func {β : Type} (plot : PlotEdge β) (fctx : FContext β)
    (params : Nat → FPoint) : Option (FContext β) :=
  (plot fctx fctx.path_cur_point (params 0)).bind fun c =>
  some { c with path_cur_point := params 0 }

/-- The function `fctx_curve_to_func(fctx, params)`. -/
def fctx_curve_to_func {β : Type} (plot : PlotEdge β) (fctx : FContext β)
    (params : Nat → FPoint) : Option (FContext β) :=
  (bezier plot fctx fctx.path_cur_point.x fctx.path_cur_point.y
    (params 0).x (params 0).y (params 1).x (params 1).y (params 2).x (params 2).y).bind fun c =>
  some { c with path_cur_point := params 2 }

/-- One iteration of the loop of `fctx_transform_points`: the point written to `*dst` and
the context with the grown bounding box. -/
def transform_point {β : Type} (fctx : FContext β) (src advance : FPoint) :
    FContext β × FPoint :=
  let dx := Int.tdiv ((src.x + advance.x) * fctx.transform_scale_to.x) fctx.transform_scale_from.x
    + (fctx.transform_offset.x + fctx.subpixel_adjust)
  let dy := Int.tdiv ((src.y + advance.y) * fctx.transform_scale_to.y) fctx.transform_scale_from.y
    + (fctx.transform_offset.y + fctx.subpixel_adjust)
  let f1 := if dx < fctx.extent_min.x
    then { fctx with extent_min := { fctx.extent_min with x := dx } } else fctx
  let f2 := if dy < f1.extent_min.y
    then { f1 with extent_min := { f1.extent_min with y := dy } } else f1
  let f3 := if dx > f2.extent_max.x
    then { f2 with extent_max := { f2.extent_max with x := dx } } else f2
  let f4 := if dy > f3.extent_max.y
    then { f3 with extent_max := { f3.extent_max with y := dy } } else f3
  (f4, ⟨dx, dy⟩)

/-- The loop of `fctx_transform_points`, from index `i`, for `n` more points. -/
def transform_loop {β : Type} (advance : FPoint) (ppoints : Nat → FPoint) :
    Nat → Nat → FContext β → (Nat → FPoint) → FContext β × (Nat → FPoint)
  | 0, _, fctx, tpoints => (fctx, tpoints)
  | n + 1, i, fctx, tpoints =>
    let r := transform_point fctx (ppoints i) advance
    transform_loop advance ppoints n (i + 1) r.1 (Function.update tpoints i r.2)

/-- The function `fctx_transform_points(fctx, pcount, ppoints, tpoints, advance)`: the context and the
array `tpoints` after the call.  The arrays are maps from index to point; `ppoints` and
`tpoints` are distinct arrays, as in `fctx_draw_commands`. -/
def fctx_transform_points {β : Type} (fctx : FContext β) (pcount : Nat)
    (ppoints tpoints : Nat → FPoint) (advance : FPoint) : FContext β × (Nat → FPoint) :=
  transform_loop advance ppoints pcount 0 fctx tpoints

/-- The three values taken by the local `fctx_draw_cmd_func func` of
`fctx_draw_commands`. -/
inductive DrawFunc where
  | move_to
  | line_to
  | curve_to
deriving DecidableEq, Repr

/-- The call `func(fctx, tpoints)`. -/
def call_func {β : Type} (plot : PlotEdge β) (func : DrawFunc) (fctx : FContext β)
    (tpoints : Nat → FPoint) : Option (FContext β) :=
  match func with
  | .move_to => fctx_move_to_func fctx tpoints
  | .line_to => fctx_line_to_func plot fctx tpoints
  | .curve_to => fctx_curve_to_func plot fctx tpoints

/-- The variables of the loop of `fctx_draw_commands`: the context, the pointer
`path_data` (as a byte offset from its initial value), the locals `initpt`, `curpt`,
`ctrlpt` and the array `tpoints`. -/
structure DrawState (β : Type) where
  fctx : FContext β
  path_data : Nat
  initpt : FPoint
  curpt : FPoint
  ctrlpt : FPoint
  tpoints : Nat → FPoint

/-- The outcome of the `switch` of `fctx_draw_commands`: a failed assertion inside
`fctx_line_to_func`, the `default:` branch (`return`), or the chosen `func` with the
updated variables (`path_data` already advanced past the parameters read). -/
inductive SwitchResult (β : Type) where
  | crashed
  | invalid
  | ok (func : DrawFunc) (s : DrawState β)

/-- The array `FPoint ppoints[3]` at its declaration: indeterminate in C; every entry that
is read has been stored by the same `case`. -/
def ppoints_uninit : Nat → FPoint := fun _ => ⟨0, 0⟩

/-- The `switch (cmd->code)` of `fctx_draw_commands`.  The map `mem` gives the 16-bit
value stored at a byte offset of the buffer; `*param++` reads it as `fixed16_t`. -/
def draw_switch {β : Type} (plot : PlotEdge β) (advance : FPoint) (mem : Nat → Nat)
    (s : DrawState β) : SwitchResult β :=
  let code := mem s.path_data
  let param : Nat → Int := fun k => toInt16 (mem (s.path_data + 2 + 2 * k))
  if code = 77 then -- 'M'
    let ppoints := Function.update ppoints_uninit 0 ⟨param 0, param 1⟩
    let curpt := ppoints 0
    let initpt := curpt
    let r := fctx_transform_points s.fctx 1 ppoints s.tpoints advance
    .ok .move_to { s with fctx := r.1, tpoints := r.2, curpt := curpt, initpt := initpt,
                           path_data := s.path_data + 2 + 2 * 2 }
  else if code = 90 then -- 'Z'
    let ppoints := Function.update ppoints_uninit 0 s.initpt
    let curpt := ppoints 0
    let r := fctx_transform_points s.fctx 1 ppoints s.tpoints advance
    .ok .line_to { s with fctx := r.1, tpoints := r.2, curpt := curpt,
                           path_data := s.path_data + 2 }
  else if code = 76 then -- 'L'
    let ppoints := Function.update ppoints_uninit 0 ⟨param 0, param 1⟩
    let curpt := ppoints 0
    let r := fctx_transform_points s.fctx 1 ppoints s.tpoints advance
    match fctx_line_to_func plot r.1 r.2 with
    | none => .crashed
    | some f =>
      .ok .line_to { s with fctx := f, tpoints := r.2, curpt := curpt,
                             path_data := s.path_data + 2 + 2 * 2 }
  else if code = 72 then -- 'H'
    let ppoints := Function.update ppoints_uninit 0 ⟨param 0, s.curpt.y⟩
    let curpt : FPoint := { s.curpt with x := (ppoints 0).x }
    let r := fctx_transform_points s.fctx 1 ppoints s.tpoints advance
    .ok .line_to { s with fctx := r.1, tpoints := r.2, curpt := curpt,
                           path_data := s.path_data + 2 + 2 * 1 }
  else if code = 86 then -- 'V'
    let ppoints := Function.update ppoints_uninit 0 ⟨s.curpt.x, param 0⟩
    let curpt : FPoint := { s.curpt with y := (ppoints 0).y }
    let r := fctx_transform_points s.fctx 1 ppoints s.tpoints advance
    match fctx_line_to_func plot r.1 r.2 with
    | none => .crashed
    | some f =>
      .ok .line_to { s with fctx := f, tpoints := r.2, curpt := curpt,
                             path_data := s.path_data + 2 + 2 * 1 }
  else if code = 67 then -- 'C'
    let p0 : FPoint := ⟨param 0, param 1⟩
    let p1 : FPoint := ⟨param 2, param 3⟩
    let p2 : FPoint := ⟨param 4, param 5⟩
    let ppoints := Function.update (Function.update (Function.update ppoints_uninit 0 p0) 1 p1) 2 p2
    let r := fctx_transform_points s.fctx 3 ppoints s.tpoints advance
    .ok .curve_to { s with fctx := r.1, tpoints := r.2, ctrlpt := p1, curpt := p2,
                            path_data := s.path_data + 2 + 2 * 6 }
  else if code = 83 then -- 'S'
    let p1 : FPoint := ⟨param 0, param 1⟩
    let p2 : FPoint := ⟨param 2, param 3⟩
    let p0 : FPoint := ⟨s.curpt.x - s.ctrlpt.x + s.curpt.x, s.curpt.y - s.ctrlpt.y + s.curpt.y⟩
    let ppoints := Function.update (Function.update (Function.update ppoints_uninit 1 p1) 2 p2) 0 p0
    let r := fctx_transform_points s.fctx 3 ppoints s.tpoints advance
    .ok .curve_to { s with fctx := r.1, tpoints := r.2, ctrlpt := p1, curpt := p2,
                            path_data := s.path_data + 2 + 2 * 4 }
  else if code = 81 then -- 'Q'
    let ctrlpt : FPoint := ⟨param 0, param 1⟩
    let p2 : FPoint := ⟨param 2, param 3⟩
    let p0 : FPoint := ⟨Int.tdiv (s.curpt.x + 2 * ctrlpt.x) 3, Int.tdiv (s.curpt.y + 2 * ctrlpt.y) 3⟩
    let p1 : FPoint := ⟨Int.tdiv (p2.x + 2 * ctrlpt.x) 3, Int.tdiv (p2.y + 2 * ctrlpt.y) 3⟩
    let ppoints := Function.update (Function.update (Function.update ppoints_uninit 2 p2) 0 p0) 1 p1
    let r := fctx_transform_points s.fctx 3 ppoints s.tpoints advance
    .ok .curve_to { s with fctx := r.1, tpoints := r.2, ctrlpt := ctrlpt, curpt := p2,
                            path_data := s.path_data + 2 + 2 * 4 }
  else if code = 84 then -- 'T'
    let ctrlpt : FPoint :=
      ⟨s.curpt.x - s.ctrlpt.x + s.curpt.x, s.curpt.y - s.ctrlpt.y + s.curpt.y⟩
    let p2 : FPoint := ⟨param 0, param 1⟩
    let p0 : FPoint := ⟨Int.tdiv (s.curpt.x + 2 * ctrlpt.x) 3, Int.tdiv (s.curpt.y + 2 * ctrlpt.y) 3⟩
    let p1 : FPoint := ⟨Int.tdiv (p2.x + 2 * ctrlpt.x) 3, Int.tdiv (p2.y + 2 * ctrlpt.y) 3⟩
    let ppoints := Function.update (Function.update (Function.update ppoints_uninit 2 p2) 0 p0) 1 p1
    let r := fctx_transform_points s.fctx 3 ppoints s.tpoints advance
    .ok .curve_to { s with fctx := r.1, tpoints := r.2, ctrlpt := ctrlpt, curpt := p2,
                            path_data := s.path_data + 2 + 2 * 2 }
  else .invalid

/-- One iteration of the `while` loop of `fctx_draw_commands`: `none` when an assertion
fails; otherwise the variables after the iteration and whether the loop goes on
(`false`: the `default:` branch returned). -/
def draw_command {β : Type} (plot : PlotEdge β) (advance : FPoint) (mem : Nat → Nat)
    (s : DrawState β) : Option (DrawState β × Bool) :=
  match draw_switch plot advance mem s with
  | .crashed => none
  | .invalid => some (s, false)
  | .ok func s1 =>
    match call_func plot func s1.fctx s1.tpoints with
    | none => none
    | some f => some ({ s1 with fctx := f }, true)

/-- The loop `while (path_data < path_data_end)` of `fctx_draw_commands`.  The first
argument bounds the number of iterations; every iteration advances `path_data` by at
least 2 bytes, so `length` iterations always suffice. -/
def draw_loop {β : Type} (plot : PlotEdge β) (advance : FPoint) (mem : Nat → Nat)
    (length : Nat) : Nat → DrawState β → Option (FContext β)
  | 0, s => some s.fctx
  | n + 1, s =>
    if s.path_data < length then
      match draw_command plot advance mem s with
      | none => none
      | some (s1, true) => draw_loop plot advance mem length n s1
      | some (s1, false) => some s1.fctx
    else some s.fctx

/-- The function `fctx_draw_commands(fctx, advance, path_data, length)`, with `plot` the active
`fctx_plot_edge`; `mem` gives the 16-bit value stored at each byte offset from
`path_data`.  The result is `none` when an assertion fails. -/
def fctx_draw_commands {β : Type} (plot : PlotEdge β) (fctx : FContext β) (advance : FPoint)
    (mem : Nat → Nat) (length : Nat) : Option (FContext β) :=
  draw_loop plot advance mem length length
    { fctx := fctx, path_data := 0, initpt := ⟨0, 0⟩, curpt := ⟨0, 0⟩, ctrlpt := ⟨0, 0⟩,
      tpoints := fun _ => ⟨0, 0⟩ }

/-- The 16-bit loads of a buffer holding the words `ws` one after the other. -/
def wordsAt (ws : List Nat) : Nat → Nat := fun off => ws.getD (off / 2) 0

/-- A plot-edge function that only records its calls: the flag buffer is the list of the
edges `(a, b)` it has been called with, oldest first. -/
def plot_log : PlotEdge (List (FPoint × FPoint)) :=
  fun fctx a b => some { fctx with flag_buffer := fctx.flag_buffer ++ [(a, b)] }

/-- A context for `plot_log` with the identity transform and an empty record. -/
def log_context : FContext (List (FPoint × FPoint)) :=
  { flag_buffer := []
    flag_bounds := ⟨0, 0, 144, 168⟩
    extent_min := ⟨0, 0⟩
    extent_max := ⟨0, 0⟩
    path_init_point := ⟨0, 0⟩
    path_cur_point := ⟨0, 0⟩
    transform_offset := ⟨0, 0⟩
    transform_scale_from := ⟨1, 1⟩
    transform_scale_to := ⟨1, 1⟩
    subpixel_adjust := 0
    fill_color := ⟨3, 0, 0, 0⟩ }

/-- The function `fctx_set_fill_color(fctx, c)`. -/
def fctx_set_fill_color {β : Type} (fctx : FContext β) (c : GColor8) : FContext β :=
  { fctx with fill_color := c }

/-! ## Notions used in the statements -/

/-- The device-space image of a path point `p` under the transform of `fctx`:
`(p + advance) * scale_to / scale_from + offset + subpixel_adjust` on each axis. -/
def device_point {β : Type} (fctx : FContext β) (p advance : FPoint) : FPoint :=
  ⟨Int.tdiv ((p.x + advance.x) * fctx.transform_scale_to.x) fctx.transform_scale_from.x
      + fctx.transform_offset.x + fctx.subpixel_adjust,
   Int.tdiv ((p.y + advance.y) * fctx.transform_scale_to.y) fctx.transform_scale_from.y
      + fctx.transform_offset.y + fctx.subpixel_adjust⟩

/-- Two contexts that differ at most in `extent_min` and `extent_max`. -/
def SameButExtents {β : Type} (f g : FContext β) : Prop :=
  g = { f with extent_min := g.extent_min, extent_max := g.extent_max }

/-- The bounding box of `g` contains the bounding box of `f`. -/
def ExtentsGrow {β : Type} (f g : FContext β) : Prop :=
  g.extent_min.x ≤ f.extent_min.x ∧ g.extent_min.y ≤ f.extent_min.y ∧
  f.extent_max.x ≤ g.extent_max.x ∧ f.extent_max.y ≤ g.extent_max.y

/-- The point `t` lies in the bounding box of `g`. -/
def InExtents {β : Type} (g : FContext β) (t : FPoint) : Prop :=
  g.extent_min.x ≤ t.x ∧ t.x ≤ g.extent_max.x ∧ g.extent_min.y ≤ t.y ∧ t.y ≤ g.extent_max.y

/-- The midpoint of two points, with C's truncating division. -/
def midpoint (a b : FPoint) : FPoint := ⟨Int.tdiv (a.x + b.x) 2, Int.tdiv (a.y + b.y) 2⟩

/-- The chain of edges that one round of midpoint subdivision of the cubic
`P1 P2 P3 P4` yields in `bezier`, in plotting order. -/
def flattened (P1 P2 P3 P4 : FPoint) : List (FPoint × FPoint) :=
  let p12 := midpoint P1 P2
  let p23 := midpoint P2 P3
  let p34 := midpoint P3 P4
  let p123 := midpoint p12 p23
  let p234 := midpoint p23 p34
  [(P1, p12), (p12, p123), (p123, p234), (p234, p34), (p34, P4)]

/-! ## Concrete scenes -/

/-- The SDK colour `GColorWhite`. -/
def GColorWhite : GColor8 := ⟨3, 3, 3, 3⟩

/-- The SDK colour `GColorBlack`. -/
def GColorBlack : GColor8 := ⟨3, 0, 0, 0⟩

/-- A rectangular 8-bit frame buffer of `w` by `h` pixels, every pixel of colour `c`:
every row has the valid span `0 .. w - 1`. -/
def fb_rect (w h : Int) (c : GColor8) : GBitmap GColor8 :=
  { mem := fun _ => c
    bounds := ⟨0, 0, w, h⟩
    bytes_per_row := w
    row_info := fun row => ⟨row * w, 0, w - 1⟩ }

/-- First valid column of a row of a round 180 by 180 display: the first pixel of the
row whose centre lies in the inscribed circle. -/
def round_min_x (row : Int) : Int :=
  ((List.range 90).find? fun c =>
    (2 * (c : Int) - 179) ^ 2 + (2 * row - 179) ^ 2 ≤ 180 ^ 2).getD 90

/-- The frame buffer of a round 180 by 180 display (8-bit circular format), every
pixel of colour `c`: row `row` has the valid span
`round_min_x row .. 179 - round_min_x row`. -/
def fb_round (c : GColor8) : GBitmap GColor8 :=
  { mem := fun _ => c
    bounds := ⟨0, 0, 180, 180⟩
    bytes_per_row := 180
    row_info := fun row => ⟨row * 180, round_min_x row, 179 - round_min_x row⟩ }

/-- An `FContext` before `fctx_init_context`. -/
def ctx_uninit : FContext (GBitmap Nat) :=
  { flag_buffer := gbitmap_create_blank_1bit 0 0
    flag_bounds := ⟨0, 0, 0, 0⟩
    extent_min := ⟨0, 0⟩
    extent_max := ⟨0, 0⟩
    path_init_point := ⟨0, 0⟩
    path_cur_point := ⟨0, 0⟩
    transform_offset := ⟨0, 0⟩
    transform_scale_from := ⟨0, 0⟩
    transform_scale_to := ⟨0, 0⟩
    subpixel_adjust := 0
    fill_color := ⟨0, 0, 0, 0⟩ }

/-- The call sequence `fctx_init_context_bw`, `fctx_set_fill_color`, `fctx_begin_fill`,
`fctx_draw_commands` (zero advance, the path made of the words `ws`),
`fctx_end_fill_bw` on the frame buffer `fb`: the context and the frame buffer at the
end. -/
def fill_bw (fb : GBitmap GColor8) (color : GColor8) (ws : List Nat) :
    Option (FContext (GBitmap Nat) × GBitmap GColor8) :=
  let c0 := fctx_init_context_bw ctx_uninit fb
  let c1 := fctx_set_fill_color c0 color
  let c2 := fctx_begin_fill c1
  (fctx_draw_commands fctx_plot_edge_bw c2 ⟨0, 0⟩ (wordsAt ws) (2 * ws.length)).map
    fun c3 => fctx_end_fill_bw c3 fb

/-- The same call sequence with the anti-aliased rasterizer. -/
def fill_aa (fb : GBitmap GColor8) (color : GColor8) (ws : List Nat) :
    Option (FContext (GBitmap Nat) × GBitmap GColor8) :=
  let c0 := fctx_init_context_aa ctx_uninit fb
  let c1 := fctx_set_fill_color c0 color
  let c2 := fctx_begin_fill c1
  (fctx_draw_commands fctx_plot_edge_aa c2 ⟨0, 0⟩ (wordsAt ws) (2 * ws.length)).map
    fun c3 => fctx_end_fill_aa c3 fb

/-- The rectangle with corners (60, 0) and (120, 4), in pixels:
`M 960 0  L 1920 0  L 1920 64  L 960 64  Z`. -/
def path_rectangle : List Nat := [77, 960, 0, 76, 1920, 0, 76, 1920, 64, 76, 960, 64, 90]

/-- A triangle whose right side is the vertical line x = 2281/16 (between the centres of
the pixel columns 142 and 143): `M 2281 8  L 2281 40  L 2201 40  Z`. -/
def path_triangle : List Nat := [77, 2281, 8, 76, 2281, 40, 76, 2201, 40, 90]

/-- The same kind of triangle for the anti-aliased sampling grid:
`M 2288 1  L 2288 17  L 2208 17  Z`. -/
def path_triangle_aa : List Nat := [77, 2288, 1, 76, 2288, 17, 76, 2208, 17, 90]

/-- One cubic from the origin: `C 0 16  16 16  16 0`. -/
def path_cubic : List Nat := [67, 0, 16, 16, 16, 16, 0]

/-! ## Notions used in the statements about flattening -/

/-- The vertices of the chain plotted by `bezier` for the cubic `P1 P2 P3 P4`, in
plotting order. -/
def flattened_vertices (P1 P2 P3 P4 : FPoint) : List FPoint :=
  let p12 := midpoint P1 P2
  let p23 := midpoint P2 P3
  let p34 := midpoint P3 P4
  [P1, p12, midpoint p12 p23, midpoint p23 p34, p34, P4]

/-- The sum over the edges of the horizontal extent `|b.x - a.x|`. -/
def edges_dx (es : List (FPoint × FPoint)) : Int := (es.map fun e => |e.2.x - e.1.x|).sum

/-- The sum over the edges of the vertical extent `|b.y - a.y|`. -/
def edges_dy (es : List (FPoint × FPoint)) : Int := (es.map fun e => |e.2.y - e.1.y|).sum

/-- The cross product of `b - a` and `v - a`: zero exactly when `v` lies on the line
through `a` and `b`; its absolute value is the distance of `v` from that line times the
length of `b - a`. -/
def cross (a b v : FPoint) : Int := (b.x - a.x) * (v.y - a.y) - (b.y - a.y) * (v.x - a.x)

/-- The edges joining the consecutive points of a list. -/
def chain_edges (vs : List FPoint) : List (FPoint × FPoint) := vs.zip vs.tail

/-! ## Notions used in the statements about path decoding -/

/-- The number of `*param++` reads in the `case` of the `switch` of `fctx_draw_commands`
for the opcode `code`; `none` for the `default:` branch. -/
def param_count (code : Nat) : Option Nat :=
  if code = 77 then some 2      -- 'M'
  else if code = 90 then some 0 -- 'Z'
  else if code = 76 then some 2 -- 'L'
  else if code = 72 then some 1 -- 'H'
  else if code = 86 then some 1 -- 'V'
  else if code = 67 then some 6 -- 'C'
  else if code = 83 then some 4 -- 'S'
  else if code = 81 then some 4 -- 'Q'
  else if code = 84 then some 2 -- 'T'
  else none

/-- The byte offsets of the 16-bit loads of one iteration of the loop of
`fctx_draw_commands` with `path_data` at offset `pos`: the opcode, then the parameters
of the record, in the order of the loads. -/
def record_reads (mem : Nat → Nat) (pos : Nat) : List Nat :=
  match param_count (mem pos) with
  | none => [pos]
  | some n => pos :: (List.range n).map fun k => pos + 2 + 2 * k

/-- The offsets at which the loop of `fctx_draw_commands` loads an opcode, in order, when no
assertion fails: the loop goes on while `pos < length` and stops at an unknown opcode
(the first argument bounds the number of iterations). -/
def record_starts (mem : Nat → Nat) (length : Nat) : Nat → Nat → List Nat
  | 0, _ => []
  | fuel + 1, pos =>
    if pos < length then
      match param_count (mem pos) with
      | none => [pos]
      | some n => pos :: record_starts mem length fuel (pos + 2 + 2 * n)
    else []

/-- All the offsets of the 16-bit loads of `fctx_draw_commands`, in the order of the
loads. -/
def stream_reads (mem : Nat → Nat) (length : Nat) : List Nat :=
  (record_starts mem length length 0).flatMap (record_reads mem)

/-- The offset at which decoding from `pos` stops when every opcode is known: the first
record boundary at or past `length`; `none` when an unknown opcode is met (the first
argument bounds the number of records). -/
def records_end (mem : Nat → Nat) (length : Nat) : Nat → Nat → Option Nat
  | 0, pos => some pos
  | fuel + 1, pos =>
    if pos < length then
      match param_count (mem pos) with
      | none => none
      | some n => records_end mem length fuel (pos + 2 + 2 * n)
    else some pos

/-- The first `length` bytes of the buffer are a valid record sequence: records with known
opcodes, one after the other, the last one ending exactly at `length`. -/
def ValidRecords (mem : Nat → Nat) (length : Nat) : Prop :=
  records_end mem length length 0 = some length

instance (mem : Nat → Nat) (length : Nat) : Decidable (ValidRecords mem length) := by
  unfold ValidRecords; infer_instance

/-- What one `case` of the `switch` of `fctx_draw_commands` has decoded before it calls
`fctx_transform_points`: the chosen `func`, the point count and the array `ppoints`
handed to the transform, the number of parameters read, the new values of the locals
`initpt`, `curpt`, `ctrlpt`, and whether the `case` itself calls `fctx_line_to_func`
(`L` and `V`). -/
structure Decoded where
  func : DrawFunc
  pcount : Nat
  ppoints : Nat → FPoint
  nparams : Nat
  initpt : FPoint
  curpt : FPoint
  ctrlpt : FPoint
  line_to_in_case : Bool

/-- The decoding part of the `switch` of `fctx_draw_commands`, for the record at byte
offset `pos` and the current locals; `none` for the `default:` branch. -/
def switch_decode (mem : Nat → Nat) (pos : Nat) (initpt curpt ctrlpt : FPoint) :
    Option Decoded :=
  let code := mem pos
  let param : Nat → Int := fun k => toInt16 (mem (pos + 2 + 2 * k))
  if code = 77 then -- 'M'
    some { func := .move_to, pcount := 1, nparams := 2, line_to_in_case := false
           ppoints := Function.update ppoints_uninit 0 ⟨param 0, param 1⟩
           curpt := ⟨param 0, param 1⟩, initpt := ⟨param 0, param 1⟩, ctrlpt := ctrlpt }
  else if code = 90 then -- 'Z'
    some { func := .line_to, pcount := 1, nparams := 0, line_to_in_case := false
           ppoints := Function.update ppoints_uninit 0 initpt
           curpt := initpt, initpt := initpt, ctrlpt := ctrlpt }
  else if code = 76 then -- 'L'
    some { func := .line_to, pcount := 1, nparams := 2, line_to_in_case := true
           ppoints := Function.update ppoints_uninit 0 ⟨param 0, param 1⟩
           curpt := ⟨param 0, param 1⟩, initpt := initpt, ctrlpt := ctrlpt }
  else if code = 72 then -- 'H'
    some { func := .line_to, pcount := 1, nparams := 1, line_to_in_case := false
           ppoints := Function.update ppoints_uninit 0 ⟨param 0, curpt.y⟩
           curpt := ⟨param 0, curpt.y⟩, initpt := initpt, ctrlpt := ctrlpt }
  else if code = 86 then -- 'V'
    some { func := .line_to, pcount := 1, nparams := 1, line_to_in_case := true
           ppoints := Function.update ppoints_uninit 0 ⟨curpt.x, param 0⟩
           curpt := ⟨curpt.x, param 0⟩, initpt := initpt, ctrlpt := ctrlpt }
  else if code = 67 then -- 'C'
    let p0 : FPoint := ⟨param 0, param 1⟩
    let p1 : FPoint := ⟨param 2, param 3⟩
    let p2 : FPoint := ⟨param 4, param 5⟩
    some { func := .curve_to, pcount := 3, nparams := 6, line_to_in_case := false
           ppoints := Function.update (Function.update (Function.update ppoints_uninit 0 p0) 1 p1) 2 p2
           curpt := p2, initpt := initpt, ctrlpt := p1 }
  else if code = 83 then -- 'S'
    let p1 : FPoint := ⟨param 0, param 1⟩
    let p2 : FPoint := ⟨param 2, param 3⟩
    let p0 : FPoint := ⟨curpt.x - ctrlpt.x + curpt.x, curpt.y - ctrlpt.y + curpt.y⟩
    some { func := .curve_to, pcount := 3, nparams := 4, line_to_in_case := false
           ppoints := Function.update (Function.update (Function.update ppoints_uninit 1 p1) 2 p2) 0 p0
           curpt := p2, initpt := initpt, ctrlpt := p1 }
  else if code = 81 then -- 'Q'
    let q : FPoint := ⟨param 0, param 1⟩
    let p2 : FPoint := ⟨param 2, param 3⟩
    let p0 : FPoint := ⟨Int.tdiv (curpt.x + 2 * q.x) 3, Int.tdiv (curpt.y + 2 * q.y) 3⟩
    let p1 : FPoint := ⟨Int.tdiv (p2.x + 2 * q.x) 3, Int.tdiv (p2.y + 2 * q.y) 3⟩
    some { func := .curve_to, pcount := 3, nparams := 4, line_to_in_case := false
           ppoints := Function.update (Function.update (Function.update ppoints_uninit 2 p2) 0 p0) 1 p1
           curpt := p2, initpt := initpt, ctrlpt := q }
  else if code = 84 then -- 'T'
    let q : FPoint := ⟨curpt.x - ctrlpt.x + curpt.x, curpt.y - ctrlpt.y + curpt.y⟩
    let p2 : FPoint := ⟨param 0, param 1⟩
    let p0 : FPoint := ⟨Int.tdiv (curpt.x + 2 * q.x) 3, Int.tdiv (curpt.y + 2 * q.y) 3⟩
    let p1 : FPoint := ⟨Int.tdiv (p2.x + 2 * q.x) 3, Int.tdiv (p2.y + 2 * q.y) 3⟩
    some { func := .curve_to, pcount := 3, nparams := 2, line_to_in_case := false
           ppoints := Function.update (Function.update (Function.update ppoints_uninit 2 p2) 0 p0) 1 p1
           curpt := p2, initpt := initpt, ctrlpt := q }
  else none

/-- The `switch` of `fctx_draw_commands` written as decoding followed by the transform
(and, for `L` and `V`, the call of `fctx_line_to_func` inside the `case`). -/
def draw_switch_decoded {β : Type} (plot : PlotEdge β) (advance : FPoint) (mem : Nat → Nat)
    (s : DrawState β) : SwitchResult β :=
  match switch_decode mem s.path_data s.initpt s.curpt s.ctrlpt with
  | none => .invalid
  | some d =>
    let r := fctx_transform_points s.fctx d.pcount d.ppoints s.tpoints advance
    let s1 : DrawState β :=
      { fctx := r.1, tpoints := r.2, initpt := d.initpt, curpt := d.curpt, ctrlpt := d.ctrlpt,
        path_data := s.path_data + 2 + 2 * d.nparams }
    if d.line_to_in_case then
      match fctx_line_to_func plot r.1 r.2 with
      | none => .crashed
      | some f => .ok d.func { s1 with fctx := f }
    else .ok d.func s1

/-- The plot-edge calls of one iteration of the loop of `fctx_draw_commands`, in order, as
pairs of end points: the call of `fctx_line_to_func` inside the `case` (when
`line_to_in_case`), then the call `func(fctx, tpoints)`; `cur` is the context's
`path_cur_point` before the iteration and `tp` the array `tpoints`. -/
def command_edges (func : DrawFunc) (line_to_in_case : Bool) (cur : FPoint)
    (tp : Nat → FPoint) : List (FPoint × FPoint) :=
  let cur1 := if line_to_in_case then tp 0 else cur
  (if line_to_in_case then [(cur, tp 0)] else []) ++
    match func with
    | .move_to => []
    | .line_to => [(cur1, tp 0)]
    | .curve_to => flattened cur1 (tp 0) (tp 1) (tp 2)

/-- The context's `path_cur_point` after `func(fctx, tpoints)`. -/
def command_cursor (func : DrawFunc) (tp : Nat → FPoint) : FPoint :=
  match func with
  | .move_to => tp 0
  | .line_to => tp 0
  | .curve_to => tp 2

/-- The local variables of `fctx_draw_commands` when the loop is entered: `path_data` at the
start of the buffer, `initpt`, `curpt` and `ctrlpt` zero. -/
def draw_init {β : Type} (fctx : FContext β) : DrawState β :=
  { fctx := fctx, path_data := 0, initpt := ⟨0, 0⟩, curpt := ⟨0, 0⟩, ctrlpt := ⟨0, 0⟩,
    tpoints := fun _ => ⟨0, 0⟩ }

/-- The variables of `fctx_draw_commands` after `k` more iterations of the loop body that
all go on; `none` when one of them fails or takes the `default:` branch. -/
def draw_after {β : Type} (plot : PlotEdge β) (advance : FPoint) (mem : Nat → Nat) :
    Nat → DrawState β → Option (DrawState β)
  | 0, s => some s
  | k + 1, s =>
    match draw_command plot advance mem s with
    | some (s1, true) => draw_after plot advance mem k s1
    | _ => none

/-- The reflection of the point `c` through the point `p`, as the `S` and `T` cases
compute it: `p - c + p` on each axis. -/
def reflect (p c : FPoint) : FPoint := ⟨p.x - c.x + p.x, p.y - c.y + p.y⟩

/-- The control point `(a + 2 q) / 3` of the `Q` and `T` cases, with C's truncating
division. -/
def elevate (a q : FPoint) : FPoint :=
  ⟨Int.tdiv (a.x + 2 * q.x) 3, Int.tdiv (a.y + 2 * q.y) 3⟩

/-- The parameter pair read at the parameter indices `i` and `j` of the record at byte
offset `pos`. -/
def param_point (mem : Nat → Nat) (pos i j : Nat) : FPoint :=
  ⟨toInt16 (mem (pos + 2 + 2 * i)), toInt16 (mem (pos + 2 + 2 * j))⟩

/-- The variables of `fctx_draw_commands` after the first record of the buffer `mem`, for
the recording plot function, the recording context and a zero advance (the initial
variables when that record fails or is unknown). -/
def after_first_record (mem : Nat → Nat) : DrawState (List (FPoint × FPoint)) :=
  (draw_after plot_log ⟨0, 0⟩ mem 1 (draw_init log_context)).getD (draw_init log_context)

/-! ## `ffont.h` and `fctx_draw_string`

The functions `ffont_glyph_info` and `ffont_glyph_outline` are declared in `ffont.h` and
defined in `ffont.c`, which is not embedded here: the glyph lookup and the outline of a
glyph are parameters (`glyph_info`, `glyph_outline`) of everything below. -/

/-- The struct `FFont` of `ffont.h` (`fixed16_t` and `uint16_t` fields). -/
structure FFont where
  units_per_em : Int
  ascent : Int
  descent : Int
  cap_height : Int
  glyph_index_length : Nat
  glyph_table_length : Nat
deriving DecidableEq, Repr

/-- The struct `FGlyph` of `ffont.h`. -/
structure FGlyph where
  path_data_offset : Nat
  path_data_length : Nat
  horiz_adv_x : Int
deriving DecidableEq, Repr

/-- The SDK type `GTextAlignment`. -/
inductive GTextAlignment where
  | GTextAlignmentLeft
  | GTextAlignmentCenter
  | GTextAlignmentRight
deriving DecidableEq, Repr

/-- The enum `FTextAnchor` of `fctx.h`. -/
inductive FTextAnchor where
  | FTextAnchorBaseline
  | FTextAnchorMiddle
  | FTextAnchorTop
  | FTextAnchorBottom
deriving DecidableEq, Repr

/-- The first loop of `fctx_draw_string` (the measurement pass), from the decoder cells
`u` and the width `width`: the final width and cells.  `text` holds the bytes of the
string before its terminating zero; `glyph_info` is `ffont_glyph_info(font, ·)`, with
`none` for the null pointer. -/
def measure_loop (glyph_info : Nat → Option FGlyph) : List Nat → Utf8 → Int → Int × Utf8
  | [], u, width => (width, u)
  | b :: bs, u, width =>
    let u1 := utf8_decode_byte b u
    if u1.state = 0 then
      match glyph_info u1.cp with
      | some glyph => measure_loop glyph_info bs u1 (width + glyph.horiz_adv_x)
      | none => measure_loop glyph_info bs u1 width
    else measure_loop glyph_info bs u1 width

/-- The part of `fctx_draw_string` before the second loop: the value of `advance` and of
`code_point` when the drawing pass starts.  `code_point0` is the indeterminate initial
value of the local `code_point`. -/
def draw_string_start (glyph_info : Nat → Option FGlyph) (text : List Nat) (font : FFont)
    (alignment : GTextAlignment) (anchor : FTextAnchor) (code_point0 : Nat) : FPoint × Nat :=
  let r : Int × Nat :=
    if alignment ≠ .GTextAlignmentLeft then
      let m := measure_loop glyph_info text ⟨0, code_point0⟩ 0
      if alignment = .GTextAlignmentRight then (-m.1, m.2.cp)
      else (Int.tdiv (-m.1) 2, m.2.cp)
    else (0, code_point0)
  let y : Int :=
    if anchor = .FTextAnchorBottom then -font.descent
    else if anchor = .FTextAnchorMiddle then Int.tdiv (-font.ascent) 2
    else if anchor = .FTextAnchorTop then -font.ascent
    else 0
  (⟨r.1, y⟩, r.2)

/-- The second loop of `fctx_draw_string` (the drawing pass), from the decoder cells `u`,
the advance `advance` and the context `fctx`: the context and the local `advance` when the
loop ends, `none` when a call of `fctx_draw_commands` fails.  `glyph_outline` is
`ffont_glyph_outline(font, ·)`, giving the 16-bit value at each byte offset of the
glyph's path data. -/
def draw_glyphs {β : Type} (plot : PlotEdge β) (glyph_info : Nat → Option FGlyph)
    (glyph_outline : FGlyph → Nat → Nat) :
    List Nat → Utf8 → FPoint → FContext β → Option (FContext β × FPoint)
  | [], _, advance, fctx => some (fctx, advance)
  | b :: bs, u, advance, fctx =>
    let u1 := utf8_decode_byte b u
    if u1.state = 0 then
      match glyph_info u1.cp with
      | some glyph =>
        match fctx_draw_commands plot fctx advance (glyph_outline glyph)
            glyph.path_data_length with
        | none => none
        | some fctx1 =>
          draw_glyphs plot glyph_info glyph_outline bs u1
            ⟨advance.x + glyph.horiz_adv_x, advance.y⟩ fctx1
      | none => draw_glyphs plot glyph_info glyph_outline bs u1 advance fctx
    else draw_glyphs plot glyph_info glyph_outline bs u1 advance fctx

/-- The function `fctx_draw_string(fctx, text, font, alignment, anchor)`: the context and the local
`advance` at the end of the function; `none` when a call of `fctx_draw_commands` fails. -/
def fctx_draw_string {β : Type} (plot : PlotEdge β) (fctx : FContext β) (text : List Nat)
    (font : FFont) (glyph_info : Nat → Option FGlyph) (glyph_outline : FGlyph → Nat → Nat)
    (alignment : GTextAlignment) (anchor : FTextAnchor) (code_point0 : Nat) :
    Option (FContext β × FPoint) :=
  let st := draw_string_start glyph_info text font alignment anchor code_point0
  draw_glyphs plot glyph_info glyph_outline text ⟨0, st.2⟩ st.1 fctx

/-- The calls `fctx_draw_commands(fctx, advance, path_data, ...)` that the second loop of
`fctx_draw_string` makes when none fails, as pairs of the advance passed and the glyph
drawn, in order, and the local `advance` when the loop ends. -/
def glyph_calls (glyph_info : Nat → Option FGlyph) :
    List Nat → Utf8 → FPoint → List (FPoint × FGlyph) × FPoint
  | [], _, advance => ([], advance)
  | b :: bs, u, advance =>
    let u1 := utf8_decode_byte b u
    if u1.state = 0 then
      match glyph_info u1.cp with
      | some glyph =>
        let r := glyph_calls glyph_info bs u1 ⟨advance.x + glyph.horiz_adv_x, advance.y⟩
        ((advance, glyph) :: r.1, r.2)
      | none => glyph_calls glyph_info bs u1 advance
    else glyph_calls glyph_info bs u1 advance

/-- The calls of `fctx_draw_commands` made by `fctx_draw_string` and the final
`advance`. -/
def draw_string_calls (glyph_info : Nat → Option FGlyph) (text : List Nat) (font : FFont)
    (alignment : GTextAlignment) (anchor : FTextAnchor) (code_point0 : Nat) :
    List (FPoint × FGlyph) × FPoint :=
  let st := draw_string_start glyph_info text font alignment anchor code_point0
  glyph_calls glyph_info text ⟨0, st.2⟩ st.1

/-- Run the calls `calls` of `fctx_draw_commands` one after the other. -/
def run_calls {β : Type} (plot : PlotEdge β) (glyph_outline : FGlyph → Nat → Nat) :
    List (FPoint × FGlyph) → FContext β → Option (FContext β)
  | [], fctx => some fctx
  | (advance, glyph) :: rest, fctx =>
    match fctx_draw_commands plot fctx advance (glyph_outline glyph)
        glyph.path_data_length with
    | none => none
    | some fctx1 => run_calls plot glyph_outline rest fctx1

/-- The glyphs that a pass over `text` resolves, from the decoder cells `u`: one for
every byte on which `utf8_decode_byte` returns 0 and for whose code point the font has a
glyph. -/
def resolved_glyphs (glyph_info : Nat → Option FGlyph) : List Nat → Utf8 → List FGlyph
  | [], _ => []
  | b :: bs, u =>
    let u1 := utf8_decode_byte b u
    if u1.state = 0 then
      match glyph_info u1.cp with
      | some glyph => glyph :: resolved_glyphs glyph_info bs u1
      | none => resolved_glyphs glyph_info bs u1
    else resolved_glyphs glyph_info bs u1

/-- The sum of the `horiz_adv_x` of a list of glyphs. -/
def total_advance (gs : List FGlyph) : Int := (gs.map (fun g => g.horiz_adv_x)).sum

/-- A font with zero metrics but the given ascent and descent. -/
def font_metrics (ascent descent : Int) : FFont :=
  { units_per_em := 1000, ascent := ascent, descent := descent, cap_height := 0,
    glyph_index_length := 0, glyph_table_length := 0 }

/-- A glyph lookup that knows `A` (advance 10) and `B` (advance 12) only; both glyphs
have an empty outline. -/
def glyphs_AB (code_point : Nat) : Option FGlyph :=
  if code_point = 65 then some ⟨0, 0, 10⟩
  else if code_point = 66 then some ⟨0, 0, 12⟩
  else none

/-- The pairs `(edge.x, edge.y)` of an edge on its next `n` scanlines: the values that the
loops of the plot functions see, one `edge_step` apart. -/
def edge_rows : Nat → Edge → List (Int × Int)
  | 0, _ => []
  | n + 1, e => (e.x, e.y) :: edge_rows n (edge_step e)

/-- The body of the second loop of `fctx_plot_edge_bw` before `edge_step`, for an edge at
column `r.1` of row `r.2`. -/
def toggle_flag (stride max_x : Int) (data : Int → Nat) (r : Int × Int) : Int → Nat :=
  if r.1 < 0 then xorAt data (r.2 * stride) 1
  else if r.1 ≤ max_x then
    xorAt data (r.2 * stride + Int.tdiv r.1 8) (1 <<< (Int.tmod r.1 8).toNat)
  else data

/-- The monochrome context for an 8 by 8 frame buffer, after `fctx_begin_fill`: the flag
plane has 8 rows of 4 bytes, all zero. -/
def ctx_bw_8x8 : FContext (GBitmap Nat) :=
  fctx_begin_fill (fctx_init_context_bw ctx_uninit (fb_rect 8 8 GColorWhite))

/-! ## Notions used in the statements about `fctx_end_fill_bw` and `fctx_end_fill_aa` -/

/-- The local `rowMin` of the end-fill functions when the row loop starts. -/
def fill_row_min {β : Type} (fctx : FContext β) : Int :=
  if toInt16 (FIXED_TO_INT fctx.extent_min.y) < 0 then 0
  else toInt16 (FIXED_TO_INT fctx.extent_min.y)

/-- The local `rowMax` of the end-fill functions when the row loop starts. -/
def fill_row_max {β : Type} (fctx : FContext β) : Int :=
  if toInt16 (FIXED_TO_INT fctx.extent_max.y) ≥ fctx.flag_bounds.size_h
    then toInt16 (fctx.flag_bounds.size_h - 1)
    else toInt16 (FIXED_TO_INT fctx.extent_max.y)

/-- The local `colMin` of the end-fill functions. -/
def fill_col_min {β : Type} (fctx : FContext β) : Int :=
  toInt16 (FIXED_TO_INT fctx.extent_min.x)

/-- The local `colMax` of the end-fill functions. -/
def fill_col_max {β : Type} (fctx : FContext β) : Int :=
  toInt16 (FIXED_TO_INT fctx.extent_max.x)

/-- The local `spanMin` of the end-fill functions for `row`. -/
def span_min (fb : GBitmap GColor8) (colMin row : Int) : Int :=
  toInt16 (if (fb.row_info row).min_x > colMin then (fb.row_info row).min_x else colMin)

/-- The local `spanMax` of the end-fill functions for `row`. -/
def span_max (fb : GBitmap GColor8) (colMax row : Int) : Int :=
  toInt16 (if (fb.row_info row).max_x < colMax then (fb.row_info row).max_x else colMax)

/-- The flag of column `col` as `fctx_end_fill_bw` reads it: `*src & mask` is not zero,
for `src = flagRow.data + col / 8` and `mask = 1 << (col % 8)`. -/
def flag_set_bw (flag : Int → Nat) (flagRow : GBitmapDataRowInfo) (col : Int) : Bool :=
  decide (flag (flagRow.data + Int.tdiv col 8) &&& ((1 <<< (Int.tmod col 8).toNat) % 256) ≠ 0)

/-- The flag byte of column `col` of an 8-bit flag plane is `0xFF`. -/
def flag_full_aa (flag : Int → Nat) (flagRow : GBitmapDataRowInfo) (col : Int) : Bool :=
  decide (flag (flagRow.data + col) = 255)

/-- Whether an odd number of the `n` columns from `lo` on satisfy `ind`. -/
def odd_from (ind : Int → Bool) : Nat → Int → Bool
  | 0, _ => false
  | n + 1, lo => xor (ind lo) (odd_from ind n (lo + 1))

/-- The column at which the end-fill functions clear one more flag after the sweep of a
row: the value of `col` when the column loop ends. -/
def span_end (fb : GBitmap GColor8) (colMin colMax row : Int) : Int :=
  if span_min fb colMin row ≤ span_max fb colMax row then span_max fb colMax row + 1
  else span_min fb colMin row

/-- The columns of `row` whose flag the end-fill functions write: the span and, when it
is left of the row's `max_x`, the column after it. -/
def FlagTouched (fb : GBitmap GColor8) (flagbuf : GBitmap Nat) (colMin colMax row c : Int) :
    Prop :=
  (span_min fb colMin row ≤ c ∧ c ≤ span_max fb colMax row) ∨
  (c = span_end fb colMin colMax row ∧ c < (flagbuf.row_info row).max_x)

/-- The layout facts about the frame buffer and a flag plane that the statements about
the end-fill functions assume for the rows `rowMin .. rowMax`: the spans hold no negative
column, the pixels of the spans of two different rows have different addresses, and the
flags that one row writes are stored apart from the flags in the span of another row.
The map `flag_addr row c` is the address of the flag byte of column `c`. -/
structure FillLayout (fb : GBitmap GColor8) (flagbuf : GBitmap Nat)
    (flag_addr : Int → Int → Int) (colMin colMax rowMin rowMax : Int) : Prop where
  columns : ∀ r, rowMin ≤ r → r ≤ rowMax → 0 ≤ span_min fb colMin r
  pixels : ∀ r r1 c c1, rowMin ≤ r → r ≤ rowMax → rowMin ≤ r1 → r1 ≤ rowMax →
    span_min fb colMin r ≤ c → c ≤ span_max fb colMax r →
    span_min fb colMin r1 ≤ c1 → c1 ≤ span_max fb colMax r1 →
    (fb.row_info r).data + c = (fb.row_info r1).data + c1 → r = r1
  flags : ∀ r r1 c c1, rowMin ≤ r → r ≤ rowMax → rowMin ≤ r1 → r1 ≤ rowMax →
    FlagTouched fb flagbuf colMin colMax r c →
    span_min fb colMin r1 ≤ c1 → c1 ≤ span_max fb colMax r1 →
    flag_addr r c = flag_addr r1 c1 → r = r1

/-- The address of the flag byte of column `c` of `row` in the 1-bit flag plane. -/
def flag_addr_bw (flagbuf : GBitmap Nat) (row c : Int) : Int :=
  (flagbuf.row_info row).data + Int.tdiv c 8

/-- The address of the flag byte of column `c` of `row` in the 8-bit flag plane. -/
def flag_addr_aa (flagbuf : GBitmap Nat) (row c : Int) : Int :=
  (flagbuf.row_info row).data + c

/-- A monochrome context for an 8 by 8 frame buffer whose flag plane has the flags of the
columns 2 and 5 of row 1 set (byte 4 is `0x24`), with the extents of the whole plane and
the fill colour black. -/
def ctx_flags_8x8 : FContext (GBitmap Nat) :=
  { ctx_bw_8x8 with
    flag_buffer := { ctx_bw_8x8.flag_buffer with mem := fun p => if p = 4 then 0x24 else 0 }
    extent_min := ⟨0, 0⟩
    extent_max := ⟨112, 112⟩
    fill_color := GColorBlack }

/-- An anti-aliased context for an 8 by 8 frame buffer whose flag plane has the bytes of
the columns 2 and 5 of row 1 at `0xFF` (addresses 10 and 13), with the extents of the
whole plane and the fill colour black: the 8-bit counterpart of `ctx_flags_8x8`. -/
def ctx_flags_aa_8x8 : FContext (GBitmap Nat) :=
  { fctx_begin_fill (fctx_init_context_aa ctx_uninit (fb_rect 8 8 GColorWhite)) with
    flag_buffer :=
      { (fctx_init_context_aa ctx_uninit (fb_rect 8 8 GColorWhite)).flag_buffer with
        mem := fun p => if p = 10 ∨ p = 13 then 255 else 0 }
    extent_min := ⟨0, 0⟩
    extent_max := ⟨112, 112⟩
    fill_color := GColorBlack }

/-- The pixel at address `p` is a pixel of the span of a row `rowMin .. rowMax` at which
the number of flags `flag_at row c` from the start of the span up to its column is
odd. -/
def FillWritten (fb : GBitmap GColor8) (flag_at : Int → Int → Bool)
    (colMin colMax rowMin rowMax : Int) (p : Int) : Prop :=
  ∃ r c, rowMin ≤ r ∧ r ≤ rowMax ∧
    span_min fb colMin r ≤ c ∧ c ≤ span_max fb colMax r ∧
    p = (fb.row_info r).data + c ∧
    ((List.range (c - span_min fb colMin r + 1).toNat).countP
      (fun i : Nat => flag_at r (span_min fb colMin r + (i : Int)))) % 2 = 1

/-! # Theorems -/

/-! ## UTF-8 decoder -/

theorem land_63 (b : Nat) : b &&& 63 = b % 64 := Nat.and_pow_two_sub_one_eq_mod b 6

theorem land_31 (b : Nat) : b &&& 31 = b % 32 := Nat.and_pow_two_sub_one_eq_mod b 5

theorem land_15 (b : Nat) : b &&& 15 = b % 16 := Nat.and_pow_two_sub_one_eq_mod b 4

theorem shl6_lor (cp b : Nat) : (cp <<< 6) ||| (b &&& 63) = cp * 64 + b % 64 := by
  rw [land_63, Nat.shiftLeft_eq]
  have h : b % 64 < 2 ^ 6 := Nat.mod_lt _ (by decide)
  have h2 := Nat.mul_add_lt_is_or h cp
  rw [Nat.mul_comm] at h2
  exact h2.symm

/-- An ASCII byte in the start state completes a code point. -/
theorem decode_ascii (b cp0 : Nat) (hb : b < 128) :
    utf8_decode_byte b ⟨0, cp0⟩ = ⟨0, b⟩ := by
  simp [utf8_decode_byte, hb]

/-- The lead byte of a two-byte sequence, in the start state or the error state. -/
theorem decode_lead2 (b st cp0 : Nat) (hst : st = 0 ∨ st = 6) (h1 : 192 ≤ b) (h2 : b < 224) :
    utf8_decode_byte b ⟨st, cp0⟩ = ⟨1, b % 32⟩ := by
  have e1 : ¬ b < 128 := by omega
  have e2 : ¬ b < 192 := by omega
  simp [utf8_decode_byte, hst, e1, e2, h2, land_31]

/-- The lead byte of a three-byte sequence, in the start state or the error state. -/
theorem decode_lead3 (b st cp0 : Nat) (hst : st = 0 ∨ st = 6) (h1 : 224 ≤ b) (h2 : b < 240) :
    utf8_decode_byte b ⟨st, cp0⟩ = ⟨2, b % 16⟩ := by
  have e1 : ¬ b < 128 := by omega
  have e2 : ¬ b < 192 := by omega
  have e3 : ¬ b < 224 := by omega
  simp [utf8_decode_byte, hst, e1, e2, e3, h2, land_15]

/-- A byte below `0xC0` in a continuation state is taken as a continuation byte. -/
theorem decode_cont (b st cp : Nat) (h0 : 1 ≤ st) (h5 : st ≤ 5) (hb : b < 192) :
    utf8_decode_byte b ⟨st, cp⟩ = ⟨st - 1, (cp * 64 + b % 64) % 65536⟩ := by
  have e1 : ¬ (st = 0 ∨ st = 6) := by omega
  have e2 : st < 6 := by omega
  simp only [utf8_decode_byte, e1, e2, hb, if_true, if_false]
  have h := shl6_lor cp b
  simp only [Nat.reducePow] at h ⊢
  rw [h]

/-- Decoding the encoding of a multi-byte code point, from the start state or the
error state. -/
theorem feed_encode_multibyte (c st cp0 : Nat) (hst : st = 0 ∨ st = 6)
    (h1 : 0x80 ≤ c) (h2 : c ≤ 0xFFFF) :
    (c < 0x800 → utf8_feed (utf8_encode c) ⟨st, cp0⟩ = ([1, 0], ⟨0, c⟩)) ∧
    (0x800 ≤ c → utf8_feed (utf8_encode c) ⟨st, cp0⟩ = ([2, 1, 0], ⟨0, c⟩)) := by
  constructor
  · intro h3
    have e1 : ¬ c < 0x80 := by omega
    simp only [utf8_encode, e1, h3, if_true, if_false, utf8_feed]
    rw [decode_lead2 _ st cp0 hst (by omega) (by omega)]
    rw [decode_cont _ 1 _ (by omega) (by omega) (by omega)]
    have : ((192 + c / 64) % 32 * 64 + (128 + c % 64) % 64) % 65536 = c := by omega
    rw [this]
  · intro h3
    have e1 : ¬ c < 0x80 := by omega
    have e2 : ¬ c < 0x800 := by omega
    simp only [utf8_encode, e1, e2, if_false, utf8_feed]
    rw [decode_lead3 _ st cp0 hst (by omega) (by omega)]
    rw [decode_cont _ 2 _ (by omega) (by omega) (by omega)]
    rw [decode_cont _ 1 _ (by omega) (by omega) (by omega)]
    have : (((224 + c / 4096) % 16 * 64 + (128 + c / 64 % 64) % 64) % 65536 * 64 +
        (128 + c % 64) % 64) % 65536 = c := by omega
    rw [this]

/-- C3: for every code point `c ≤ 0xFFFF` and every prior content of `*cp`, feeding the
UTF-8 encoding of `c` byte by byte to `utf8_decode_byte` from state 0 returns a non-zero
value on every byte but the last, returns 0 on the last byte, and leaves `*cp = c` (with
the decoder back in state 0). -/
theorem utf8_roundtrip (c cp0 : Nat) (hc : c ≤ 0xFFFF) :
    (∀ v ∈ (utf8_feed (utf8_encode c) ⟨0, cp0⟩).1.dropLast, v ≠ 0) ∧
    (utf8_feed (utf8_encode c) ⟨0, cp0⟩).1.getLast? = some 0 ∧
    (utf8_feed (utf8_encode c) ⟨0, cp0⟩).1.length = (utf8_encode c).length ∧
    (utf8_feed (utf8_encode c) ⟨0, cp0⟩).2 = ⟨0, c⟩ := by
  by_cases h1 : c < 0x80
  · have e : utf8_feed (utf8_encode c) ⟨0, cp0⟩ = ([0], ⟨0, c⟩) := by
      simp only [utf8_encode, h1, if_true, utf8_feed]
      rw [decode_ascii c cp0 (by omega)]
    rw [e]; simp [utf8_encode, h1]
  · have hm := feed_encode_multibyte c 0 cp0 (Or.inl rfl) (by omega) hc
    by_cases h2 : c < 0x800
    · rw [hm.1 h2]; simp [utf8_encode, h1, h2]
    · rw [hm.2 (by omega)]; simp [utf8_encode, h1, h2]

/-- Witness of `utf8_roundtrip` at U+20AC, whose encoding is `E2 82 AC`. -/
theorem utf8_roundtrip_witness :
    (0x20AC ≤ 0xFFFF) ∧ utf8_encode 0x20AC = [0xE2, 0x82, 0xAC] ∧
    (utf8_feed (utf8_encode 0x20AC) ⟨0, 7⟩).2 = ⟨0, 0x20AC⟩ :=
  ⟨by decide, by decide, (utf8_roundtrip 0x20AC 7 (by decide)).2.2.2⟩

/-- C4 (the code at the failing input): in the start state the bytes `0xFE` and `0xFF`
match no branch of `utf8_decode_byte`, so the call returns 0 although no code point was
completed, and `*cp` still holds its prior content (here `0x1234`). -/
theorem utf8_decode_FE_returns_zero :
    utf8_decode_ret 0xFE ⟨0, 0x1234⟩ = 0 ∧ utf8_decode_byte 0xFE ⟨0, 0x1234⟩ = ⟨0, 0x1234⟩ ∧
    utf8_decode_byte 0xFF ⟨0, 0x1234⟩ = ⟨0, 0x1234⟩ := by
  decide

/-- C5 (the code at the failing input): in continuation state 1 the ASCII byte `0x41` is
not rejected; it is consumed as a continuation byte.  The truncated sequence `C3 41`
makes the decoder return 0 with `*cp = 0xC1`, a code point that was never encoded. -/
theorem utf8_ascii_accepted_as_continuation :
    utf8_decode_byte 0x41 ⟨1, 3⟩ = ⟨0, 0xC1⟩ ∧
    utf8_feed [0xC3, 0x41] ⟨0, 0⟩ = ([1, 0], ⟨0, 0xC1⟩) := by
  decide

/-- What `utf8_decode_byte` does reject in the continuation states: every byte from
`0xC0` up moves the decoder to the error state and zeroes `*cp`. -/
theorem utf8_lead_byte_rejected (b st cp : Nat) (h0 : 1 ≤ st) (h5 : st ≤ 5) (hb : 192 ≤ b) :
    utf8_decode_byte b ⟨st, cp⟩ = ⟨6, 0⟩ := by
  have e1 : ¬ (st = 0 ∨ st = 6) := by omega
  have e2 : st < 6 := by omega
  have e3 : ¬ b < 192 := by omega
  simp [utf8_decode_byte, e1, e2, e3]

/-- C6 (the code at the failing input): in the error state an ASCII byte is stored into
`*cp` but the state stays 6, so the call returns 6, not 0: after the invalid byte `0x80`
the well-formed one-byte encoding `0x41` is not reported as a code point. -/
theorem utf8_no_resync_on_ascii :
    utf8_decode_ret 0x41 ⟨6, 0⟩ = 6 ∧ utf8_feed [0x80, 0x41] ⟨0, 0⟩ = ([6, 6], ⟨6, 0x41⟩) := by
  decide

/-- From the error state the decoder does resume on a multi-byte sequence: for every
`c` in `0x80 .. 0xFFFF` the last byte of its encoding returns 0 with `*cp = c`. -/
theorem utf8_resync_multibyte (c cp0 : Nat) (h1 : 0x80 ≤ c) (h2 : c ≤ 0xFFFF) :
    (utf8_feed (utf8_encode c) ⟨6, cp0⟩).1.getLast? = some 0 ∧
    (utf8_feed (utf8_encode c) ⟨6, cp0⟩).2 = ⟨0, c⟩ := by
  have hm := feed_encode_multibyte c 6 cp0 (Or.inr rfl) h1 h2
  by_cases h3 : c < 0x800
  · rw [hm.1 h3]; simp
  · rw [hm.2 (by omega)]; simp

/-! ## Anti-aliased compositing -/

/-- The function `countBits` is the population count of a byte. -/
theorem countBits_popcount (mask : Nat) (h : mask < 256) :
    countBits mask = (List.range 8).countP (fun i => mask.testBit i) := by
  revert mask
  decide!

theorem clamp8_id (a : Nat) (h : a ≤ 8) : clamp8 (a : Int) 0 8 = a := by
  unfold clamp8
  split_ifs <;> omega

/-- The stored channel is the blend formula, the formula stays in the 2-bit range, and
its value lies between the source and the destination channel. -/
theorem blend_channel_spec : ∀ (s d : Fin 4) (a : Fin 9),
    ((blend_channel s d (a.val : Int)).val = (s.val * a.val + d.val * (8 - a.val) + 4) / 8) ∧
    (s.val * a.val + d.val * (8 - a.val) + 4) / 8 < 4 ∧
    min s.val d.val ≤ (blend_channel s d (a.val : Int)).val ∧
    (blend_channel s d (a.val : Int)).val ≤ max s.val d.val ∧
    (a.val = 8 → blend_channel s d (a.val : Int) = s) ∧
    (a.val = 0 → blend_channel s d (a.val : Int) = d) := by
  decide!

/-- C7: in the compositing step of `fctx_end_fill_aa`, for a pixel whose accumulator
`mask` (a byte) has `a` set bits, each of the channels r, g, b becomes
`(src*a + dst*(8-a) + 4) / 8`, a value that stays in the 2-bit range and between
`min(src,dst)` and `max(src,dst)`; the alpha field keeps the destination's value; for
`a = 8` the three channels are those of the fill colour, and for `a = 0` the destination
is unchanged. -/
theorem end_fill_aa_pixel_blend (s dest : GColor8) (mask : Nat) (hm : mask < 256) :
    (List.range 8).countP (fun i => mask.testBit i) ≤ 8 ∧
    (end_fill_aa_pixel s mask dest).a = dest.a ∧
    ((end_fill_aa_pixel s mask dest).r.val =
      (s.r.val * (List.range 8).countP (fun i => mask.testBit i) +
        dest.r.val * (8 - (List.range 8).countP (fun i => mask.testBit i)) + 4) / 8 ∧
     (end_fill_aa_pixel s mask dest).g.val =
      (s.g.val * (List.range 8).countP (fun i => mask.testBit i) +
        dest.g.val * (8 - (List.range 8).countP (fun i => mask.testBit i)) + 4) / 8 ∧
     (end_fill_aa_pixel s mask dest).b.val =
      (s.b.val * (List.range 8).countP (fun i => mask.testBit i) +
        dest.b.val * (8 - (List.range 8).countP (fun i => mask.testBit i)) + 4) / 8) ∧
    ((s.r.val * (List.range 8).countP (fun i => mask.testBit i) +
        dest.r.val * (8 - (List.range 8).countP (fun i => mask.testBit i)) + 4) / 8 < 4 ∧
     (s.g.val * (List.range 8).countP (fun i => mask.testBit i) +
        dest.g.val * (8 - (List.range 8).countP (fun i => mask.testBit i)) + 4) / 8 < 4 ∧
     (s.b.val * (List.range 8).countP (fun i => mask.testBit i) +
        dest.b.val * (8 - (List.range 8).countP (fun i => mask.testBit i)) + 4) / 8 < 4) ∧
    (min s.r.val dest.r.val ≤ (end_fill_aa_pixel s mask dest).r.val ∧
     (end_fill_aa_pixel s mask dest).r.val ≤ max s.r.val dest.r.val ∧
     min s.g.val dest.g.val ≤ (end_fill_aa_pixel s mask dest).g.val ∧
     (end_fill_aa_pixel s mask dest).g.val ≤ max s.g.val dest.g.val ∧
     min s.b.val dest.b.val ≤ (end_fill_aa_pixel s mask dest).b.val ∧
     (end_fill_aa_pixel s mask dest).b.val ≤ max s.b.val dest.b.val) ∧
    ((List.range 8).countP (fun i => mask.testBit i) = 8 →
      (end_fill_aa_pixel s mask dest).r = s.r ∧ (end_fill_aa_pixel s mask dest).g = s.g ∧
      (end_fill_aa_pixel s mask dest).b = s.b) ∧
    ((List.range 8).countP (fun i => mask.testBit i) = 0 →
      end_fill_aa_pixel s mask dest = dest) := by
  have hpc := countBits_popcount mask hm
  have hle : (List.range 8).countP (fun i => mask.testBit i) ≤ 8 := by
    have h := List.countP_le_length (fun i => mask.testBit i) (l := List.range 8)
    simpa using h
  generalize (List.range 8).countP (fun i => mask.testBit i) = n at hpc hle ⊢
  have hr := blend_channel_spec s.r dest.r ⟨n, by omega⟩
  have hg := blend_channel_spec s.g dest.g ⟨n, by omega⟩
  have hb := blend_channel_spec s.b dest.b ⟨n, by omega⟩
  simp only at hr hg hb
  have hcl : clamp8 (countBits mask) 0 8 = (n : Int) := by rw [hpc]; exact clamp8_id n hle
  by_cases h0 : n = 0
  · have hp : end_fill_aa_pixel s mask dest = dest := by
      unfold end_fill_aa_pixel
      rw [hcl, h0]
      simp
    rw [hp]
    subst h0
    have e1 := hr.2.2.2.2.2 rfl
    have e2 := hg.2.2.2.2.2 rfl
    have e3 := hb.2.2.2.2.2 rfl
    rw [e1] at hr
    rw [e2] at hg
    rw [e3] at hb
    refine ⟨hle, rfl, ⟨hr.1, hg.1, hb.1⟩, ⟨hr.2.1, hg.2.1, hb.2.1⟩,
      ⟨hr.2.2.1, hr.2.2.2.1, hg.2.2.1, hg.2.2.2.1, hb.2.2.1, hb.2.2.2.1⟩, ?_, fun _ => rfl⟩
    intro h8
    omega
  · have hp : end_fill_aa_pixel s mask dest =
        { a := dest.a, r := blend_channel s.r dest.r n, g := blend_channel s.g dest.g n,
          b := blend_channel s.b dest.b n } := by
      unfold end_fill_aa_pixel
      rw [hcl]
      have : ¬ ((n : Int) = 0) := by omega
      simp [this]
    rw [hp]
    refine ⟨hle, rfl, ⟨hr.1, hg.1, hb.1⟩, ⟨hr.2.1, hg.2.1, hb.2.1⟩,
      ⟨hr.2.2.1, hr.2.2.2.1, hg.2.2.1, hg.2.2.2.1, hb.2.2.1, hb.2.2.2.1⟩, ?_, ?_⟩
    · intro h8
      exact ⟨hr.2.2.2.2.1 h8, hg.2.2.2.2.1 h8, hb.2.2.2.2.1 h8⟩
    · intro h
      exact absurd h h0

/-- Where the compositing step sits in `fctx_end_fill_aa`: an iteration of the column loop
at a column `col ≤ spanMax` folds the flag byte into the accumulator, clears the flag byte
and stores `end_fill_aa_pixel` of the new accumulator into the destination pixel. -/
theorem end_fill_aa_cols_step (s : GColor8) (fbRow flagRow : GBitmapDataRowInfo)
    (spanMax : Int) (n : Nat) (col : Int) (mask : Nat) (flag : Int → Nat)
    (fb : Int → GColor8) (h : col ≤ spanMax) :
    end_fill_aa_cols s fbRow flagRow spanMax (n + 1) col mask flag fb =
      end_fill_aa_cols s fbRow flagRow spanMax n (col + 1) (mask ^^^ flag (flagRow.data + col))
        (Function.update flag (flagRow.data + col) 0)
        (Function.update fb (fbRow.data + col)
          (end_fill_aa_pixel s (mask ^^^ flag (flagRow.data + col)) (fb (fbRow.data + col)))) := by
  simp only [end_fill_aa_cols, h, if_true]

/-- Witness of `end_fill_aa_pixel_blend`: accumulator `0x0F` (coverage 4/8), red over
white. -/
theorem end_fill_aa_pixel_blend_witness :
    (0x0F < 256) ∧ (end_fill_aa_pixel ⟨3, 3, 0, 0⟩ 0x0F GColorWhite).a = GColorWhite.a :=
  ⟨by decide, (end_fill_aa_pixel_blend ⟨3, 3, 0, 0⟩ GColorWhite 0x0F (by decide)).2.1⟩

/-! ## Transform and bounding box -/

theorem sameButExtents_refl {β : Type} (f : FContext β) : SameButExtents f f := by
  unfold SameButExtents; rfl

theorem sameButExtents_trans {β : Type} {f g h : FContext β}
    (h1 : SameButExtents f g) (h2 : SameButExtents g h) : SameButExtents f h := by
  unfold SameButExtents at *
  rw [h2, h1]

theorem extentsGrow_trans {β : Type} {f g h : FContext β}
    (h1 : ExtentsGrow f g) (h2 : ExtentsGrow g h) : ExtentsGrow f h := by
  unfold ExtentsGrow at *
  omega

theorem inExtents_mono {β : Type} {g h : FContext β} {t : FPoint}
    (h1 : InExtents g t) (h2 : ExtentsGrow g h) : InExtents h t := by
  unfold ExtentsGrow InExtents at *
  omega

theorem device_point_congr {β : Type} {f g : FContext β} (h : SameButExtents f g)
    (p adv : FPoint) : device_point g p adv = device_point f p adv := by
  unfold SameButExtents at h
  rw [h]
  rfl

theorem transform_point_same {β : Type} (f : FContext β) (src adv : FPoint) :
    SameButExtents f (transform_point f src adv).1 := by
  unfold SameButExtents transform_point
  simp only
  split_ifs <;> rfl

theorem transform_point_value {β : Type} (f : FContext β) (src adv : FPoint) :
    (transform_point f src adv).2 = device_point f src adv := by
  unfold transform_point device_point
  simp only [FPoint.mk.injEq]
  constructor <;> ring

theorem transform_point_grow {β : Type} (f : FContext β) (src adv : FPoint) :
    ExtentsGrow f (transform_point f src adv).1 ∧
    InExtents (transform_point f src adv).1 (transform_point f src adv).2 := by
  unfold ExtentsGrow InExtents transform_point
  dsimp only
  split_ifs <;> (try dsimp only at *) <;> omega

/-- The loop of `fctx_transform_points`: what it leaves alone in the context, the growth
of the box, the points it writes and the entries of `tpoints` it does not touch. -/
theorem transform_loop_spec {β : Type} (adv : FPoint) (pp : Nat → FPoint) :
    ∀ (n i : Nat) (f : FContext β) (tp : Nat → FPoint),
      SameButExtents f (transform_loop adv pp n i f tp).1 ∧
      ExtentsGrow f (transform_loop adv pp n i f tp).1 ∧
      (∀ j, i ≤ j → j < i + n →
        (transform_loop adv pp n i f tp).2 j = device_point f (pp j) adv ∧
        InExtents (transform_loop adv pp n i f tp).1 ((transform_loop adv pp n i f tp).2 j)) ∧
      (∀ j, (j < i ∨ i + n ≤ j) → (transform_loop adv pp n i f tp).2 j = tp j) := by
  intro n
  induction n with
  | zero =>
    intro i f tp
    refine ⟨sameButExtents_refl f, ?_, ?_, ?_⟩
    · unfold ExtentsGrow transform_loop; dsimp only; omega
    · intro j h1 h2; omega
    · intro j _; rfl
  | succ n ih =>
    intro i f tp
    have hs := transform_point_same f (pp i) adv
    have hv := transform_point_value f (pp i) adv
    have hg := transform_point_grow f (pp i) adv
    obtain ⟨ih1, ih2, ih3, ih4⟩ := ih (i + 1) (transform_point f (pp i) adv).1
      (Function.update tp i (transform_point f (pp i) adv).2)
    simp only [transform_loop]
    refine ⟨sameButExtents_trans hs ih1, extentsGrow_trans hg.1 ih2, ?_, ?_⟩
    · intro j h1 h2
      by_cases hj : j = i
      · subst hj
        have e := ih4 j (Or.inl (Nat.lt_succ_self j))
        rw [Function.update_same] at e
        rw [e]
        exact ⟨hv, inExtents_mono hg.2 ih2⟩
      · have e := ih3 j (by omega) (by omega)
        exact ⟨by rw [e.1, device_point_congr hs], e.2⟩
    · intro j hj
      have e := ih4 j (by omega)
      rw [e, Function.update_noteq (by omega)]

theorem fctx_transform_points_same {β : Type} (f : FContext β) (n : Nat)
    (pp tp : Nat → FPoint) (adv : FPoint) :
    (fctx_transform_points f n pp tp adv).1.flag_buffer = f.flag_buffer ∧
    (fctx_transform_points f n pp tp adv).1.path_cur_point = f.path_cur_point := by
  have h := (transform_loop_spec adv pp n 0 f tp).1
  unfold SameButExtents at h
  unfold fctx_transform_points
  constructor
  · rw [h]
  · rw [h]

/-- C8: for every context with non-zero `transform_scale_from`, every advance and every
index `i < pcount`, `fctx_transform_points` writes to `tpoints[i]`, on each axis,
`(p + advance) * scale_to / scale_from + offset + subpixel_adjust` with C's truncating
division, for `p = ppoints[i]`; with the identity scale this is
`p + advance + offset + subpixel_adjust`.  The entries of `tpoints` from `pcount` on are
not written, and `ppoints` is only read. -/
theorem fctx_transform_points_formula {β : Type} (fctx : FContext β) (pcount : Nat)
    (ppoints tpoints : Nat → FPoint) (advance : FPoint)
    (_hx : fctx.transform_scale_from.x ≠ 0) (_hy : fctx.transform_scale_from.y ≠ 0) :
    (∀ i, i < pcount →
      ((fctx_transform_points fctx pcount ppoints tpoints advance).2 i).x =
        Int.tdiv (((ppoints i).x + advance.x) * fctx.transform_scale_to.x)
          fctx.transform_scale_from.x + fctx.transform_offset.x + fctx.subpixel_adjust ∧
      ((fctx_transform_points fctx pcount ppoints tpoints advance).2 i).y =
        Int.tdiv (((ppoints i).y + advance.y) * fctx.transform_scale_to.y)
          fctx.transform_scale_from.y + fctx.transform_offset.y + fctx.subpixel_adjust) ∧
    (fctx.transform_scale_from = ⟨1, 1⟩ → fctx.transform_scale_to = ⟨1, 1⟩ →
      ∀ i, i < pcount →
        (fctx_transform_points fctx pcount ppoints tpoints advance).2 i =
          ⟨(ppoints i).x + advance.x + fctx.transform_offset.x + fctx.subpixel_adjust,
           (ppoints i).y + advance.y + fctx.transform_offset.y + fctx.subpixel_adjust⟩) ∧
    (∀ i, pcount ≤ i →
      (fctx_transform_points fctx pcount ppoints tpoints advance).2 i = tpoints i) := by
  obtain ⟨_, _, h3, h4⟩ := transform_loop_spec advance ppoints pcount 0 fctx tpoints
  unfold fctx_transform_points
  refine ⟨?_, ?_, ?_⟩
  · intro i hi
    have e := (h3 i (Nat.zero_le i) (by omega)).1
    rw [e]
    exact ⟨rfl, rfl⟩
  · intro hf ht i hi
    have e := (h3 i (Nat.zero_le i) (by omega)).1
    rw [e]
    unfold device_point
    rw [hf, ht]
    simp
  · intro i hi
    exact h4 i (Or.inr (by omega))

/-- Witness of `fctx_transform_points_formula`: the recording context (identity scale),
one point. -/
theorem fctx_transform_points_formula_witness :
    log_context.transform_scale_from.x ≠ 0 ∧ log_context.transform_scale_from.y ≠ 0 ∧
    (fctx_transform_points log_context 1 (fun _ => ⟨5, 7⟩) (fun _ => ⟨0, 0⟩) ⟨10, 20⟩).2 0
      = ⟨15, 27⟩ :=
  ⟨by decide, by decide,
    (fctx_transform_points_formula log_context 1 (fun _ => ⟨5, 7⟩) (fun _ => ⟨0, 0⟩) ⟨10, 20⟩
      (by decide) (by decide)).2.1 rfl rfl 0 (by decide)⟩

/-- C9: for every context and every call of `fctx_transform_points`, `extent_min` does not
increase and `extent_max` does not decrease on either axis, every point written (index
below `pcount`) lies in the box after the call, and no field of the context other than
`extent_min` and `extent_max` is changed. -/
theorem fctx_transform_points_extents {β : Type} (fctx : FContext β) (pcount : Nat)
    (ppoints tpoints : Nat → FPoint) (advance : FPoint) :
    ((fctx_transform_points fctx pcount ppoints tpoints advance).1.extent_min.x
        ≤ fctx.extent_min.x ∧
     (fctx_transform_points fctx pcount ppoints tpoints advance).1.extent_min.y
        ≤ fctx.extent_min.y ∧
     fctx.extent_max.x
        ≤ (fctx_transform_points fctx pcount ppoints tpoints advance).1.extent_max.x ∧
     fctx.extent_max.y
        ≤ (fctx_transform_points fctx pcount ppoints tpoints advance).1.extent_max.y) ∧
    (∀ i, i < pcount →
      (fctx_transform_points fctx pcount ppoints tpoints advance).1.extent_min.x
        ≤ ((fctx_transform_points fctx pcount ppoints tpoints advance).2 i).x ∧
      ((fctx_transform_points fctx pcount ppoints tpoints advance).2 i).x
        ≤ (fctx_transform_points fctx pcount ppoints tpoints advance).1.extent_max.x ∧
      (fctx_transform_points fctx pcount ppoints tpoints advance).1.extent_min.y
        ≤ ((fctx_transform_points fctx pcount ppoints tpoints advance).2 i).y ∧
      ((fctx_transform_points fctx pcount ppoints tpoints advance).2 i).y
        ≤ (fctx_transform_points fctx pcount ppoints tpoints advance).1.extent_max.y) ∧
    (fctx_transform_points fctx pcount ppoints tpoints advance).1 =
      { fctx with
        extent_min := (fctx_transform_points fctx pcount ppoints tpoints advance).1.extent_min
        extent_max := (fctx_transform_points fctx pcount ppoints tpoints advance).1.extent_max }
    := by
  obtain ⟨h1, h2, h3, _⟩ := transform_loop_spec advance ppoints pcount 0 fctx tpoints
  unfold fctx_transform_points
  refine ⟨h2, ?_, h1⟩
  intro i hi
  exact (h3 i (Nat.zero_le i) (by omega)).2

/-- Witness of `fctx_transform_points_extents`: from the empty box at the origin, the
point (15, 27) is inside the box after the call. -/
theorem fctx_transform_points_extents_witness :
    (0 < 1) ∧
    (fctx_transform_points log_context 1 (fun _ => ⟨5, 7⟩) (fun _ => ⟨0, 0⟩)
        ⟨10, 20⟩).1.extent_min.x
      ≤ ((fctx_transform_points log_context 1 (fun _ => ⟨5, 7⟩) (fun _ => ⟨0, 0⟩)
        ⟨10, 20⟩).2 0).x :=
  ⟨by decide,
    ((fctx_transform_points_extents log_context 1 (fun _ => ⟨5, 7⟩) (fun _ => ⟨0, 0⟩)
      ⟨10, 20⟩).2.1 0 (by decide)).1⟩

/-! ## Curve flattening -/

/-- With the recording plot function, `fctx_curve_to_func` appends the five edges of the
flattened curve and moves the cursor to the end point. -/
theorem curve_to_log (f : FContext (List (FPoint × FPoint))) (params : Nat → FPoint) :
    fctx_curve_to_func plot_log f params =
      some { f with
        flag_buffer := f.flag_buffer ++
          flattened f.path_cur_point (params 0) (params 1) (params 2)
        path_cur_point := params 2 } := by
  simp [fctx_curve_to_func, bezier, plot_log, flattened, midpoint]

/-- For every plot-edge function, `fctx_curve_to_func` calls it on the five edges of
`flattened`, in order, each call on the context returned by the previous one, and then
moves the cursor to the end point. -/
theorem curve_to_plots_flattened {β : Type} (plot : PlotEdge β) (f : FContext β)
    (params : Nat → FPoint) :
    fctx_curve_to_func plot f params =
      ((flattened f.path_cur_point (params 0) (params 1) (params 2)).foldlM
        (fun c e => plot c e.1 e.2) f).bind
        (fun c => some { c with path_cur_point := params 2 }) := by
  simp [fctx_curve_to_func, bezier, flattened, midpoint, List.foldlM]

/-- C10 as stated fails: for the single record `C 0 16 16 16 16 0` the interpreter calls
the plot-edge function 5 times, not 4. -/
theorem cubic_not_four_edges :
    ¬ ((fctx_draw_commands plot_log log_context ⟨0, 0⟩ (wordsAt path_cubic) 14).map
        (fun c => c.flag_buffer.length) = some 4) ∧
    (fctx_draw_commands plot_log log_context ⟨0, 0⟩ (wordsAt path_cubic) 14).map
        (fun c => c.flag_buffer) =
      some [(⟨0, 0⟩, ⟨0, 8⟩), (⟨0, 8⟩, ⟨4, 12⟩), (⟨4, 12⟩, ⟨12, 12⟩), (⟨12, 12⟩, ⟨16, 8⟩),
        (⟨16, 8⟩, ⟨16, 0⟩)] := by
  decide!

/-- C10, amended: for every curve command (`C`, `S`, `Q` or `T`), whatever the state of
the interpreter, the iteration of `fctx_draw_commands` that decodes it flattens the curve
by one round of midpoint subdivision and calls the active plot-edge function exactly 5
times: the calls recorded are the chain `flattened` from the device cursor through the
transformed control points `tpoints[0..2]`, and the cursor ends on `tpoints[2]`. -/
theorem curve_command_plots_five (advance : FPoint) (mem : Nat → Nat)
    (s : DrawState (List (FPoint × FPoint)))
    (h : mem s.path_data = 67 ∨ mem s.path_data = 83 ∨ mem s.path_data = 81 ∨
      mem s.path_data = 84) :
    ∃ s1, draw_command plot_log advance mem s = some (s1, true) ∧
      s1.fctx.flag_buffer = s.fctx.flag_buffer ++
        flattened s.fctx.path_cur_point (s1.tpoints 0) (s1.tpoints 1) (s1.tpoints 2) ∧
      (flattened s.fctx.path_cur_point (s1.tpoints 0) (s1.tpoints 1) (s1.tpoints 2)).length
        = 5 ∧
      s1.fctx.path_cur_point = s1.tpoints 2 := by
  have nM : mem s.path_data ≠ 77 := by omega
  have nZ : mem s.path_data ≠ 90 := by omega
  have nL : mem s.path_data ≠ 76 := by omega
  have nH : mem s.path_data ≠ 72 := by omega
  have nV : mem s.path_data ≠ 86 := by omega
  unfold draw_command draw_switch
  dsimp only
  rw [if_neg nM, if_neg nZ, if_neg nL, if_neg nH, if_neg nV]
  rcases h with h | h | h | h
  · rw [if_pos h]
    simp only [call_func, curve_to_log]
    refine ⟨_, rfl, ?_, rfl, ?_⟩ <;> simp [fctx_transform_points_same]
  · have nC : mem s.path_data ≠ 67 := by omega
    rw [if_neg nC, if_pos h]
    simp only [call_func, curve_to_log]
    refine ⟨_, rfl, ?_, rfl, ?_⟩ <;> simp [fctx_transform_points_same]
  · have nC : mem s.path_data ≠ 67 := by omega
    have nS : mem s.path_data ≠ 83 := by omega
    rw [if_neg nC, if_neg nS, if_pos h]
    simp only [call_func, curve_to_log]
    refine ⟨_, rfl, ?_, rfl, ?_⟩ <;> simp [fctx_transform_points_same]
  · have nC : mem s.path_data ≠ 67 := by omega
    have nS : mem s.path_data ≠ 83 := by omega
    have nQ : mem s.path_data ≠ 81 := by omega
    rw [if_neg nC, if_neg nS, if_neg nQ, if_pos h]
    simp only [call_func, curve_to_log]
    refine ⟨_, rfl, ?_, rfl, ?_⟩ <;> simp [fctx_transform_points_same]

/-- Witness of `curve_command_plots_five`: a `Q` record at the start of a buffer. -/
theorem curve_command_plots_five_witness :
    wordsAt [81, 16, 16, 32, 0] 0 = 81 ∧
    ∃ s1, draw_command plot_log ⟨0, 0⟩ (wordsAt [81, 16, 16, 32, 0])
        ⟨log_context, 0, ⟨0, 0⟩, ⟨0, 0⟩, ⟨0, 0⟩, fun _ => ⟨0, 0⟩⟩ = some (s1, true) ∧
      s1.fctx.flag_buffer = log_context.flag_buffer ++
        flattened log_context.path_cur_point (s1.tpoints 0) (s1.tpoints 1) (s1.tpoints 2) ∧
      (flattened log_context.path_cur_point (s1.tpoints 0) (s1.tpoints 1)
        (s1.tpoints 2)).length = 5 ∧
      s1.fctx.path_cur_point = s1.tpoints 2 :=
  ⟨by decide,
    curve_command_plots_five ⟨0, 0⟩ (wordsAt [81, 16, 16, 32, 0])
      ⟨log_context, 0, ⟨0, 0⟩, ⟨0, 0⟩, ⟨0, 0⟩, fun _ => ⟨0, 0⟩⟩
      (Or.inr (Or.inr (Or.inl (by decide))))⟩

/-! ## Monochrome fill on concrete scenes -/

/-- On a rectangular 180 by 180 frame buffer the rectangle (60, 0)-(120, 4) is filled:
the pixel (80, 1) becomes black, the pixels (59, 1) and (120, 1) stay white. -/
theorem bw_fill_rect_display :
    (fill_bw (fb_rect 180 180 GColorWhite) GColorBlack path_rectangle).map
      (fun r => (r.2.mem (1 * 180 + 80), r.2.mem (1 * 180 + 59), r.2.mem (1 * 180 + 120)))
      = some (GColorBlack, GColorWhite, GColorWhite) := by
  decide!

/-- C1 (the code at the failing input): on the frame buffer of a round display, row 1
has the valid span 74 .. 105.  Filling the rectangle (60, 0)-(120, 4) with the monochrome
rasterizer leaves the pixel (80, 1) white, although it lies strictly inside the polygon:
`fctx_plot_edge_bw` has set the flag of the left side at column 60, and the sweep of
`fctx_end_fill_bw` starts at column 74 with `inside = false`; the flag of column 60 (bit 4
of the flag byte at `1 * 24 + 7`) is never read and is still set after the call. -/
theorem bw_fill_round_display_misses_inside_pixel :
    (fb_round GColorWhite).row_info 1 = ⟨180, 74, 105⟩ ∧
    (fill_bw (fb_round GColorWhite) GColorBlack path_rectangle).map
      (fun r => r.2.mem (1 * 180 + 80)) = some GColorWhite ∧
    GColorWhite ≠ GColorBlack ∧
    (fill_bw (fb_round GColorWhite) GColorBlack path_rectangle).map
      (fun r => r.1.flag_buffer.mem (1 * 24 + 7)) = some 16 := by
  decide!

/-- C2 (the code at the failing input): on a rectangular 144 by 168 frame buffer, after
`fctx_end_fill_bw` has filled the triangle `path_triangle` the flag bit of column 143 in
row 1 (bit 7 of the byte at `1 * 20 + 17`) is still set: the right side of the triangle
is flagged at column 143 = `max_x`, the sweep stops at `colMax` = 142, and the extra
clearing step is guarded by `col < flagRowInfo.max_x`. -/
theorem end_fill_bw_leaves_flag_set :
    (fill_bw (fb_rect 144 168 GColorWhite) GColorBlack path_triangle).map
      (fun r => r.1.flag_buffer.mem (1 * 20 + 17)) = some 128 := by
  decide!

/-- The anti-aliased rasterizer leaves a flag byte behind in the same way: after
`fctx_end_fill_aa` the flag byte of column 143 in row 0 is `0xFC`. -/
theorem end_fill_aa_leaves_flag_set :
    (fill_aa (fb_rect 144 168 GColorWhite) GColorBlack path_triangle_aa).map
      (fun r => r.1.flag_buffer.mem (0 * 144 + 143)) = some 252 := by
  decide!

/-! ## The iteration bounds of the loops are sufficient -/

theorem edge_step_height (e : Edge) : (edge_step e).height = e.height - 1 := by
  unfold edge_step
  dsimp only
  split_ifs <;> rfl

/-- The first loop of the plot functions has stopped after `edge.height` iterations: any
larger bound gives the same edge. -/
theorem skip_rows_bound : ∀ (n m : Nat) (e : Edge),
    e.height.toNat ≤ n → e.height.toNat ≤ m → skip_rows n e = skip_rows m e := by
  intro n
  induction n with
  | zero =>
    intro m e hn _
    cases m with
    | zero => rfl
    | succ m =>
      have : ¬ (e.height > 0 ∧ e.y < 0) := by omega
      simp [skip_rows, this]
  | succ n ih =>
    intro m e hn hm
    cases m with
    | zero =>
      have : ¬ (e.height > 0 ∧ e.y < 0) := by omega
      simp [skip_rows, this]
    | succ m =>
      simp only [skip_rows]
      split_ifs with h
      · have hh := edge_step_height e
        exact ih m (edge_step e) (by omega) (by omega)
      · rfl

/-- The second loop of `fctx_plot_edge_bw` has stopped after `edge.height` iterations. -/
theorem plot_rows_bw_bound (stride max_x max_y : Int) : ∀ (n m : Nat) (e : Edge)
    (data : Int → Nat), e.height.toNat ≤ n → e.height.toNat ≤ m →
    plot_rows_bw stride max_x max_y n e data = plot_rows_bw stride max_x max_y m e data := by
  intro n
  induction n with
  | zero =>
    intro m e data hn _
    cases m with
    | zero => rfl
    | succ m =>
      have : ¬ (e.height > 0 ∧ e.y ≤ max_y) := by omega
      simp [plot_rows_bw, this]
  | succ n ih =>
    intro m e data hn hm
    cases m with
    | zero =>
      have : ¬ (e.height > 0 ∧ e.y ≤ max_y) := by omega
      simp [plot_rows_bw, this]
    | succ m =>
      have hh := edge_step_height e
      by_cases h : e.height > 0 ∧ e.y ≤ max_y
      · simp only [plot_rows_bw, if_pos h]
        exact ih m (edge_step e) _ (by omega) (by omega)
      · simp only [plot_rows_bw, if_neg h]

/-- The second loop of `fctx_plot_edge_aa` has stopped after `edge.height` iterations. -/
theorem plot_rows_aa_bound (flagbuf : GBitmap Nat) (max_y : Int) : ∀ (n m : Nat) (e : Edge)
    (data : Int → Nat), e.height.toNat ≤ n → e.height.toNat ≤ m →
    plot_rows_aa flagbuf max_y n e data = plot_rows_aa flagbuf max_y m e data := by
  intro n
  induction n with
  | zero =>
    intro m e data hn _
    cases m with
    | zero => rfl
    | succ m =>
      have : ¬ (e.height > 0 ∧ e.y ≤ max_y) := by omega
      simp [plot_rows_aa, this]
  | succ n ih =>
    intro m e data hn hm
    cases m with
    | zero =>
      have : ¬ (e.height > 0 ∧ e.y ≤ max_y) := by omega
      simp [plot_rows_aa, this]
    | succ m =>
      have hh := edge_step_height e
      by_cases h : e.height > 0 ∧ e.y ≤ max_y
      · simp only [plot_rows_aa, if_pos h]
        exact ih m (edge_step e) _ (by omega) (by omega)
      · simp only [plot_rows_aa, if_neg h]

/-- The column loop of `fctx_end_fill_bw` has stopped after `spanMax - col + 1`
iterations. -/
theorem end_fill_bw_cols_bound (color : GColor8) (fbRow flagRow : GBitmapDataRowInfo)
    (spanMax : Int) : ∀ (n m : Nat) (col : Int) (inside : Bool) (flag : Int → Nat)
    (fb : Int → GColor8), (spanMax - col + 1).toNat ≤ n → (spanMax - col + 1).toNat ≤ m →
    end_fill_bw_cols color fbRow flagRow spanMax n col inside flag fb =
      end_fill_bw_cols color fbRow flagRow spanMax m col inside flag fb := by
  intro n
  induction n with
  | zero =>
    intro m col inside flag fb hn _
    cases m with
    | zero => rfl
    | succ m =>
      have : ¬ (col ≤ spanMax) := by omega
      simp [end_fill_bw_cols, this]
  | succ n ih =>
    intro m col inside flag fb hn hm
    cases m with
    | zero =>
      have : ¬ (col ≤ spanMax) := by omega
      simp [end_fill_bw_cols, this]
    | succ m =>
      by_cases h : col ≤ spanMax
      · simp only [end_fill_bw_cols, if_pos h]
        exact ih m (col + 1) _ _ _ (by omega) (by omega)
      · simp only [end_fill_bw_cols, if_neg h]

/-- The column loop of `fctx_end_fill_aa` has stopped after `spanMax - col + 1`
iterations. -/
theorem end_fill_aa_cols_bound (s : GColor8) (fbRow flagRow : GBitmapDataRowInfo)
    (spanMax : Int) : ∀ (n m : Nat) (col : Int) (mask : Nat) (flag : Int → Nat)
    (fb : Int → GColor8), (spanMax - col + 1).toNat ≤ n → (spanMax - col + 1).toNat ≤ m →
    end_fill_aa_cols s fbRow flagRow spanMax n col mask flag fb =
      end_fill_aa_cols s fbRow flagRow spanMax m col mask flag fb := by
  intro n
  induction n with
  | zero =>
    intro m col mask flag fb hn _
    cases m with
    | zero => rfl
    | succ m =>
      have : ¬ (col ≤ spanMax) := by omega
      simp [end_fill_aa_cols, this]
  | succ n ih =>
    intro m col mask flag fb hn hm
    cases m with
    | zero =>
      have : ¬ (col ≤ spanMax) := by omega
      simp [end_fill_aa_cols, this]
    | succ m =>
      by_cases h : col ≤ spanMax
      · simp only [end_fill_aa_cols, if_pos h]
        exact ih m (col + 1) _ _ _ (by omega) (by omega)
      · simp only [end_fill_aa_cols, if_neg h]

/-- The row loop of `fctx_end_fill_bw` has stopped after `rowMax - row + 1` iterations. -/
theorem end_fill_bw_rows_bound (color : GColor8) (colMin colMax rowMax : Int) :
    ∀ (n m : Nat) (row : Int) (flagbuf : GBitmap Nat) (fb : GBitmap GColor8),
    (rowMax - row + 1).toNat ≤ n → (rowMax - row + 1).toNat ≤ m →
    end_fill_bw_rows color colMin colMax rowMax n row flagbuf fb =
      end_fill_bw_rows color colMin colMax rowMax m row flagbuf fb := by
  intro n
  induction n with
  | zero =>
    intro m row flagbuf fb hn _
    cases m with
    | zero => rfl
    | succ m =>
      have : ¬ (row ≤ rowMax) := by omega
      simp [end_fill_bw_rows, this]
  | succ n ih =>
    intro m row flagbuf fb hn hm
    cases m with
    | zero =>
      have : ¬ (row ≤ rowMax) := by omega
      simp [end_fill_bw_rows, this]
    | succ m =>
      by_cases h : row ≤ rowMax
      · simp only [end_fill_bw_rows, if_pos h]
        exact ih m (row + 1) _ _ (by omega) (by omega)
      · simp only [end_fill_bw_rows, if_neg h]

/-- The row loop of `fctx_end_fill_aa` has stopped after `rowMax - row + 1` iterations. -/
theorem end_fill_aa_rows_bound (s : GColor8) (colMin colMax rowMax : Int) :
    ∀ (n m : Nat) (row : Int) (flagbuf : GBitmap Nat) (fb : GBitmap GColor8),
    (rowMax - row + 1).toNat ≤ n → (rowMax - row + 1).toNat ≤ m →
    end_fill_aa_rows s colMin colMax rowMax n row flagbuf fb =
      end_fill_aa_rows s colMin colMax rowMax m row flagbuf fb := by
  intro n
  induction n with
  | zero =>
    intro m row flagbuf fb hn _
    cases m with
    | zero => rfl
    | succ m =>
      have : ¬ (row ≤ rowMax) := by omega
      simp [end_fill_aa_rows, this]
  | succ n ih =>
    intro m row flagbuf fb hn hm
    cases m with
    | zero =>
      have : ¬ (row ≤ rowMax) := by omega
      simp [end_fill_aa_rows, this]
    | succ m =>
      by_cases h : row ≤ rowMax
      · simp only [end_fill_aa_rows, if_pos h]
        exact ih m (row + 1) _ _ (by omega) (by omega)
      · simp only [end_fill_aa_rows, if_neg h]

/-- Every record that `fctx_draw_commands` accepts moves `path_data` forward by at least
the two bytes of its opcode. -/
theorem draw_switch_advances {β : Type} (plot : PlotEdge β) (advance : FPoint)
    (mem : Nat → Nat) (s s1 : DrawState β) (func : DrawFunc)
    (h : draw_switch plot advance mem s = .ok func s1) : s.path_data + 2 ≤ s1.path_data := by
  unfold draw_switch at h
  dsimp only at h
  by_cases hM : mem s.path_data = 77
  · rw [if_pos hM] at h; cases h; dsimp only; omega
  rw [if_neg hM] at h
  by_cases hZ : mem s.path_data = 90
  · rw [if_pos hZ] at h; cases h; dsimp only; omega
  rw [if_neg hZ] at h
  by_cases hL : mem s.path_data = 76
  · rw [if_pos hL] at h
    split at h
    · cases h
    · cases h; dsimp only; omega
  rw [if_neg hL] at h
  by_cases hH : mem s.path_data = 72
  · rw [if_pos hH] at h; cases h; dsimp only; omega
  rw [if_neg hH] at h
  by_cases hV : mem s.path_data = 86
  · rw [if_pos hV] at h
    split at h
    · cases h
    · cases h; dsimp only; omega
  rw [if_neg hV] at h
  by_cases hC : mem s.path_data = 67
  · rw [if_pos hC] at h; cases h; dsimp only; omega
  rw [if_neg hC] at h
  by_cases hS : mem s.path_data = 83
  · rw [if_pos hS] at h; cases h; dsimp only; omega
  rw [if_neg hS] at h
  by_cases hQ : mem s.path_data = 81
  · rw [if_pos hQ] at h; cases h; dsimp only; omega
  rw [if_neg hQ] at h
  by_cases hT : mem s.path_data = 84
  · rw [if_pos hT] at h; cases h; dsimp only; omega
  rw [if_neg hT] at h
  cases h

theorem draw_command_advances {β : Type} (plot : PlotEdge β) (advance : FPoint)
    (mem : Nat → Nat) (s s1 : DrawState β)
    (h : draw_command plot advance mem s = some (s1, true)) :
    s.path_data + 2 ≤ s1.path_data := by
  unfold draw_command at h
  split at h
  · cases h
  · cases h
  · rename_i func s2 hsw
    have ha := draw_switch_advances plot advance mem s s2 func hsw
    split at h
    · cases h
    · cases h
      exact ha

/-- The loop of `fctx_draw_commands` has stopped after `length - path_data` iterations:
any larger bound gives the same result. -/
theorem draw_loop_bound {β : Type} (plot : PlotEdge β) (advance : FPoint) (mem : Nat → Nat)
    (length : Nat) : ∀ (n m : Nat) (s : DrawState β),
    length - s.path_data ≤ n → length - s.path_data ≤ m →
    draw_loop plot advance mem length n s = draw_loop plot advance mem length m s := by
  intro n
  induction n with
  | zero =>
    intro m s hn _
    cases m with
    | zero => rfl
    | succ m =>
      have : ¬ (s.path_data < length) := by omega
      simp [draw_loop, this]
  | succ n ih =>
    intro m s hn hm
    cases m with
    | zero =>
      have : ¬ (s.path_data < length) := by omega
      simp [draw_loop, this]
    | succ m =>
      by_cases h : s.path_data < length
      · simp only [draw_loop, if_pos h]
        cases hc : draw_command plot advance mem s with
        | none => rfl
        | some r =>
          obtain ⟨s1, b⟩ := r
          cases b with
          | false => rfl
          | true =>
            have ha := draw_command_advances plot advance mem s s1 hc
            exact ih m s1 (by omega) (by omega)
      · simp only [draw_loop, if_neg h]

/-! ## Flattening of colinear cubics -/

/-- C's `/` by a positive constant in terms of flooring division. -/
theorem tdiv_pos_char (n d : Int) (hd : 0 < d) :
    (0 ≤ n → Int.tdiv n d = n / d) ∧ (n < 0 → Int.tdiv n d = -((-n) / d)) := by
  constructor
  · intro h
    exact Int.tdiv_eq_ediv h (le_of_lt hd)
  · intro h
    have e : n = -(-n) := by omega
    rw [e, Int.neg_tdiv, Int.tdiv_eq_ediv (by omega) (le_of_lt hd)]
    simp

/-- The truncated midpoint of two integers lies between them. -/
theorem tdiv_two_between (a b : Int) (h : a ≤ b) :
    a ≤ Int.tdiv (a + b) 2 ∧ Int.tdiv (a + b) 2 ≤ b := by
  obtain ⟨h1, h2⟩ := tdiv_pos_char (a + b) 2 (by decide)
  by_cases hs : 0 ≤ a + b
  · rw [h1 hs]; omega
  · rw [h2 (by omega)]; omega

/-- Truncating division by 2 is monotone. -/
theorem tdiv_two_mono (a b : Int) (h : a ≤ b) : Int.tdiv a 2 ≤ Int.tdiv b 2 := by
  obtain ⟨a1, a2⟩ := tdiv_pos_char a 2 (by decide)
  obtain ⟨b1, b2⟩ := tdiv_pos_char b 2 (by decide)
  by_cases ha : 0 ≤ a <;> by_cases hb : 0 ≤ b
  · rw [a1 ha, b1 hb]; omega
  · omega
  · rw [a2 (by omega), b1 hb]; omega
  · rw [a2 (by omega), b2 (by omega)]; omega

/-- The truncated midpoint differs from the exact one by a remainder in `-1 .. 1`. -/
theorem tdiv_two_rem (n : Int) : ∃ e : Int, n = 2 * Int.tdiv n 2 + e ∧ -1 ≤ e ∧ e ≤ 1 := by
  obtain ⟨h1, h2⟩ := tdiv_pos_char n 2 (by decide)
  refine ⟨n - 2 * Int.tdiv n 2, by ring, ?_, ?_⟩
  · by_cases hs : 0 ≤ n
    · rw [h1 hs]; omega
    · rw [h2 (by omega)]; omega
  · by_cases hs : 0 ≤ n
    · rw [h1 hs]; omega
    · rw [h2 (by omega)]; omega

/-- The truncated midpoints of a non-decreasing sequence `a1 a2 a3 a4` are in order. -/
theorem midpoints_chain_up (a1 a2 a3 a4 : Int) (h12 : a1 ≤ a2) (h23 : a2 ≤ a3)
    (h34 : a3 ≤ a4) :
    a1 ≤ Int.tdiv (a1 + a2) 2 ∧
    Int.tdiv (a1 + a2) 2 ≤ Int.tdiv (Int.tdiv (a1 + a2) 2 + Int.tdiv (a2 + a3) 2) 2 ∧
    Int.tdiv (Int.tdiv (a1 + a2) 2 + Int.tdiv (a2 + a3) 2) 2 ≤
      Int.tdiv (Int.tdiv (a2 + a3) 2 + Int.tdiv (a3 + a4) 2) 2 ∧
    Int.tdiv (Int.tdiv (a2 + a3) 2 + Int.tdiv (a3 + a4) 2) 2 ≤ Int.tdiv (a3 + a4) 2 ∧
    Int.tdiv (a3 + a4) 2 ≤ a4 := by
  have m1 := tdiv_two_mono (a1 + a2) (a2 + a3) (by omega)
  have m2 := tdiv_two_mono (a2 + a3) (a3 + a4) (by omega)
  have b1 := tdiv_two_between a1 a2 h12
  have b3 := tdiv_two_between a3 a4 h34
  have b12 := tdiv_two_between _ _ m1
  have b23 := tdiv_two_between _ _ m2
  exact ⟨b1.1, b12.1, le_trans b12.2 b23.1, b23.2, b3.2⟩

/-- The truncated midpoints of a non-increasing sequence `a1 a2 a3 a4` are in order. -/
theorem midpoints_chain_down (a1 a2 a3 a4 : Int) (h12 : a2 ≤ a1) (h23 : a3 ≤ a2)
    (h34 : a4 ≤ a3) :
    Int.tdiv (a1 + a2) 2 ≤ a1 ∧
    Int.tdiv (Int.tdiv (a1 + a2) 2 + Int.tdiv (a2 + a3) 2) 2 ≤ Int.tdiv (a1 + a2) 2 ∧
    Int.tdiv (Int.tdiv (a2 + a3) 2 + Int.tdiv (a3 + a4) 2) 2 ≤
      Int.tdiv (Int.tdiv (a1 + a2) 2 + Int.tdiv (a2 + a3) 2) 2 ∧
    Int.tdiv (a3 + a4) 2 ≤ Int.tdiv (Int.tdiv (a2 + a3) 2 + Int.tdiv (a3 + a4) 2) 2 ∧
    a4 ≤ Int.tdiv (a3 + a4) 2 := by
  have m1 := tdiv_two_mono (a2 + a3) (a1 + a2) (by omega)
  have m2 := tdiv_two_mono (a3 + a4) (a2 + a3) (by omega)
  have b1 := tdiv_two_between a2 a1 h12
  have b3 := tdiv_two_between a4 a3 h34
  have b12 := tdiv_two_between _ _ m1
  have b23 := tdiv_two_between _ _ m2
  rw [add_comm a2 a1] at b1
  rw [add_comm a4 a3] at b3
  rw [add_comm (Int.tdiv (a2 + a3) 2)] at b12
  rw [add_comm (Int.tdiv (a3 + a4) 2)] at b23
  exact ⟨b1.2, b12.2, le_trans b23.2 b12.1, b23.1, b3.1⟩

/-- With the recording plot function, `bezier` appends the chain of edges joining the
consecutive `flattened_vertices`. -/
theorem bezier_log (f : FContext (List (FPoint × FPoint))) (x1 y1 x2 y2 x3 y3 x4 y4 : Int) :
    bezier plot_log f x1 y1 x2 y2 x3 y3 x4 y4 =
      some { f with
        flag_buffer := f.flag_buffer ++
          chain_edges (flattened_vertices ⟨x1, y1⟩ ⟨x2, y2⟩ ⟨x3, y3⟩ ⟨x4, y4⟩) } := by
  simp [bezier, plot_log, flattened_vertices, midpoint, chain_edges]

/-- A point whose offset from the line origin is, up to a rounding term `E / 4` per axis,
a vector `α / 4` along the direction `(dx, dy)`, has a cross product with the direction
of at most `|dx| + |dy|`. -/
theorem cross_bound (dx dy u v Eu Ev αu αv : Int) (hu : 4 * u = αu - Eu)
    (hv : 4 * v = αv - Ev) (hα : dx * αv - dy * αu = 0) (hEu : |Eu| ≤ 4) (hEv : |Ev| ≤ 4) :
    |dx * v - dy * u| ≤ |dx| + |dy| := by
  have key : 4 * (dx * v - dy * u) = dy * Eu - dx * Ev := by
    linear_combination dx * hv - dy * hu + hα
  have h1 : |dy * Eu| ≤ |dy| * 4 := by
    rw [abs_mul]; exact mul_le_mul_of_nonneg_left hEu (abs_nonneg _)
  have h2 : |dx * Ev| ≤ |dx| * 4 := by
    rw [abs_mul]; exact mul_le_mul_of_nonneg_left hEv (abs_nonneg _)
  have h3 : |dy * Eu - dx * Ev| ≤ |dy * Eu| + |dx * Ev| := abs_sub _ _
  have h4 : |4 * (dx * v - dy * u)| = 4 * |dx * v - dy * u| := by
    rw [abs_mul]; simp
  rw [key] at h4
  omega

/-- Every vertex of the flattened chain of a colinear cubic lies within rounding distance
of the chord: its cross product with the chord is at most `|dx| + |dy|`, that is, its
distance from the line through `P1` and `P4` is at most `(|dx| + |dy|) / length ≤ √2`
fixed-point units. -/
theorem flattened_vertices_near_chord (x1 y1 x2 y2 x3 y3 x4 y4 : Int)
    (h2 : cross ⟨x1, y1⟩ ⟨x4, y4⟩ ⟨x2, y2⟩ = 0) (h3 : cross ⟨x1, y1⟩ ⟨x4, y4⟩ ⟨x3, y3⟩ = 0) :
    ∀ v ∈ flattened_vertices ⟨x1, y1⟩ ⟨x2, y2⟩ ⟨x3, y3⟩ ⟨x4, y4⟩,
      |cross ⟨x1, y1⟩ ⟨x4, y4⟩ v| ≤ |x4 - x1| + |y4 - y1| := by
  simp only [cross] at h2 h3
  obtain ⟨ex12, hx12, lx12, ux12⟩ := tdiv_two_rem (x1 + x2)
  obtain ⟨ey12, hy12, ly12, uy12⟩ := tdiv_two_rem (y1 + y2)
  obtain ⟨ex23, hx23, lx23, ux23⟩ := tdiv_two_rem (x2 + x3)
  obtain ⟨ey23, hy23, ly23, uy23⟩ := tdiv_two_rem (y2 + y3)
  obtain ⟨ex34, hx34, lx34, ux34⟩ := tdiv_two_rem (x3 + x4)
  obtain ⟨ey34, hy34, ly34, uy34⟩ := tdiv_two_rem (y3 + y4)
  obtain ⟨ex123, hx123, lx123, ux123⟩ :=
    tdiv_two_rem (Int.tdiv (x1 + x2) 2 + Int.tdiv (x2 + x3) 2)
  obtain ⟨ey123, hy123, ly123, uy123⟩ :=
    tdiv_two_rem (Int.tdiv (y1 + y2) 2 + Int.tdiv (y2 + y3) 2)
  obtain ⟨ex234, hx234, lx234, ux234⟩ :=
    tdiv_two_rem (Int.tdiv (x2 + x3) 2 + Int.tdiv (x3 + x4) 2)
  obtain ⟨ey234, hy234, ly234, uy234⟩ :=
    tdiv_two_rem (Int.tdiv (y2 + y3) 2 + Int.tdiv (y3 + y4) 2)
  intro v hv
  simp only [flattened_vertices, midpoint, List.mem_cons, List.mem_singleton,
    List.not_mem_nil, or_false] at hv
  rcases hv with rfl | rfl | rfl | rfl | rfl | rfl
  · simp only [cross]
    have e : (x4 - x1) * (y1 - y1) - (y4 - y1) * (x1 - x1) = 0 := by ring
    rw [e]; simp only [abs_zero]; positivity
  · simp only [cross]
    exact cross_bound _ _ _ _ (2 * ex12) (2 * ey12) (2 * (x2 - x1)) (2 * (y2 - y1))
      (by omega) (by omega) (by linear_combination 2 * h2)
      (abs_le.mpr ⟨by omega, by omega⟩) (abs_le.mpr ⟨by omega, by omega⟩)
  · simp only [cross]
    exact cross_bound _ _ _ _ (ex12 + ex23 + 2 * ex123) (ey12 + ey23 + 2 * ey123)
      (2 * (x2 - x1) + (x3 - x1)) (2 * (y2 - y1) + (y3 - y1))
      (by omega) (by omega) (by linear_combination 2 * h2 + h3)
      (abs_le.mpr ⟨by omega, by omega⟩) (abs_le.mpr ⟨by omega, by omega⟩)
  · simp only [cross]
    exact cross_bound _ _ _ _ (ex23 + ex34 + 2 * ex234) (ey23 + ey34 + 2 * ey234)
      ((x2 - x1) + 2 * (x3 - x1) + (x4 - x1)) ((y2 - y1) + 2 * (y3 - y1) + (y4 - y1))
      (by omega) (by omega) (by linear_combination h2 + 2 * h3)
      (abs_le.mpr ⟨by omega, by omega⟩) (abs_le.mpr ⟨by omega, by omega⟩)
  · simp only [cross]
    exact cross_bound _ _ _ _ (2 * ex34) (2 * ey34)
      (2 * (x3 - x1) + 2 * (x4 - x1)) (2 * (y3 - y1) + 2 * (y4 - y1))
      (by omega) (by omega) (by linear_combination 2 * h3)
      (abs_le.mpr ⟨by omega, by omega⟩) (abs_le.mpr ⟨by omega, by omega⟩)
  · simp only [cross]
    have e : (x4 - x1) * (y4 - y1) - (y4 - y1) * (x4 - x1) = 0 := by ring
    rw [e]; simp only [abs_zero]; positivity

/-- C11: the edges plotted by `bezier` for the cubic `P1 P2 P3 P4` form a connected chain
(each edge starts where the previous one ends) from `P1` to `P4`.  When the control points
are colinear and ordered along the line (each coordinate is monotone along
`P1 P2 P3 P4`), every vertex of the chain lies within rounding distance of the chord (its
cross product with the chord is at most `|dx| + |dy|`), each coordinate is monotone along
the chain, and the horizontal and the vertical extents of the edges sum exactly to those
of the chord.  In particular, when the four points share one x and have non-decreasing
y, every vertex has that x, the vertex y values are non-decreasing from `y1` to `y4`, and
the edge lengths (`|b.y - a.y|`, the edges being vertical) sum exactly to `y4 - y1`. -/
theorem bezier_colinear_chain (f : FContext (List (FPoint × FPoint)))
    (x1 y1 x2 y2 x3 y3 x4 y4 : Int) :
    (bezier plot_log f x1 y1 x2 y2 x3 y3 x4 y4 =
        some { f with
          flag_buffer := f.flag_buffer ++
            chain_edges (flattened_vertices ⟨x1, y1⟩ ⟨x2, y2⟩ ⟨x3, y3⟩ ⟨x4, y4⟩) } ∧
      (flattened_vertices ⟨x1, y1⟩ ⟨x2, y2⟩ ⟨x3, y3⟩ ⟨x4, y4⟩).head? = some ⟨x1, y1⟩ ∧
      (flattened_vertices ⟨x1, y1⟩ ⟨x2, y2⟩ ⟨x3, y3⟩ ⟨x4, y4⟩).getLast? = some ⟨x4, y4⟩ ∧
      (chain_edges (flattened_vertices ⟨x1, y1⟩ ⟨x2, y2⟩ ⟨x3, y3⟩ ⟨x4, y4⟩)).length = 5) ∧
    (cross ⟨x1, y1⟩ ⟨x4, y4⟩ ⟨x2, y2⟩ = 0 → cross ⟨x1, y1⟩ ⟨x4, y4⟩ ⟨x3, y3⟩ = 0 →
      ((x1 ≤ x2 ∧ x2 ≤ x3 ∧ x3 ≤ x4) ∨ (x4 ≤ x3 ∧ x3 ≤ x2 ∧ x2 ≤ x1)) →
      ((y1 ≤ y2 ∧ y2 ≤ y3 ∧ y3 ≤ y4) ∨ (y4 ≤ y3 ∧ y3 ≤ y2 ∧ y2 ≤ y1)) →
      (∀ v ∈ flattened_vertices ⟨x1, y1⟩ ⟨x2, y2⟩ ⟨x3, y3⟩ ⟨x4, y4⟩,
        |cross ⟨x1, y1⟩ ⟨x4, y4⟩ v| ≤ |x4 - x1| + |y4 - y1|) ∧
      (List.Pairwise (fun a b => a ≤ b)
          ((flattened_vertices ⟨x1, y1⟩ ⟨x2, y2⟩ ⟨x3, y3⟩ ⟨x4, y4⟩).map fun v => v.x) ∨
        List.Pairwise (fun a b => b ≤ a)
          ((flattened_vertices ⟨x1, y1⟩ ⟨x2, y2⟩ ⟨x3, y3⟩ ⟨x4, y4⟩).map fun v => v.x)) ∧
      (List.Pairwise (fun a b => a ≤ b)
          ((flattened_vertices ⟨x1, y1⟩ ⟨x2, y2⟩ ⟨x3, y3⟩ ⟨x4, y4⟩).map fun v => v.y) ∨
        List.Pairwise (fun a b => b ≤ a)
          ((flattened_vertices ⟨x1, y1⟩ ⟨x2, y2⟩ ⟨x3, y3⟩ ⟨x4, y4⟩).map fun v => v.y)) ∧
      edges_dx (chain_edges (flattened_vertices ⟨x1, y1⟩ ⟨x2, y2⟩ ⟨x3, y3⟩ ⟨x4, y4⟩))
        = |x4 - x1| ∧
      edges_dy (chain_edges (flattened_vertices ⟨x1, y1⟩ ⟨x2, y2⟩ ⟨x3, y3⟩ ⟨x4, y4⟩))
        = |y4 - y1|) ∧
    (x1 = x2 → x2 = x3 → x3 = x4 → y1 ≤ y2 → y2 ≤ y3 → y3 ≤ y4 →
      (∀ v ∈ flattened_vertices ⟨x1, y1⟩ ⟨x2, y2⟩ ⟨x3, y3⟩ ⟨x4, y4⟩, v.x = x1) ∧
      List.Pairwise (fun a b => a ≤ b)
        ((flattened_vertices ⟨x1, y1⟩ ⟨x2, y2⟩ ⟨x3, y3⟩ ⟨x4, y4⟩).map fun v => v.y) ∧
      edges_dx (chain_edges (flattened_vertices ⟨x1, y1⟩ ⟨x2, y2⟩ ⟨x3, y3⟩ ⟨x4, y4⟩)) = 0 ∧
      edges_dy (chain_edges (flattened_vertices ⟨x1, y1⟩ ⟨x2, y2⟩ ⟨x3, y3⟩ ⟨x4, y4⟩))
        = y4 - y1) := by
  have up := midpoints_chain_up
  have down := midpoints_chain_down
  refine ⟨⟨bezier_log f x1 y1 x2 y2 x3 y3 x4 y4, rfl, rfl, rfl⟩, ?_, ?_⟩
  · intro h2 h3 hx hy
    refine ⟨flattened_vertices_near_chord x1 y1 x2 y2 x3 y3 x4 y4 h2 h3, ?_, ?_, ?_, ?_⟩
    · rcases hx with ⟨a, b, c⟩ | ⟨a, b, c⟩
      · left
        have u := up x1 x2 x3 x4 a b c
        simp only [flattened_vertices, midpoint, List.map, List.pairwise_cons,
          List.mem_cons, List.mem_singleton, List.not_mem_nil, List.Pairwise.nil,
          forall_eq_or_imp, forall_eq, false_imp_iff, implies_true, and_true]
        omega
      · right
        have u := down x1 x2 x3 x4 c b a
        simp only [flattened_vertices, midpoint, List.map, List.pairwise_cons,
          List.mem_cons, List.mem_singleton, List.not_mem_nil, List.Pairwise.nil,
          forall_eq_or_imp, forall_eq, false_imp_iff, implies_true, and_true]
        omega
    · rcases hy with ⟨a, b, c⟩ | ⟨a, b, c⟩
      · left
        have u := up y1 y2 y3 y4 a b c
        simp only [flattened_vertices, midpoint, List.map, List.pairwise_cons,
          List.mem_cons, List.mem_singleton, List.not_mem_nil, List.Pairwise.nil,
          forall_eq_or_imp, forall_eq, false_imp_iff, implies_true, and_true]
        omega
      · right
        have u := down y1 y2 y3 y4 c b a
        simp only [flattened_vertices, midpoint, List.map, List.pairwise_cons,
          List.mem_cons, List.mem_singleton, List.not_mem_nil, List.Pairwise.nil,
          forall_eq_or_imp, forall_eq, false_imp_iff, implies_true, and_true]
        omega
    · simp only [edges_dx, chain_edges, flattened_vertices, midpoint, List.tail, List.zip,
        List.zipWith, List.map, List.sum_cons, List.sum_nil, abs_eq_max_neg]
      rcases hx with ⟨a, b, c⟩ | ⟨a, b, c⟩
      · have u := up x1 x2 x3 x4 a b c
        omega
      · have u := down x1 x2 x3 x4 c b a
        omega
    · simp only [edges_dy, chain_edges, flattened_vertices, midpoint, List.tail, List.zip,
        List.zipWith, List.map, List.sum_cons, List.sum_nil, abs_eq_max_neg]
      rcases hy with ⟨a, b, c⟩ | ⟨a, b, c⟩
      · have u := up y1 y2 y3 y4 a b c
        omega
      · have u := down y1 y2 y3 y4 c b a
        omega
  · intro e1 e2 e3 a b c
    subst e1 e2 e3
    have ux := up x1 x1 x1 x1 (le_refl _) (le_refl _) (le_refl _)
    have uy := up y1 y2 y3 y4 a b c
    refine ⟨?_, ?_, ?_, ?_⟩
    · intro v hv
      simp only [flattened_vertices, midpoint, List.mem_cons, List.mem_singleton,
        List.not_mem_nil, or_false] at hv
      rcases hv with rfl | rfl | rfl | rfl | rfl | rfl <;> dsimp only <;> omega
    · simp only [flattened_vertices, midpoint, List.map, List.pairwise_cons,
        List.mem_cons, List.mem_singleton, List.not_mem_nil, List.Pairwise.nil,
        forall_eq_or_imp, forall_eq, false_imp_iff, implies_true, and_true]
      omega
    · simp only [edges_dx, chain_edges, flattened_vertices, midpoint, List.tail, List.zip,
        List.zipWith, List.map, List.sum_cons, List.sum_nil, abs_eq_max_neg]
      omega
    · simp only [edges_dy, chain_edges, flattened_vertices, midpoint, List.tail, List.zip,
        List.zipWith, List.map, List.sum_cons, List.sum_nil, abs_eq_max_neg]
      omega

/-- Witness of `bezier_colinear_chain`: the vertical cubic (0,0) (0,16) (0,32) (0,48) and
the diagonal cubic (0,0) (16,16) (32,32) (48,48). -/
theorem bezier_colinear_chain_witness :
    ((0 : Int) ≤ 16 ∧ (16 : Int) ≤ 32 ∧ (32 : Int) ≤ 48) ∧
    edges_dy (chain_edges (flattened_vertices ⟨0, 0⟩ ⟨0, 16⟩ ⟨0, 32⟩ ⟨0, 48⟩)) = 48 - 0 ∧
    cross ⟨0, 0⟩ ⟨48, 48⟩ ⟨16, 16⟩ = 0 ∧ cross ⟨0, 0⟩ ⟨48, 48⟩ ⟨32, 32⟩ = 0 ∧
    edges_dx (chain_edges (flattened_vertices ⟨0, 0⟩ ⟨16, 16⟩ ⟨32, 32⟩ ⟨48, 48⟩))
      = |48 - 0| :=
  ⟨by decide,
    ((bezier_colinear_chain log_context 0 0 0 16 0 32 0 48).2.2 rfl rfl rfl
      (by decide) (by decide) (by decide)).2.2.2,
    by decide, by decide,
    ((bezier_colinear_chain log_context 0 0 16 16 32 32 48 48).2.1 (by decide) (by decide)
      (Or.inl ⟨by decide, by decide, by decide⟩)
      (Or.inl ⟨by decide, by decide, by decide⟩)).2.2.2.1⟩

/-! ## Path decoding: records, reads, unknown opcodes -/

/-- The opcodes without a `case` are exactly those outside the nine known ones. -/
theorem param_count_none (code : Nat) (h : param_count code = none) :
    code ≠ 77 ∧ code ≠ 90 ∧ code ≠ 76 ∧ code ≠ 72 ∧ code ≠ 86 ∧ code ≠ 67 ∧ code ≠ 83 ∧
    code ≠ 81 ∧ code ≠ 84 := by
  unfold param_count at h
  refine ⟨?_, ?_, ?_, ?_, ?_, ?_, ?_, ?_, ?_⟩ <;> intro e <;> subst e <;> simp at h

/-- An unknown opcode takes the `default:` branch. -/
theorem draw_switch_invalid {β : Type} (plot : PlotEdge β) (advance : FPoint)
    (mem : Nat → Nat) (s : DrawState β) (h : param_count (mem s.path_data) = none) :
    draw_switch plot advance mem s = .invalid := by
  obtain ⟨nM, nZ, nL, nH, nV, nC, nS, nQ, nT⟩ := param_count_none _ h
  unfold draw_switch
  dsimp only
  rw [if_neg nM, if_neg nZ, if_neg nL, if_neg nH, if_neg nV, if_neg nC, if_neg nS,
    if_neg nQ, if_neg nT]

/-- A record that is accepted has a known opcode and occupies `2 + 2 * n` bytes, `n` the
number of parameters of the opcode. -/
theorem draw_switch_size {β : Type} (plot : PlotEdge β) (advance : FPoint)
    (mem : Nat → Nat) (s s1 : DrawState β) (func : DrawFunc)
    (h : draw_switch plot advance mem s = .ok func s1) :
    ∃ n, param_count (mem s.path_data) = some n ∧ s1.path_data = s.path_data + 2 + 2 * n := by
  cases hp : param_count (mem s.path_data) with
  | none =>
    rw [draw_switch_invalid plot advance mem s hp] at h
    cases h
  | some n =>
    refine ⟨n, rfl, ?_⟩
    unfold param_count at hp
    unfold draw_switch at h
    dsimp only at h
    by_cases hM : mem s.path_data = 77
    · rw [if_pos hM] at h hp; cases h; cases hp; rfl
    rw [if_neg hM] at h hp
    by_cases hZ : mem s.path_data = 90
    · rw [if_pos hZ] at h hp; cases h; cases hp; rfl
    rw [if_neg hZ] at h hp
    by_cases hL : mem s.path_data = 76
    · rw [if_pos hL] at h hp
      cases hp
      split at h
      · cases h
      · cases h; rfl
    rw [if_neg hL] at h hp
    by_cases hH : mem s.path_data = 72
    · rw [if_pos hH] at h hp; cases h; cases hp; rfl
    rw [if_neg hH] at h hp
    by_cases hV : mem s.path_data = 86
    · rw [if_pos hV] at h hp
      cases hp
      split at h
      · cases h
      · cases h; rfl
    rw [if_neg hV] at h hp
    by_cases hC : mem s.path_data = 67
    · rw [if_pos hC] at h hp; cases h; cases hp; rfl
    rw [if_neg hC] at h hp
    by_cases hS : mem s.path_data = 83
    · rw [if_pos hS] at h hp; cases h; cases hp; rfl
    rw [if_neg hS] at h hp
    by_cases hQ : mem s.path_data = 81
    · rw [if_pos hQ] at h hp; cases h; cases hp; rfl
    rw [if_neg hQ] at h hp
    by_cases hT : mem s.path_data = 84
    · rw [if_pos hT] at h hp; cases h; cases hp; rfl
    rw [if_neg hT] at h hp
    cases hp

/-- The opcode offset is among the loads of a record. -/
theorem record_reads_opcode (mem : Nat → Nat) (pos : Nat) : pos ∈ record_reads mem pos := by
  unfold record_reads
  split <;> simp

/-- The parameter offsets are among the loads of a record. -/
theorem record_reads_param (mem : Nat → Nat) (pos n k : Nat)
    (h : param_count (mem pos) = some n) (hk : k < n) :
    pos + 2 + 2 * k ∈ record_reads mem pos := by
  unfold record_reads
  rw [h]
  simp only [List.mem_cons, List.mem_map, List.mem_range]
  exact Or.inr ⟨k, hk, rfl⟩

/-- The `switch` loads nothing but the opcode and the parameters of its record: on two
buffers that agree at the offsets `record_reads` it gives the same outcome. -/
theorem draw_switch_reads {β : Type} (plot : PlotEdge β) (advance : FPoint)
    (mem mem2 : Nat → Nat) (s : DrawState β)
    (h : ∀ off ∈ record_reads mem s.path_data, mem2 off = mem off) :
    draw_switch plot advance mem2 s = draw_switch plot advance mem s := by
  have h0 : mem2 s.path_data = mem s.path_data := h _ (record_reads_opcode mem _)
  cases hp : param_count (mem s.path_data) with
  | none =>
    rw [draw_switch_invalid plot advance mem s hp,
      draw_switch_invalid plot advance mem2 s (by rw [h0]; exact hp)]
  | some n =>
    have hk : ∀ k, k < n → mem2 (s.path_data + 2 + 2 * k) = mem (s.path_data + 2 + 2 * k) :=
      fun k hk => h _ (record_reads_param mem _ n k hp hk)
    unfold param_count at hp
    unfold draw_switch
    dsimp only
    rw [h0]
    by_cases hM : mem s.path_data = 77
    · rw [if_pos hM] at hp; cases hp
      rw [if_pos hM, if_pos hM, hk 0 (by omega), hk 1 (by omega)]
    rw [if_neg hM] at hp; rw [if_neg hM, if_neg hM]
    by_cases hZ : mem s.path_data = 90
    · rw [if_pos hZ, if_pos hZ]
    rw [if_neg hZ] at hp; rw [if_neg hZ, if_neg hZ]
    by_cases hL : mem s.path_data = 76
    · rw [if_pos hL] at hp; cases hp
      rw [if_pos hL, if_pos hL, hk 0 (by omega), hk 1 (by omega)]
    rw [if_neg hL] at hp; rw [if_neg hL, if_neg hL]
    by_cases hH : mem s.path_data = 72
    · rw [if_pos hH] at hp; cases hp
      rw [if_pos hH, if_pos hH, hk 0 (by omega)]
    rw [if_neg hH] at hp; rw [if_neg hH, if_neg hH]
    by_cases hV : mem s.path_data = 86
    · rw [if_pos hV] at hp; cases hp
      rw [if_pos hV, if_pos hV, hk 0 (by omega)]
    rw [if_neg hV] at hp; rw [if_neg hV, if_neg hV]
    by_cases hC : mem s.path_data = 67
    · rw [if_pos hC] at hp; cases hp
      rw [if_pos hC, if_pos hC, hk 0 (by omega), hk 1 (by omega), hk 2 (by omega),
        hk 3 (by omega), hk 4 (by omega), hk 5 (by omega)]
    rw [if_neg hC] at hp; rw [if_neg hC, if_neg hC]
    by_cases hS : mem s.path_data = 83
    · rw [if_pos hS] at hp; cases hp
      rw [if_pos hS, if_pos hS, hk 0 (by omega), hk 1 (by omega), hk 2 (by omega),
        hk 3 (by omega)]
    rw [if_neg hS] at hp; rw [if_neg hS, if_neg hS]
    by_cases hQ : mem s.path_data = 81
    · rw [if_pos hQ] at hp; cases hp
      rw [if_pos hQ, if_pos hQ, hk 0 (by omega), hk 1 (by omega), hk 2 (by omega),
        hk 3 (by omega)]
    rw [if_neg hQ] at hp; rw [if_neg hQ, if_neg hQ]
    by_cases hT : mem s.path_data = 84
    · rw [if_pos hT] at hp; cases hp
      rw [if_pos hT, if_pos hT, hk 0 (by omega), hk 1 (by omega)]
    rw [if_neg hT] at hp
    cases hp

/-- One iteration of the loop loads nothing but the opcode and the parameters of its
record. -/
theorem draw_command_reads {β : Type} (plot : PlotEdge β) (advance : FPoint)
    (mem mem2 : Nat → Nat) (s : DrawState β)
    (h : ∀ off ∈ record_reads mem s.path_data, mem2 off = mem off) :
    draw_command plot advance mem2 s = draw_command plot advance mem s := by
  unfold draw_command
  rw [draw_switch_reads plot advance mem mem2 s h]

/-- After an iteration that goes on, `path_data` is at the end of the record. -/
theorem draw_command_size {β : Type} (plot : PlotEdge β) (advance : FPoint)
    (mem : Nat → Nat) (s s1 : DrawState β)
    (h : draw_command plot advance mem s = some (s1, true)) :
    ∃ n, param_count (mem s.path_data) = some n ∧ s1.path_data = s.path_data + 2 + 2 * n := by
  unfold draw_command at h
  split at h
  · cases h
  · cases h
  · rename_i func s2 hsw
    have ha := draw_switch_size plot advance mem s s2 func hsw
    split at h
    · cases h
    · cases h
      exact ha

/-- The loop loads nothing but the records at `record_starts`: on two buffers that agree at
the loads of these records it gives the same result. -/
theorem draw_loop_reads {β : Type} (plot : PlotEdge β) (advance : FPoint)
    (mem mem2 : Nat → Nat) (length : Nat) : ∀ (fuel : Nat) (s : DrawState β),
    (∀ p ∈ record_starts mem length fuel s.path_data,
      ∀ off ∈ record_reads mem p, mem2 off = mem off) →
    draw_loop plot advance mem2 length fuel s = draw_loop plot advance mem length fuel s := by
  intro fuel
  induction fuel with
  | zero => intro s _; rfl
  | succ fuel ih =>
    intro s h
    by_cases hlt : s.path_data < length
    · simp only [draw_loop, if_pos hlt]
      have hstart : s.path_data ∈ record_starts mem length (fuel + 1) s.path_data := by
        simp only [record_starts, if_pos hlt]
        split <;> simp
      rw [draw_command_reads plot advance mem mem2 s (h _ hstart)]
      cases hc : draw_command plot advance mem s with
      | none => rfl
      | some r =>
        obtain ⟨s1, b⟩ := r
        cases b with
        | false => rfl
        | true =>
          obtain ⟨n, hn, hpos⟩ := draw_command_size plot advance mem s s1 hc
          apply ih s1
          intro p hp
          apply h p
          simp only [record_starts, if_pos hlt, hn]
          rw [hpos] at hp
          exact List.mem_cons_of_mem _ hp
    · simp only [draw_loop, if_neg hlt]

/-- Decoding only moves forward. -/
theorem records_end_le (mem : Nat → Nat) (length : Nat) : ∀ (fuel pos e : Nat),
    records_end mem length fuel pos = some e → pos ≤ e := by
  intro fuel
  induction fuel with
  | zero =>
    intro pos e h
    simp only [records_end, Option.some.injEq] at h
    omega
  | succ fuel ih =>
    intro pos e h
    by_cases hlt : pos < length
    · simp only [records_end, if_pos hlt] at h
      cases hp : param_count (mem pos) with
      | none => rw [hp] at h; cases h
      | some n =>
        rw [hp] at h
        have := ih _ _ h
        omega
    · simp only [records_end, if_neg hlt, Option.some.injEq] at h
      omega

/-- Whether the first `length` bytes are a valid record sequence depends on these bytes
only. -/
theorem records_end_agree (mem mem2 : Nat → Nat) (length : Nat)
    (h : ∀ off, off < length → mem2 off = mem off) : ∀ (fuel pos : Nat),
    records_end mem2 length fuel pos = records_end mem length fuel pos := by
  intro fuel
  induction fuel with
  | zero => intro pos; rfl
  | succ fuel ih =>
    intro pos
    by_cases hlt : pos < length
    · simp only [records_end, if_pos hlt, h pos hlt]
      cases param_count (mem pos) with
      | none => rfl
      | some n => exact ih _
    · simp only [records_end, if_neg hlt]

/-- In a valid record sequence every load lies inside the first `length` bytes. -/
theorem valid_reads_bound (mem : Nat → Nat) (length : Nat) : ∀ (fuel pos : Nat),
    records_end mem length fuel pos = some length →
    ∀ p ∈ record_starts mem length fuel pos, ∀ off ∈ record_reads mem p,
      off + 2 ≤ length := by
  intro fuel
  induction fuel with
  | zero =>
    intro pos _ p hp
    simp [record_starts] at hp
  | succ fuel ih =>
    intro pos h p hp off hoff
    by_cases hlt : pos < length
    · simp only [records_end, if_pos hlt] at h
      simp only [record_starts, if_pos hlt] at hp
      cases hpc : param_count (mem pos) with
      | none => rw [hpc] at h; cases h
      | some n =>
        rw [hpc] at h hp
        have hle := records_end_le mem length _ _ _ h
        rcases List.mem_cons.mp hp with rfl | hp2
        · unfold record_reads at hoff
          rw [hpc] at hoff
          simp only [List.mem_cons, List.mem_map, List.mem_range] at hoff
          rcases hoff with rfl | ⟨k, hk, rfl⟩ <;> omega
        · exact ih _ h p hp2 off hoff
    · simp only [record_starts, if_neg hlt] at hp
      cases hp

/-- Every opcode is loaded from an offset below `length`. -/
theorem record_starts_lt (mem : Nat → Nat) (length : Nat) : ∀ (fuel pos : Nat),
    ∀ p ∈ record_starts mem length fuel pos, pos ≤ p ∧ p < length := by
  intro fuel
  induction fuel with
  | zero =>
    intro pos p hp
    simp [record_starts] at hp
  | succ fuel ih =>
    intro pos p hp
    by_cases hlt : pos < length
    · simp only [record_starts, if_pos hlt] at hp
      cases hpc : param_count (mem pos) with
      | none =>
        rw [hpc] at hp
        simp only [List.mem_singleton] at hp
        omega
      | some n =>
        rw [hpc] at hp
        rcases List.mem_cons.mp hp with rfl | hp2
        · omega
        · have := ih _ p hp2
          omega
    · simp only [record_starts, if_neg hlt] at hp
      cases hp

/-- The loads of one record are in increasing order, from the opcode offset on, and end
before the next record. -/
theorem record_reads_sorted (mem : Nat → Nat) (pos : Nat) :
    List.Pairwise (fun a b => a < b) (record_reads mem pos) ∧
    ∀ off ∈ record_reads mem pos, pos ≤ off ∧
      ∀ n, param_count (mem pos) = some n → off < pos + 2 + 2 * n := by
  unfold record_reads
  cases hp : param_count (mem pos) with
  | none =>
    refine ⟨by simp, ?_⟩
    intro off hoff
    simp only [List.mem_singleton] at hoff
    subst hoff
    exact ⟨le_refl _, fun n hn => by cases hn⟩
  | some n =>
    dsimp only
    refine ⟨?_, ?_⟩
    · rw [List.pairwise_cons]
      refine ⟨?_, ?_⟩
      · intro a ha
        simp only [List.mem_map, List.mem_range] at ha
        obtain ⟨k, _, rfl⟩ := ha
        omega
      · rw [List.pairwise_map]
        exact (List.pairwise_lt_range n).imp (by intro a b hab; omega)
    · intro off hoff
      simp only [List.mem_cons, List.mem_map, List.mem_range] at hoff
      rcases hoff with rfl | ⟨k, hk, rfl⟩
      · exact ⟨le_refl _, fun m hm => by omega⟩
      · refine ⟨by omega, fun m hm => ?_⟩
        cases hm
        omega

/-- The loads of the whole loop are in increasing order: the records are decoded in
order and every opcode and parameter is loaded exactly once. -/
theorem record_starts_reads_sorted (mem : Nat → Nat) (length : Nat) : ∀ (fuel pos : Nat),
    List.Pairwise (fun a b => a < b)
      ((record_starts mem length fuel pos).flatMap (record_reads mem)) ∧
    ∀ off ∈ (record_starts mem length fuel pos).flatMap (record_reads mem), pos ≤ off := by
  intro fuel
  induction fuel with
  | zero =>
    intro pos
    simp [record_starts]
  | succ fuel ih =>
    intro pos
    by_cases hlt : pos < length
    · simp only [record_starts, if_pos hlt]
      obtain ⟨hs, hb⟩ := record_reads_sorted mem pos
      cases hp : param_count (mem pos) with
      | none =>
        simp only [List.flatMap_cons, List.flatMap_nil, List.append_nil]
        exact ⟨hs, fun off hoff => (hb off hoff).1⟩
      | some n =>
        obtain ⟨ih1, ih2⟩ := ih (pos + 2 + 2 * n)
        simp only [List.flatMap_cons]
        refine ⟨?_, ?_⟩
        · rw [List.pairwise_append]
          refine ⟨hs, ih1, ?_⟩
          intro a ha b hb2
          have h1 := (hb a ha).2 n hp
          have h2 := ih2 b hb2
          omega
        · intro off hoff
          rcases List.mem_append.mp hoff with h1 | h1
          · exact (hb off h1).1
          · have := ih2 off h1
            omega
    · simp [record_starts, if_neg hlt]

/-- An unknown opcode right after a valid record sequence ends the call: with the longer
length the loop returns what it returns for the valid prefix alone. -/
theorem draw_loop_until_unknown {β : Type} (plot : PlotEdge β) (advance : FPoint)
    (mem : Nat → Nat) (lenP len2 : Nat) (hlen : lenP < len2)
    (hbad : param_count (mem lenP) = none) : ∀ (fuel n m : Nat) (s : DrawState β),
    records_end mem lenP fuel s.path_data = some lenP →
    len2 - s.path_data ≤ n → lenP - s.path_data ≤ m →
    draw_loop plot advance mem len2 n s = draw_loop plot advance mem lenP m s := by
  have stop : ∀ (n m : Nat) (s : DrawState β), s.path_data = lenP →
      len2 - s.path_data ≤ n →
      draw_loop plot advance mem len2 n s = draw_loop plot advance mem lenP m s := by
    intro n m s hs hn
    have e2 : draw_loop plot advance mem lenP m s = some s.fctx := by
      cases m with
      | zero => rfl
      | succ m => simp only [draw_loop, hs, lt_irrefl, if_false]
    rw [e2]
    cases n with
    | zero => omega
    | succ n =>
      have hlt : s.path_data < len2 := by omega
      have hb : param_count (mem s.path_data) = none := by rw [hs]; exact hbad
      simp only [draw_loop, if_pos hlt, draw_command,
        draw_switch_invalid plot advance mem s hb]
  intro fuel
  induction fuel with
  | zero =>
    intro n m s h hn hm
    simp only [records_end, Option.some.injEq] at h
    exact stop n m s h hn
  | succ fuel ih =>
    intro n m s h hn hm
    by_cases hlt : s.path_data < lenP
    · simp only [records_end, if_pos hlt] at h
      cases n with
      | zero => omega
      | succ n =>
        cases m with
        | zero => omega
        | succ m =>
          have hlt2 : s.path_data < len2 := by omega
          simp only [draw_loop, if_pos hlt, if_pos hlt2]
          cases hc : draw_command plot advance mem s with
          | none => rfl
          | some r =>
            obtain ⟨s1, b⟩ := r
            cases b with
            | false => rfl
            | true =>
              obtain ⟨k, hk, hpos⟩ := draw_command_size plot advance mem s s1 hc
              rw [hk] at h
              dsimp only at h
              rw [← hpos] at h
              exact ih n m s1 h (by omega) (by omega)
    · simp only [records_end, if_neg hlt, Option.some.injEq] at h
      exact stop n m s h hn

/-- C12: for every buffer `memP` whose first `lenP` bytes are a valid record sequence P,
and every buffer `mem` that holds the same bytes followed by a record with an unknown
opcode (at offset `lenP`) and any further bytes, up to a length `len2 > lenP`:
`fctx_draw_commands` on `mem` returns exactly the context (or fails exactly) as it does on
P alone.  What was plotted for P stays, nothing after the unknown opcode is
interpreted. -/
theorem unknown_opcode_aborts {β : Type} (plot : PlotEdge β) (fctx : FContext β)
    (advance : FPoint) (memP mem : Nat → Nat) (lenP len2 : Nat)
    (hvalid : ValidRecords memP lenP) (hagree : ∀ off, off < lenP → mem off = memP off)
    (hbad : param_count (mem lenP) = none) (hlen : lenP < len2) :
    fctx_draw_commands plot fctx advance mem len2 =
      fctx_draw_commands plot fctx advance memP lenP := by
  have hv2 : records_end mem lenP lenP 0 = some lenP := by
    rw [records_end_agree memP mem lenP hagree]
    exact hvalid
  unfold fctx_draw_commands
  rw [draw_loop_until_unknown plot advance mem lenP len2 hlen hbad lenP len2 lenP _ hv2
    (by dsimp only; omega) (by dsimp only; omega)]
  apply draw_loop_reads
  intro p hp off hoff
  have hb := valid_reads_bound memP lenP lenP 0 hvalid p hp off hoff
  exact hagree off (by omega)

/-- Witness of `unknown_opcode_aborts`: `M 16 16  L 32 16` followed by the unknown opcode
88 and six more words. -/
theorem unknown_opcode_aborts_witness :
    ValidRecords (wordsAt [77, 16, 16, 76, 32, 16]) 12 ∧
    param_count (wordsAt [77, 16, 16, 76, 32, 16, 88, 1, 2, 76, 5, 5] 12) = none ∧
    fctx_draw_commands plot_log log_context ⟨0, 0⟩
        (wordsAt [77, 16, 16, 76, 32, 16, 88, 1, 2, 76, 5, 5]) 24 =
      fctx_draw_commands plot_log log_context ⟨0, 0⟩ (wordsAt [77, 16, 16, 76, 32, 16]) 12 :=
  ⟨by decide, by decide,
    unknown_opcode_aborts plot_log log_context ⟨0, 0⟩ (wordsAt [77, 16, 16, 76, 32, 16])
      (wordsAt [77, 16, 16, 76, 32, 16, 88, 1, 2, 76, 5, 5]) 12 24 (by decide) (by decide)
      (by decide) (by decide)⟩

/-- C13 as stated fails: for the buffer `M 5 7` and `length = 2` (the record is cut after
its opcode) the loop still loads the two parameters, at the offsets 2 and 4: the result
depends on them. -/
theorem truncated_record_reads_past_length :
    stream_reads (wordsAt [77, 5, 7]) 2 = [0, 2, 4] ∧
    (fctx_draw_commands plot_log log_context ⟨0, 0⟩ (wordsAt [77, 5, 7]) 2).map
      (fun c => c.path_cur_point) = some ⟨5, 7⟩ ∧
    (fctx_draw_commands plot_log log_context ⟨0, 0⟩ (wordsAt [77, 9, 9]) 2).map
      (fun c => c.path_cur_point) = some ⟨9, 9⟩ ∧
    ¬ (∀ off ∈ stream_reads (wordsAt [77, 5, 7]) 2, off < 2) := by
  decide

/-- C13, amended: `fctx_draw_commands` decodes records of `2 + 2 * n` bytes (`n` = 2 for
M, 0 for Z, 2 for L, 1 for H, 1 for V, 6 for C, 4 for S, 4 for Q, 2 for T), in order,
loading every opcode and parameter exactly once (the offsets of its loads, `stream_reads`,
are strictly increasing, and the result depends on nothing else in the buffer).  For
every buffer and every length every opcode is loaded from an offset below `length`; when
the first `length` bytes are a valid record sequence, every load, parameters included,
lies inside them.  (The parameters of a record cut by `length` are loaded past it.) -/
theorem draw_commands_reads {β : Type} (plot : PlotEdge β) (fctx : FContext β)
    (advance : FPoint) (mem : Nat → Nat) (length : Nat) :
    (param_count 77 = some 2 ∧ param_count 90 = some 0 ∧ param_count 76 = some 2 ∧
      param_count 72 = some 1 ∧ param_count 86 = some 1 ∧ param_count 67 = some 6 ∧
      param_count 83 = some 4 ∧ param_count 81 = some 4 ∧ param_count 84 = some 2) ∧
    (∀ (s s1 : DrawState β), draw_command plot advance mem s = some (s1, true) →
      ∃ n, param_count (mem s.path_data) = some n ∧
        s1.path_data = s.path_data + 2 + 2 * n) ∧
    List.Pairwise (fun a b => a < b) (stream_reads mem length) ∧
    (∀ mem2 : Nat → Nat, (∀ off ∈ stream_reads mem length, mem2 off = mem off) →
      fctx_draw_commands plot fctx advance mem2 length =
        fctx_draw_commands plot fctx advance mem length) ∧
    (∀ p ∈ record_starts mem length length 0, p < length) ∧
    (ValidRecords mem length → ∀ off ∈ stream_reads mem length, off + 2 ≤ length) := by
  refine ⟨by decide, ?_, ?_, ?_, ?_, ?_⟩
  · intro s s1 h
    exact draw_command_size plot advance mem s s1 h
  · exact (record_starts_reads_sorted mem length length 0).1
  · intro mem2 h
    unfold fctx_draw_commands
    apply draw_loop_reads
    intro p hp off hoff
    exact h off (List.mem_flatMap.mpr ⟨p, hp, hoff⟩)
  · intro p hp
    exact (record_starts_lt mem length length 0 p hp).2
  · intro hv off hoff
    obtain ⟨p, hp, hoff2⟩ := List.mem_flatMap.mp hoff
    exact valid_reads_bound mem length length 0 hv p hp off hoff2

/-- Witness of `draw_commands_reads`: the valid sequence `M 16 16  L 32 16` of 12 bytes.
Its first record has 2 parameters and ends at offset 6; its loads are the offsets
0, 2, ..., 10, all inside the 12 bytes; a buffer that differs only past them gives the
same result; the record at offset 0 starts below the length. -/
theorem draw_commands_reads_witness :
    ValidRecords (wordsAt [77, 16, 16, 76, 32, 16]) 12 ∧
    stream_reads (wordsAt [77, 16, 16, 76, 32, 16]) 12 = [0, 2, 4, 6, 8, 10] ∧
    (∀ off ∈ stream_reads (wordsAt [77, 16, 16, 76, 32, 16]) 12, off + 2 ≤ 12) ∧
    (∃ n, param_count (wordsAt [77, 16, 16, 76, 32, 16] (draw_init log_context).path_data)
        = some n ∧
      (after_first_record (wordsAt [77, 16, 16, 76, 32, 16])).path_data =
        (draw_init log_context).path_data + 2 + 2 * n) ∧
    fctx_draw_commands plot_log log_context ⟨0, 0⟩
        (wordsAt [77, 16, 16, 76, 32, 16, 99, 98]) 12 =
      fctx_draw_commands plot_log log_context ⟨0, 0⟩ (wordsAt [77, 16, 16, 76, 32, 16]) 12 ∧
    0 ∈ record_starts (wordsAt [77, 16, 16, 76, 32, 16]) 12 12 0 ∧ 0 < 12 :=
  ⟨by decide, by decide,
    (draw_commands_reads plot_log log_context ⟨0, 0⟩ (wordsAt [77, 16, 16, 76, 32, 16])
      12).2.2.2.2.2 (by decide),
    (draw_commands_reads plot_log log_context ⟨0, 0⟩ (wordsAt [77, 16, 16, 76, 32, 16])
      12).2.1 (draw_init log_context) (after_first_record (wordsAt [77, 16, 16, 76, 32, 16]))
      rfl,
    (draw_commands_reads plot_log log_context ⟨0, 0⟩ (wordsAt [77, 16, 16, 76, 32, 16])
      12).2.2.2.1 (wordsAt [77, 16, 16, 76, 32, 16, 99, 98]) (by decide),
    by decide,
    (draw_commands_reads plot_log log_context ⟨0, 0⟩ (wordsAt [77, 16, 16, 76, 32, 16])
      12).2.2.2.2.1 0 (by decide)⟩

/-! ## The path interpreter, command by command -/

/-- The `switch` of `fctx_draw_commands` is decoding followed by the transform. -/
theorem draw_switch_eq_decoded {β : Type} (plot : PlotEdge β) (advance : FPoint)
    (mem : Nat → Nat) (s : DrawState β) :
    draw_switch plot advance mem s = draw_switch_decoded plot advance mem s := by
  unfold draw_switch draw_switch_decoded switch_decode
  dsimp only
  by_cases hM : mem s.path_data = 77
  · rw [if_pos hM, if_pos hM]; rfl
  rw [if_neg hM, if_neg hM]
  by_cases hZ : mem s.path_data = 90
  · rw [if_pos hZ, if_pos hZ]; rfl
  rw [if_neg hZ, if_neg hZ]
  by_cases hL : mem s.path_data = 76
  · rw [if_pos hL, if_pos hL]; rfl
  rw [if_neg hL, if_neg hL]
  by_cases hH : mem s.path_data = 72
  · rw [if_pos hH, if_pos hH]; rfl
  rw [if_neg hH, if_neg hH]
  by_cases hV : mem s.path_data = 86
  · rw [if_pos hV, if_pos hV]; rfl
  rw [if_neg hV, if_neg hV]
  by_cases hC : mem s.path_data = 67
  · rw [if_pos hC, if_pos hC]; rfl
  rw [if_neg hC, if_neg hC]
  by_cases hS : mem s.path_data = 83
  · rw [if_pos hS, if_pos hS]; rfl
  rw [if_neg hS, if_neg hS]
  by_cases hQ : mem s.path_data = 81
  · rw [if_pos hQ, if_pos hQ]; rfl
  rw [if_neg hQ, if_neg hQ]
  by_cases hT : mem s.path_data = 84
  · rw [if_pos hT, if_pos hT]; rfl
  rw [if_neg hT, if_neg hT]

/-- The locals after an iteration that goes on are the decoded ones, whatever the
plot-edge function. -/
theorem draw_command_locals {β : Type} (plot : PlotEdge β) (advance : FPoint)
    (mem : Nat → Nat) (s s1 : DrawState β)
    (h : draw_command plot advance mem s = some (s1, true)) :
    ∃ d, switch_decode mem s.path_data s.initpt s.curpt s.ctrlpt = some d ∧
      s1.initpt = d.initpt ∧ s1.curpt = d.curpt ∧ s1.ctrlpt = d.ctrlpt ∧
      s1.path_data = s.path_data + 2 + 2 * d.nparams ∧
      s1.tpoints = (fctx_transform_points s.fctx d.pcount d.ppoints s.tpoints advance).2 := by
  unfold draw_command at h
  rw [draw_switch_eq_decoded] at h
  unfold draw_switch_decoded at h
  cases hd : switch_decode mem s.path_data s.initpt s.curpt s.ctrlpt with
  | none => rw [hd] at h; cases h
  | some d =>
    rw [hd] at h
    refine ⟨d, rfl, ?_⟩
    dsimp only at h
    cases hl : d.line_to_in_case with
    | false =>
      rw [hl] at h
      simp only [Bool.false_eq_true, if_false] at h
      split at h
      · cases h
      · cases h
        exact ⟨rfl, rfl, rfl, rfl, rfl⟩
    | true =>
      rw [hl] at h
      simp only [if_true] at h
      split at h
      · cases h
      · cases h
      · rename_i func s2 hsw
        split at hsw
        · cases hsw
        · cases hsw
          split at h
          · cases h
          · cases h
            exact ⟨rfl, rfl, rfl, rfl, rfl⟩

/-- The fields that `SameButExtents` relates. -/
theorem sameButExtents_fields {β : Type} {f g : FContext β} (h : SameButExtents f g) :
    g.flag_buffer = f.flag_buffer ∧ g.path_cur_point = f.path_cur_point ∧
    g.path_init_point = f.path_init_point ∧ g.flag_bounds = f.flag_bounds ∧
    g.fill_color = f.fill_color := by
  unfold SameButExtents at h
  rw [h]
  exact ⟨rfl, rfl, rfl, rfl, rfl⟩

/-- The transform changes nothing but the bounding box. -/
theorem fctx_transform_points_frame {β : Type} (f : FContext β) (n : Nat)
    (pp tp : Nat → FPoint) (adv : FPoint) :
    SameButExtents f (fctx_transform_points f n pp tp adv).1 :=
  (transform_loop_spec adv pp n 0 f tp).1

/-- With the recording plot function every known record is executed, and the resulting
variables are: the decoded locals, the transformed `tpoints`, the record of the plot-edge
calls extended by `command_edges`, the cursor moved to `command_cursor`, the start point
moved by `M` only, the transform left alone. -/
theorem draw_command_log (advance : FPoint) (mem : Nat → Nat)
    (s : DrawState (List (FPoint × FPoint))) (d : Decoded)
    (h : switch_decode mem s.path_data s.initpt s.curpt s.ctrlpt = some d) :
    ∃ s1, draw_command plot_log advance mem s = some (s1, true) ∧
      s1.initpt = d.initpt ∧ s1.curpt = d.curpt ∧ s1.ctrlpt = d.ctrlpt ∧
      s1.path_data = s.path_data + 2 + 2 * d.nparams ∧
      s1.tpoints = (fctx_transform_points s.fctx d.pcount d.ppoints s.tpoints advance).2 ∧
      s1.fctx.flag_buffer = s.fctx.flag_buffer ++
        command_edges d.func d.line_to_in_case s.fctx.path_cur_point s1.tpoints ∧
      s1.fctx.path_cur_point = command_cursor d.func s1.tpoints ∧
      s1.fctx.path_init_point =
        (if d.func = DrawFunc.move_to then s1.tpoints 0 else s.fctx.path_init_point) ∧
      (∀ p a, device_point s1.fctx p a = device_point s.fctx p a) := by
  have hsame := fctx_transform_points_frame s.fctx d.pcount d.ppoints s.tpoints advance
  unfold draw_command
  rw [draw_switch_eq_decoded]
  unfold draw_switch_decoded
  rw [h]
  dsimp only
  generalize fctx_transform_points s.fctx d.pcount d.ppoints s.tpoints advance = r at hsame
  obtain ⟨rf, rt⟩ := r
  dsimp only at hsame ⊢
  obtain ⟨e1, e2, e3, _, _⟩ := sameButExtents_fields hsame
  have hdev : ∀ p a, device_point rf p a = device_point s.fctx p a :=
    fun p a => device_point_congr hsame p a
  cases hl : d.line_to_in_case <;> cases hf : d.func
  · refine ⟨_, rfl, rfl, rfl, rfl, rfl, rfl, ?_, rfl, ?_, ?_⟩
    · simp [command_edges, e1]
    · simp
    · intro p a; exact hdev p a
  · simp only [Bool.false_eq_true, if_false, call_func, fctx_line_to_func, plot_log,
      Option.bind]
    refine ⟨_, rfl, rfl, rfl, rfl, rfl, rfl, ?_, rfl, ?_, ?_⟩
    · simp [command_edges, e1, e2]
    · simp [e3]
    · intro p a; exact hdev p a
  · simp only [Bool.false_eq_true, if_false, call_func, curve_to_log]
    refine ⟨_, rfl, rfl, rfl, rfl, rfl, rfl, ?_, rfl, ?_, ?_⟩
    · simp [command_edges, e1, e2]
    · simp [e3]
    · intro p a; exact hdev p a
  · simp only [if_true, call_func, fctx_line_to_func, fctx_move_to_func, plot_log,
      Option.bind]
    refine ⟨_, rfl, rfl, rfl, rfl, rfl, rfl, ?_, rfl, ?_, ?_⟩
    · simp [command_edges, e1, e2]
    · simp
    · intro p a; exact hdev p a
  · simp only [if_true, call_func, fctx_line_to_func, plot_log, Option.bind]
    refine ⟨_, rfl, rfl, rfl, rfl, rfl, rfl, ?_, rfl, ?_, ?_⟩
    · simp [command_edges, e1, e2]
    · simp [e3]
    · intro p a; exact hdev p a
  · simp only [if_true, call_func, fctx_line_to_func, plot_log, Option.bind, curve_to_log]
    refine ⟨_, rfl, rfl, rfl, rfl, rfl, rfl, ?_, rfl, ?_, ?_⟩
    · simp [command_edges, e1, e2]
    · simp [e3]
    · intro p a; exact hdev p a

/-- What `switch_decode` yields for each opcode. -/
theorem switch_decode_cases (mem : Nat → Nat) (pos : Nat) (initpt curpt ctrlpt : FPoint) :
    (mem pos = 77 → switch_decode mem pos initpt curpt ctrlpt =
      some { func := .move_to, pcount := 1, nparams := 2, line_to_in_case := false
             ppoints := Function.update ppoints_uninit 0 (param_point mem pos 0 1)
             curpt := param_point mem pos 0 1, initpt := param_point mem pos 0 1
             ctrlpt := ctrlpt }) ∧
    (mem pos = 90 → switch_decode mem pos initpt curpt ctrlpt =
      some { func := .line_to, pcount := 1, nparams := 0, line_to_in_case := false
             ppoints := Function.update ppoints_uninit 0 initpt
             curpt := initpt, initpt := initpt, ctrlpt := ctrlpt }) ∧
    (mem pos = 67 → switch_decode mem pos initpt curpt ctrlpt =
      some { func := .curve_to, pcount := 3, nparams := 6, line_to_in_case := false
             ppoints := Function.update (Function.update (Function.update ppoints_uninit
               0 (param_point mem pos 0 1)) 1 (param_point mem pos 2 3))
               2 (param_point mem pos 4 5)
             curpt := param_point mem pos 4 5, initpt := initpt
             ctrlpt := param_point mem pos 2 3 }) ∧
    (mem pos = 83 → switch_decode mem pos initpt curpt ctrlpt =
      some { func := .curve_to, pcount := 3, nparams := 4, line_to_in_case := false
             ppoints := Function.update (Function.update (Function.update ppoints_uninit
               1 (param_point mem pos 0 1)) 2 (param_point mem pos 2 3))
               0 (reflect curpt ctrlpt)
             curpt := param_point mem pos 2 3, initpt := initpt
             ctrlpt := param_point mem pos 0 1 }) ∧
    (mem pos = 81 → switch_decode mem pos initpt curpt ctrlpt =
      some { func := .curve_to, pcount := 3, nparams := 4, line_to_in_case := false
             ppoints := Function.update (Function.update (Function.update ppoints_uninit
               2 (param_point mem pos 2 3))
               0 (elevate curpt (param_point mem pos 0 1)))
               1 (elevate (param_point mem pos 2 3) (param_point mem pos 0 1))
             curpt := param_point mem pos 2 3, initpt := initpt
             ctrlpt := param_point mem pos 0 1 }) ∧
    (mem pos = 84 → switch_decode mem pos initpt curpt ctrlpt =
      some { func := .curve_to, pcount := 3, nparams := 2, line_to_in_case := false
             ppoints := Function.update (Function.update (Function.update ppoints_uninit
               2 (param_point mem pos 0 1))
               0 (elevate curpt (reflect curpt ctrlpt)))
               1 (elevate (param_point mem pos 0 1) (reflect curpt ctrlpt))
             curpt := param_point mem pos 0 1, initpt := initpt
             ctrlpt := reflect curpt ctrlpt }) := by
  refine ⟨?_, ?_, ?_, ?_, ?_, ?_⟩ <;> intro h <;>
    simp [switch_decode, h, param_point, reflect, elevate]

/-- What every command leaves alone: only `M` changes `initpt` and selects
`fctx_move_to_func`; `M`, `Z`, `L`, `H` and `V` do not change `ctrlpt`. -/
theorem switch_decode_frame (mem : Nat → Nat) (pos : Nat) (initpt curpt ctrlpt : FPoint)
    (d : Decoded) (h : switch_decode mem pos initpt curpt ctrlpt = some d) :
    (mem pos ≠ 77 → d.initpt = initpt ∧ d.func ≠ DrawFunc.move_to) ∧
    (mem pos = 77 ∨ mem pos = 90 ∨ mem pos = 76 ∨ mem pos = 72 ∨ mem pos = 86 →
      d.ctrlpt = ctrlpt) := by
  unfold switch_decode at h
  dsimp only at h
  by_cases hM : mem pos = 77
  · rw [if_pos hM] at h
    injection h with h; subst h
    exact ⟨fun hn => absurd hM hn, fun _ => rfl⟩
  rw [if_neg hM] at h
  by_cases hZ : mem pos = 90
  · rw [if_pos hZ] at h
    injection h with h; subst h
    exact ⟨fun _ => ⟨rfl, by simp⟩, fun _ => rfl⟩
  rw [if_neg hZ] at h
  by_cases hL : mem pos = 76
  · rw [if_pos hL] at h
    injection h with h; subst h
    exact ⟨fun _ => ⟨rfl, by simp⟩, fun _ => rfl⟩
  rw [if_neg hL] at h
  by_cases hH : mem pos = 72
  · rw [if_pos hH] at h
    injection h with h; subst h
    exact ⟨fun _ => ⟨rfl, by simp⟩, fun _ => rfl⟩
  rw [if_neg hH] at h
  by_cases hV : mem pos = 86
  · rw [if_pos hV] at h
    injection h with h; subst h
    exact ⟨fun _ => ⟨rfl, by simp⟩, fun _ => rfl⟩
  rw [if_neg hV] at h
  have hcurve : ¬ (mem pos = 77 ∨ mem pos = 90 ∨ mem pos = 76 ∨ mem pos = 72 ∨
      mem pos = 86) := by omega
  by_cases hC : mem pos = 67
  · rw [if_pos hC] at h
    injection h with h; subst h
    exact ⟨fun _ => ⟨rfl, by simp⟩, fun ho => absurd ho hcurve⟩
  rw [if_neg hC] at h
  by_cases hS : mem pos = 83
  · rw [if_pos hS] at h
    injection h with h; subst h
    exact ⟨fun _ => ⟨rfl, by simp⟩, fun ho => absurd ho hcurve⟩
  rw [if_neg hS] at h
  by_cases hQ : mem pos = 81
  · rw [if_pos hQ] at h
    injection h with h; subst h
    exact ⟨fun _ => ⟨rfl, by simp⟩, fun ho => absurd ho hcurve⟩
  rw [if_neg hQ] at h
  by_cases hT : mem pos = 84
  · rw [if_pos hT] at h
    injection h with h; subst h
    exact ⟨fun _ => ⟨rfl, by simp⟩, fun ho => absurd ho hcurve⟩
  rw [if_neg hT] at h
  cases h

/-- When the opcode is known and the `case` does not call `fctx_line_to_func` itself,
the `switch` ends with the decoded locals and the transformed points. -/
theorem draw_switch_ok {β : Type} (plot : PlotEdge β) (advance : FPoint) (mem : Nat → Nat)
    (s : DrawState β) (d : Decoded)
    (h : switch_decode mem s.path_data s.initpt s.curpt s.ctrlpt = some d)
    (hl : d.line_to_in_case = false) :
    draw_switch plot advance mem s = SwitchResult.ok d.func
      { fctx := (fctx_transform_points s.fctx d.pcount d.ppoints s.tpoints advance).1
        tpoints := (fctx_transform_points s.fctx d.pcount d.ppoints s.tpoints advance).2
        initpt := d.initpt, curpt := d.curpt, ctrlpt := d.ctrlpt
        path_data := s.path_data + 2 + 2 * d.nparams } := by
  rw [draw_switch_eq_decoded]
  unfold draw_switch_decoded
  rw [h]
  dsimp only
  rw [hl]
  rfl

/-- C14: take two consecutive iterations of the loop of `fctx_draw_commands`, whatever the
plot-edge function, the advance and the earlier commands: the first decodes the record at
`s.path_data` and goes on with the variables `s1`, the second decodes the record at
`s1.path_data`.
If the first is a `C` (second control point `c2`, end point `e`, its parameters 2, 3 and
4, 5) or an `S` (parameters 0, 1 and 2, 3) and the second is an `S`, then the array
`ppoints` that the second hands to `fctx_transform_points` starts with
`2 * e - c2`, followed by the two points read from the record.
If the first is a `Q` (control point `q`, end point `e`, its parameters 0, 1 and 2, 3) or
a `T` (control point `q` the one it used itself, end point its parameters 0, 1) and the
second is a `T`, then the second uses the quadratic control point `2 * e - q`: it stores
it in `ctrlpt`, and `ppoints` holds the cubic control points computed from it. -/
theorem smooth_reflection {β : Type} (plot : PlotEdge β) (advance : FPoint)
    (mem : Nat → Nat) (s s1 : DrawState β)
    (hstep : draw_command plot advance mem s = some (s1, true)) :
    (∀ c2 e : FPoint,
      (mem s.path_data = 67 ∧ c2 = param_point mem s.path_data 2 3 ∧
          e = param_point mem s.path_data 4 5) ∨
        (mem s.path_data = 83 ∧ c2 = param_point mem s.path_data 0 1 ∧
          e = param_point mem s.path_data 2 3) →
      mem s1.path_data = 83 →
      ∃ pp : Nat → FPoint,
        pp 0 = ⟨2 * e.x - c2.x, 2 * e.y - c2.y⟩ ∧
        pp 1 = param_point mem s1.path_data 0 1 ∧
        pp 2 = param_point mem s1.path_data 2 3 ∧
        draw_switch plot advance mem s1 = SwitchResult.ok DrawFunc.curve_to
          { fctx := (fctx_transform_points s1.fctx 3 pp s1.tpoints advance).1
            tpoints := (fctx_transform_points s1.fctx 3 pp s1.tpoints advance).2
            initpt := s1.initpt
            curpt := param_point mem s1.path_data 2 3
            ctrlpt := param_point mem s1.path_data 0 1
            path_data := s1.path_data + 2 + 2 * 4 }) ∧
    (∀ q e : FPoint,
      (mem s.path_data = 81 ∧ q = param_point mem s.path_data 0 1 ∧
          e = param_point mem s.path_data 2 3) ∨
        (mem s.path_data = 84 ∧
          q = ⟨2 * s.curpt.x - s.ctrlpt.x, 2 * s.curpt.y - s.ctrlpt.y⟩ ∧
          e = param_point mem s.path_data 0 1) →
      mem s1.path_data = 84 →
      ∃ (pp : Nat → FPoint) (q2 : FPoint),
        q2 = ⟨2 * e.x - q.x, 2 * e.y - q.y⟩ ∧
        pp 0 = ⟨Int.tdiv (e.x + 2 * q2.x) 3, Int.tdiv (e.y + 2 * q2.y) 3⟩ ∧
        pp 1 = ⟨Int.tdiv ((param_point mem s1.path_data 0 1).x + 2 * q2.x) 3,
                Int.tdiv ((param_point mem s1.path_data 0 1).y + 2 * q2.y) 3⟩ ∧
        pp 2 = param_point mem s1.path_data 0 1 ∧
        draw_switch plot advance mem s1 = SwitchResult.ok DrawFunc.curve_to
          { fctx := (fctx_transform_points s1.fctx 3 pp s1.tpoints advance).1
            tpoints := (fctx_transform_points s1.fctx 3 pp s1.tpoints advance).2
            initpt := s1.initpt
            curpt := param_point mem s1.path_data 0 1
            ctrlpt := q2
            path_data := s1.path_data + 2 + 2 * 2 }) := by
  obtain ⟨d0, hd0, _, hcur, hctl, _, _⟩ := draw_command_locals plot advance mem s s1 hstep
  have hc := switch_decode_cases mem s.path_data s.initpt s.curpt s.ctrlpt
  have hc1 := switch_decode_cases mem s1.path_data s1.initpt s1.curpt s1.ctrlpt
  constructor
  · intro c2 e hprev hS
    have hcs : s1.curpt = e ∧ s1.ctrlpt = c2 := by
      rcases hprev with ⟨h, rfl, rfl⟩ | ⟨h, rfl, rfl⟩
      · rw [hc.2.2.1 h] at hd0
        injection hd0 with hd0; subst hd0
        exact ⟨hcur, hctl⟩
      · rw [hc.2.2.2.1 h] at hd0
        injection hd0 with hd0; subst hd0
        exact ⟨hcur, hctl⟩
    have hd := hc1.2.2.2.1 hS
    refine ⟨_, ?_, ?_, ?_, draw_switch_ok plot advance mem s1 _ hd rfl⟩
    · dsimp only
      rw [Function.update_same, hcs.1, hcs.2]
      simp only [reflect, FPoint.mk.injEq]
      constructor <;> omega
    · simp [Function.update]
    · simp [Function.update]
  · intro q e hprev hT
    have hcs : s1.curpt = e ∧ s1.ctrlpt = q := by
      rcases hprev with ⟨h, rfl, rfl⟩ | ⟨h, hq, rfl⟩
      · rw [hc.2.2.2.2.1 h] at hd0
        injection hd0 with hd0; subst hd0
        exact ⟨hcur, hctl⟩
      · rw [hc.2.2.2.2.2 h] at hd0
        injection hd0 with hd0; subst hd0
        refine ⟨hcur, ?_⟩
        rw [hctl, hq]
        simp only [reflect, FPoint.mk.injEq]
        constructor <;> omega
    have hd := hc1.2.2.2.2.2 hT
    have hq2 : reflect s1.curpt s1.ctrlpt = ⟨2 * e.x - q.x, 2 * e.y - q.y⟩ := by
      rw [hcs.1, hcs.2]
      simp only [reflect, FPoint.mk.injEq]
      constructor <;> omega
    rw [hq2] at hd
    refine ⟨_, _, rfl, ?_, ?_, ?_, draw_switch_ok plot advance mem s1 _ hd rfl⟩
    · simp [Function.update, elevate, hcs.1]
    · simp [Function.update, elevate]
    · simp [Function.update]

/-- Witness of `smooth_reflection`: the stream `C 1 2 3 4 5 6  S 7 8 9 10`, where the `S`
gets the implicit control point `2 * (5, 6) - (3, 4) = (7, 8)`, and the stream
`Q 1 2 3 4  T 5 6`, where the `T` uses the control point `2 * (3, 4) - (1, 2) = (5, 6)`. -/
theorem smooth_reflection_witness :
    (draw_command plot_log ⟨0, 0⟩ (wordsAt [67, 1, 2, 3, 4, 5, 6, 83, 7, 8, 9, 10])
        (draw_init log_context) =
      some (after_first_record (wordsAt [67, 1, 2, 3, 4, 5, 6, 83, 7, 8, 9, 10]), true) ∧
     wordsAt [67, 1, 2, 3, 4, 5, 6, 83, 7, 8, 9, 10]
        (after_first_record (wordsAt [67, 1, 2, 3, 4, 5, 6, 83, 7, 8, 9, 10])).path_data
      = 83 ∧
     ∃ pp : Nat → FPoint, pp 0 = ⟨7, 8⟩ ∧ pp 1 = ⟨7, 8⟩ ∧ pp 2 = ⟨9, 10⟩) ∧
    (draw_command plot_log ⟨0, 0⟩ (wordsAt [81, 1, 2, 3, 4, 84, 5, 6])
        (draw_init log_context) =
      some (after_first_record (wordsAt [81, 1, 2, 3, 4, 84, 5, 6]), true) ∧
     wordsAt [81, 1, 2, 3, 4, 84, 5, 6]
        (after_first_record (wordsAt [81, 1, 2, 3, 4, 84, 5, 6])).path_data = 84 ∧
     ∃ (pp : Nat → FPoint) (q2 : FPoint), q2 = ⟨5, 6⟩ ∧ pp 0 = ⟨4, 5⟩ ∧ pp 1 = ⟨5, 6⟩ ∧
       pp 2 = ⟨5, 6⟩) ∧
    (draw_after plot_log ⟨0, 0⟩ (wordsAt [67, 1, 2, 3, 4, 5, 6, 83, 7, 8, 9, 10]) 2
      (draw_init log_context)).map (fun s => (s.tpoints 0, s.tpoints 1, s.tpoints 2))
      = some (⟨7, 8⟩, ⟨7, 8⟩, ⟨9, 10⟩) ∧
    (draw_after plot_log ⟨0, 0⟩ (wordsAt [81, 1, 2, 3, 4, 84, 5, 6]) 2
      (draw_init log_context)).map
        (fun s => (s.ctrlpt, s.tpoints 0, s.tpoints 1, s.tpoints 2))
      = some (⟨5, 6⟩, ⟨4, 5⟩, ⟨5, 6⟩, ⟨5, 6⟩) := by
  refine ⟨⟨rfl, rfl, ?_⟩, ⟨rfl, rfl, ?_⟩, by decide, by decide⟩
  · obtain ⟨pp, h0, h1, h2, _⟩ :=
      (smooth_reflection plot_log ⟨0, 0⟩ (wordsAt [67, 1, 2, 3, 4, 5, 6, 83, 7, 8, 9, 10])
        (draw_init log_context)
        (after_first_record (wordsAt [67, 1, 2, 3, 4, 5, 6, 83, 7, 8, 9, 10])) rfl).1
        ⟨3, 4⟩ ⟨5, 6⟩ (Or.inl ⟨rfl, rfl, rfl⟩) rfl
    exact ⟨pp, h0, h1, h2⟩
  · obtain ⟨pp, q2, hq, h0, h1, h2, _⟩ :=
      (smooth_reflection plot_log ⟨0, 0⟩ (wordsAt [81, 1, 2, 3, 4, 84, 5, 6])
        (draw_init log_context)
        (after_first_record (wordsAt [81, 1, 2, 3, 4, 84, 5, 6])) rfl).2
        ⟨1, 2⟩ ⟨3, 4⟩ (Or.inl ⟨rfl, rfl, rfl⟩) rfl
    subst hq
    exact ⟨pp, _, rfl, h0, h1, h2⟩

/-- Only the nine opcodes are decoded. -/
theorem switch_decode_known (mem : Nat → Nat) (pos : Nat) (initpt curpt ctrlpt : FPoint)
    (d : Decoded) (h : switch_decode mem pos initpt curpt ctrlpt = some d) :
    mem pos = 77 ∨ mem pos = 90 ∨ mem pos = 76 ∨ mem pos = 72 ∨ mem pos = 86 ∨
      mem pos = 67 ∨ mem pos = 83 ∨ mem pos = 81 ∨ mem pos = 84 := by
  by_contra hn
  have nM : mem pos ≠ 77 := by omega
  have nZ : mem pos ≠ 90 := by omega
  have nL : mem pos ≠ 76 := by omega
  have nH : mem pos ≠ 72 := by omega
  have nV : mem pos ≠ 86 := by omega
  have nC : mem pos ≠ 67 := by omega
  have nS : mem pos ≠ 83 := by omega
  have nQ : mem pos ≠ 81 := by omega
  have nT : mem pos ≠ 84 := by omega
  unfold switch_decode at h
  dsimp only at h
  rw [if_neg nM, if_neg nZ, if_neg nL, if_neg nH, if_neg nV, if_neg nC, if_neg nS,
    if_neg nQ, if_neg nT] at h
  cases h

/-- C15 as stated fails: in the stream `M 16 16  S 32 32 48 16` the `S` follows an `M`,
the cursor is (16, 16), and the implicit control point handed to the transform is
(32, 32), the mirror image of the never-written control point (0, 0), not the cursor.
The edges plotted are those of the cubic (16,16) (32,32) (32,32) (48,16); SVG semantics
ask for the cubic (16,16) (16,16) (32,32) (48,16), which flattens to other edges. -/
theorem smooth_after_move_not_cursor :
    wordsAt [77, 16, 16, 83, 32, 32, 48, 16] 0 = 77 ∧
    wordsAt [77, 16, 16, 83, 32, 32, 48, 16] 6 = 83 ∧
    (draw_after plot_log ⟨0, 0⟩ (wordsAt [77, 16, 16, 83, 32, 32, 48, 16]) 1
      (draw_init log_context)).map (fun s => (s.path_data, s.curpt, s.ctrlpt))
      = some (6, ⟨16, 16⟩, ⟨0, 0⟩) ∧
    (draw_after plot_log ⟨0, 0⟩ (wordsAt [77, 16, 16, 83, 32, 32, 48, 16]) 2
      (draw_init log_context)).map (fun s => s.tpoints 0) = some ⟨32, 32⟩ ∧
    (fctx_draw_commands plot_log log_context ⟨0, 0⟩
      (wordsAt [77, 16, 16, 83, 32, 32, 48, 16]) 16).map (fun f => f.flag_buffer)
      = some (flattened ⟨16, 16⟩ ⟨32, 32⟩ ⟨32, 32⟩ ⟨48, 16⟩) ∧
    flattened ⟨16, 16⟩ ⟨32, 32⟩ ⟨32, 32⟩ ⟨48, 16⟩ ≠
      flattened ⟨16, 16⟩ ⟨16, 16⟩ ⟨32, 32⟩ ⟨48, 16⟩ := by
  decide

/-- C15, amended: the interpreter keeps one stored control point, `ctrlpt`, for the whole
call of `fctx_draw_commands`, and does not look at the previous command.  Every `S`
hands `2 * curpt - ctrlpt` to the transform as its first control point, and every `T`
uses `2 * curpt - ctrlpt` as its quadratic control point, whatever the previous command
was.  `ctrlpt` is (0, 0) when the call starts; `C` stores its second control point, `S`
and `Q` store the control point they read (parameters 0, 1), `T` stores the control point
it used; `M`, `Z`, `L`, `H` and `V` leave it as it is.  The implicit control point equals
the cursor exactly when the stored control point equals the cursor. -/
theorem smooth_uses_stored_control_point {β : Type} (plot : PlotEdge β) (advance : FPoint)
    (mem : Nat → Nat) :
    (∀ t : DrawState β, mem t.path_data = 83 →
      ∃ pp : Nat → FPoint,
        pp 0 = ⟨2 * t.curpt.x - t.ctrlpt.x, 2 * t.curpt.y - t.ctrlpt.y⟩ ∧
        pp 1 = param_point mem t.path_data 0 1 ∧
        pp 2 = param_point mem t.path_data 2 3 ∧
        draw_switch plot advance mem t = SwitchResult.ok DrawFunc.curve_to
          { fctx := (fctx_transform_points t.fctx 3 pp t.tpoints advance).1
            tpoints := (fctx_transform_points t.fctx 3 pp t.tpoints advance).2
            initpt := t.initpt
            curpt := param_point mem t.path_data 2 3
            ctrlpt := param_point mem t.path_data 0 1
            path_data := t.path_data + 2 + 2 * 4 }) ∧
    (∀ t : DrawState β, mem t.path_data = 84 →
      ∃ (pp : Nat → FPoint) (q : FPoint),
        q = ⟨2 * t.curpt.x - t.ctrlpt.x, 2 * t.curpt.y - t.ctrlpt.y⟩ ∧
        pp 0 = ⟨Int.tdiv (t.curpt.x + 2 * q.x) 3, Int.tdiv (t.curpt.y + 2 * q.y) 3⟩ ∧
        pp 1 = ⟨Int.tdiv ((param_point mem t.path_data 0 1).x + 2 * q.x) 3,
                Int.tdiv ((param_point mem t.path_data 0 1).y + 2 * q.y) 3⟩ ∧
        pp 2 = param_point mem t.path_data 0 1 ∧
        draw_switch plot advance mem t = SwitchResult.ok DrawFunc.curve_to
          { fctx := (fctx_transform_points t.fctx 3 pp t.tpoints advance).1
            tpoints := (fctx_transform_points t.fctx 3 pp t.tpoints advance).2
            initpt := t.initpt
            curpt := param_point mem t.path_data 0 1
            ctrlpt := q
            path_data := t.path_data + 2 + 2 * 2 }) ∧
    (∀ s s1 : DrawState β, draw_command plot advance mem s = some (s1, true) →
      s1.ctrlpt =
        if mem s.path_data = 67 then param_point mem s.path_data 2 3
        else if mem s.path_data = 83 ∨ mem s.path_data = 81 then
          param_point mem s.path_data 0 1
        else if mem s.path_data = 84 then
          ⟨2 * s.curpt.x - s.ctrlpt.x, 2 * s.curpt.y - s.ctrlpt.y⟩
        else s.ctrlpt) ∧
    (∀ fctx : FContext β, (draw_init fctx).ctrlpt = ⟨0, 0⟩ ∧
      fctx_draw_commands plot fctx advance mem =
        fun length => draw_loop plot advance mem length length (draw_init fctx)) ∧
    (∀ cur ctrl : FPoint,
      (⟨2 * cur.x - ctrl.x, 2 * cur.y - ctrl.y⟩ : FPoint) = cur ↔ ctrl = cur) := by
  refine ⟨?_, ?_, ?_, fun fctx => ⟨rfl, rfl⟩, ?_⟩
  · intro t hS
    have hd := (switch_decode_cases mem t.path_data t.initpt t.curpt t.ctrlpt).2.2.2.1 hS
    refine ⟨_, ?_, ?_, ?_, draw_switch_ok plot advance mem t _ hd rfl⟩
    · dsimp only
      rw [Function.update_same]
      simp only [reflect, FPoint.mk.injEq]
      constructor <;> omega
    · simp [Function.update]
    · simp [Function.update]
  · intro t hT
    have hd := (switch_decode_cases mem t.path_data t.initpt t.curpt t.ctrlpt).2.2.2.2.2 hT
    have hq : reflect t.curpt t.ctrlpt =
        ⟨2 * t.curpt.x - t.ctrlpt.x, 2 * t.curpt.y - t.ctrlpt.y⟩ := by
      simp only [reflect, FPoint.mk.injEq]
      constructor <;> omega
    rw [hq] at hd
    refine ⟨_, _, rfl, ?_, ?_, ?_, draw_switch_ok plot advance mem t _ hd rfl⟩
    · simp [Function.update, elevate]
    · simp [Function.update, elevate]
    · simp [Function.update]
  · intro s s1 hstep
    obtain ⟨d0, hd0, _, _, hctl, _, _⟩ := draw_command_locals plot advance mem s s1 hstep
    have hc := switch_decode_cases mem s.path_data s.initpt s.curpt s.ctrlpt
    have hk := switch_decode_known mem s.path_data s.initpt s.curpt s.ctrlpt d0 hd0
    have hf := (switch_decode_frame mem s.path_data s.initpt s.curpt s.ctrlpt d0 hd0).2
    by_cases hC : mem s.path_data = 67
    · rw [if_pos hC, hctl]
      rw [hc.2.2.1 hC] at hd0
      injection hd0 with hd0; subst hd0; rfl
    rw [if_neg hC]
    by_cases hSQ : mem s.path_data = 83 ∨ mem s.path_data = 81
    · rw [if_pos hSQ, hctl]
      rcases hSQ with h | h
      · rw [hc.2.2.2.1 h] at hd0
        injection hd0 with hd0; subst hd0; rfl
      · rw [hc.2.2.2.2.1 h] at hd0
        injection hd0 with hd0; subst hd0; rfl
    rw [if_neg hSQ]
    by_cases hT : mem s.path_data = 84
    · rw [if_pos hT, hctl]
      rw [hc.2.2.2.2.2 hT] at hd0
      injection hd0 with hd0; subst hd0
      simp only [reflect, FPoint.mk.injEq]
      constructor <;> omega
    rw [if_neg hT, hctl]
    exact hf (by omega)
  · intro cur ctrl
    constructor
    · intro h
      have hx := congrArg FPoint.x h
      have hy := congrArg FPoint.y h
      dsimp only at hx hy
      cases ctrl; cases cur
      simp only [FPoint.mk.injEq] at *
      constructor <;> omega
    · intro h
      subst h
      cases ctrl
      simp only [FPoint.mk.injEq]
      constructor <;> omega

/-- Witness of `smooth_uses_stored_control_point`: in `M 16 16  S 32 32 48 16` the `M`
leaves the stored control point at (0, 0) and the `S` gets the implicit control point
(32, 32); in `M 16 16  T 48 16` the `T` uses the control point (32, 32). -/
theorem smooth_uses_stored_control_point_witness :
    (wordsAt [77, 16, 16, 83, 32, 32, 48, 16]
        (after_first_record (wordsAt [77, 16, 16, 83, 32, 32, 48, 16])).path_data = 83 ∧
      ∃ pp : Nat → FPoint, pp 0 = ⟨32, 32⟩ ∧ pp 1 = ⟨32, 32⟩ ∧ pp 2 = ⟨48, 16⟩) ∧
    (wordsAt [77, 16, 16, 84, 48, 16]
        (after_first_record (wordsAt [77, 16, 16, 84, 48, 16])).path_data = 84 ∧
      ∃ (pp : Nat → FPoint) (q : FPoint), q = ⟨32, 32⟩ ∧ pp 0 = ⟨26, 26⟩ ∧
        pp 1 = ⟨37, 26⟩ ∧ pp 2 = ⟨48, 16⟩) ∧
    (draw_command plot_log ⟨0, 0⟩ (wordsAt [77, 16, 16, 83, 32, 32, 48, 16])
        (draw_init log_context) =
      some (after_first_record (wordsAt [77, 16, 16, 83, 32, 32, 48, 16]), true) ∧
      (after_first_record (wordsAt [77, 16, 16, 83, 32, 32, 48, 16])).ctrlpt = ⟨0, 0⟩) ∧
    (draw_after plot_log ⟨0, 0⟩ (wordsAt [77, 16, 16, 84, 48, 16]) 2
      (draw_init log_context)).map
        (fun s => (s.ctrlpt, s.tpoints 0, s.tpoints 1, s.tpoints 2))
      = some (⟨32, 32⟩, ⟨26, 26⟩, ⟨37, 26⟩, ⟨48, 16⟩) := by
  refine ⟨⟨rfl, ?_⟩, ⟨rfl, ?_⟩, ⟨rfl, ?_⟩, by decide⟩
  · obtain ⟨pp, h0, h1, h2, _⟩ :=
      (smooth_uses_stored_control_point plot_log ⟨0, 0⟩
        (wordsAt [77, 16, 16, 83, 32, 32, 48, 16])).1
        (after_first_record (wordsAt [77, 16, 16, 83, 32, 32, 48, 16])) rfl
    exact ⟨pp, h0, h1, h2⟩
  · obtain ⟨pp, q, hq, h0, h1, h2, _⟩ :=
      (smooth_uses_stored_control_point plot_log ⟨0, 0⟩
        (wordsAt [77, 16, 16, 84, 48, 16])).2.1
        (after_first_record (wordsAt [77, 16, 16, 84, 48, 16])) rfl
    subst hq
    exact ⟨pp, _, rfl, h0, h1, h2⟩
  · exact
      (smooth_uses_stored_control_point plot_log ⟨0, 0⟩
        (wordsAt [77, 16, 16, 83, 32, 32, 48, 16])).2.2.1 (draw_init log_context)
        (after_first_record (wordsAt [77, 16, 16, 83, 32, 32, 48, 16])) rfl

/-- The points written by `fctx_transform_points` are the device-space images of the
path points. -/
theorem fctx_transform_points_value {β : Type} (f : FContext β) (n : Nat)
    (pp tp : Nat → FPoint) (adv : FPoint) (i : Nat) (hi : i < n) :
    (fctx_transform_points f n pp tp adv).2 i = device_point f (pp i) adv :=
  ((transform_loop_spec adv pp n 0 f tp).2.2.1 i (Nat.zero_le i) (by omega)).1

/-- What `switch_decode` yields for the line commands `L`, `H` and `V`. -/
theorem switch_decode_lines (mem : Nat → Nat) (pos : Nat) (initpt curpt ctrlpt : FPoint) :
    (mem pos = 76 → switch_decode mem pos initpt curpt ctrlpt =
      some { func := .line_to, pcount := 1, nparams := 2, line_to_in_case := true
             ppoints := Function.update ppoints_uninit 0 (param_point mem pos 0 1)
             curpt := param_point mem pos 0 1, initpt := initpt, ctrlpt := ctrlpt }) ∧
    (mem pos = 72 → switch_decode mem pos initpt curpt ctrlpt =
      some { func := .line_to, pcount := 1, nparams := 1, line_to_in_case := false
             ppoints := Function.update ppoints_uninit 0
               ⟨toInt16 (mem (pos + 2)), curpt.y⟩
             curpt := ⟨toInt16 (mem (pos + 2)), curpt.y⟩
             initpt := initpt, ctrlpt := ctrlpt }) ∧
    (mem pos = 86 → switch_decode mem pos initpt curpt ctrlpt =
      some { func := .line_to, pcount := 1, nparams := 1, line_to_in_case := true
             ppoints := Function.update ppoints_uninit 0
               ⟨curpt.x, toInt16 (mem (pos + 2))⟩
             curpt := ⟨curpt.x, toInt16 (mem (pos + 2))⟩
             initpt := initpt, ctrlpt := ctrlpt }) := by
  refine ⟨?_, ?_, ?_⟩ <;> intro h <;> simp [switch_decode, h, param_point]

/-- The last point that a command hands to the transform is its new cursor: `ppoints[2]`
for the curves, `ppoints[0]` for the others. -/
theorem switch_decode_cursor (mem : Nat → Nat) (pos : Nat) (initpt curpt ctrlpt : FPoint)
    (d : Decoded) (h : switch_decode mem pos initpt curpt ctrlpt = some d) :
    (d.func = DrawFunc.curve_to → d.ppoints 2 = d.curpt ∧ d.pcount = 3) ∧
    (d.func ≠ DrawFunc.curve_to → d.ppoints 0 = d.curpt ∧ d.pcount = 1) := by
  have hc := switch_decode_cases mem pos initpt curpt ctrlpt
  have hl := switch_decode_lines mem pos initpt curpt ctrlpt
  rcases switch_decode_known mem pos initpt curpt ctrlpt d h with
    k | k | k | k | k | k | k | k | k
  · rw [hc.1 k] at h; injection h with h; subst h
    exact ⟨fun e => (by cases e), fun _ => ⟨by simp [Function.update], rfl⟩⟩
  · rw [hc.2.1 k] at h; injection h with h; subst h
    exact ⟨fun e => (by cases e), fun _ => ⟨by simp [Function.update], rfl⟩⟩
  · rw [hl.1 k] at h; injection h with h; subst h
    exact ⟨fun e => (by cases e), fun _ => ⟨by simp [Function.update], rfl⟩⟩
  · rw [hl.2.1 k] at h; injection h with h; subst h
    exact ⟨fun e => (by cases e), fun _ => ⟨by simp [Function.update], rfl⟩⟩
  · rw [hl.2.2 k] at h; injection h with h; subst h
    exact ⟨fun e => (by cases e), fun _ => ⟨by simp [Function.update], rfl⟩⟩
  · rw [hc.2.2.1 k] at h; injection h with h; subst h
    exact ⟨fun _ => ⟨by simp [Function.update], rfl⟩, fun e => absurd rfl e⟩
  · rw [hc.2.2.2.1 k] at h; injection h with h; subst h
    exact ⟨fun _ => ⟨by simp [Function.update], rfl⟩, fun e => absurd rfl e⟩
  · rw [hc.2.2.2.2.1 k] at h; injection h with h; subst h
    exact ⟨fun _ => ⟨by simp [Function.update], rfl⟩, fun e => absurd rfl e⟩
  · rw [hc.2.2.2.2.2 k] at h; injection h with h; subst h
    exact ⟨fun _ => ⟨by simp [Function.update], rfl⟩, fun e => absurd rfl e⟩

/-- With the recording plot function, an iteration that goes on is the one described by
`draw_command_log`. -/
theorem draw_command_log_of_step (advance : FPoint) (mem : Nat → Nat)
    (s s1 : DrawState (List (FPoint × FPoint)))
    (hstep : draw_command plot_log advance mem s = some (s1, true)) :
    ∃ d, switch_decode mem s.path_data s.initpt s.curpt s.ctrlpt = some d ∧
      s1.initpt = d.initpt ∧ s1.curpt = d.curpt ∧ s1.ctrlpt = d.ctrlpt ∧
      s1.tpoints = (fctx_transform_points s.fctx d.pcount d.ppoints s.tpoints advance).2 ∧
      s1.fctx.flag_buffer = s.fctx.flag_buffer ++
        command_edges d.func d.line_to_in_case s.fctx.path_cur_point s1.tpoints ∧
      s1.fctx.path_cur_point = command_cursor d.func s1.tpoints ∧
      s1.fctx.path_init_point =
        (if d.func = DrawFunc.move_to then s1.tpoints 0 else s.fctx.path_init_point) ∧
      (∀ p a, device_point s1.fctx p a = device_point s.fctx p a) := by
  obtain ⟨d, hd, _⟩ := draw_command_locals plot_log advance mem s s1 hstep
  obtain ⟨s2, h2, a1, a2, a3, _, a5, a6, a7, a8, a9⟩ := draw_command_log advance mem s d hd
  rw [hstep] at h2
  injection h2 with h2
  injection h2 with h2 _
  subst h2
  exact ⟨d, hd, a1, a2, a3, a5, a6, a7, a8, a9⟩

/-- After every command the device cursor of the context is the image of the path
cursor. -/
theorem draw_command_cursor (advance : FPoint) (mem : Nat → Nat)
    (s s1 : DrawState (List (FPoint × FPoint)))
    (hstep : draw_command plot_log advance mem s = some (s1, true)) :
    s1.fctx.path_cur_point = device_point s1.fctx s1.curpt advance := by
  obtain ⟨d, hd, _, hcur, _, htp, _, hc, _, hdev⟩ :=
    draw_command_log_of_step advance mem s s1 hstep
  have hk := switch_decode_cursor mem s.path_data s.initpt s.curpt s.ctrlpt d hd
  rw [hc, hdev, hcur, htp]
  cases hf : d.func
  · obtain ⟨e1, e2⟩ := hk.2 (by rw [hf]; simp)
    rw [← e1]
    exact fctx_transform_points_value _ _ _ _ _ 0 (by omega)
  · obtain ⟨e1, e2⟩ := hk.2 (by rw [hf]; simp)
    rw [← e1]
    exact fctx_transform_points_value _ _ _ _ _ 0 (by omega)
  · obtain ⟨e1, e2⟩ := hk.1 hf
    rw [← e1]
    exact fctx_transform_points_value _ _ _ _ _ 2 (by omega)

/-- The path-start point: `M` sets the local `initpt` to its parameters and the context's
`path_init_point` to their device-space image; every other command leaves both alone. -/
theorem draw_command_start (advance : FPoint) (mem : Nat → Nat)
    (s s1 : DrawState (List (FPoint × FPoint)))
    (hstep : draw_command plot_log advance mem s = some (s1, true)) :
    (mem s.path_data = 77 → s1.initpt = param_point mem s.path_data 0 1 ∧
      s1.fctx.path_init_point = device_point s.fctx s1.initpt advance) ∧
    (mem s.path_data ≠ 77 → s1.initpt = s.initpt ∧
      s1.fctx.path_init_point = s.fctx.path_init_point) ∧
    (∀ p a, device_point s1.fctx p a = device_point s.fctx p a) := by
  obtain ⟨d, hd, hi, _, _, htp, _, _, hini, hdev⟩ :=
    draw_command_log_of_step advance mem s s1 hstep
  refine ⟨?_, ?_, hdev⟩
  · intro hM
    have e := (switch_decode_cases mem s.path_data s.initpt s.curpt s.ctrlpt).1 hM
    rw [e] at hd
    injection hd with hd; subst hd
    refine ⟨hi, ?_⟩
    rw [hini, htp, hi]
    dsimp only
    rw [if_pos rfl, fctx_transform_points_value _ _ _ _ _ 0 (by omega)]
    simp [Function.update]
  · intro hM
    obtain ⟨e1, e2⟩ :=
      (switch_decode_frame mem s.path_data s.initpt s.curpt s.ctrlpt d hd).1 hM
    rw [hini, if_neg e2, hi, e1]
    exact ⟨rfl, rfl⟩

/-- C16: for every `Q` command (control point `q` and end point `e` read from the
record) and every `T` command (`q` the mirror image `2 * c - ctrlpt`, `e` read from the
record), with `c` the path cursor `curpt`: the iteration goes on, the three points handed
to the flattener are the device-space images of `(c + 2 q) / 3`, `(e + 2 q) / 3` and `e`,
computed per axis in path units with C's truncating division before the transform; the
flattener starts from the context's cursor, which is the image of `c` whenever a command
came before in the same call; the path cursor becomes `e`, the stored control point `q`,
and the context's cursor the image of `e`. -/
theorem quadratic_elevation (advance : FPoint) (mem : Nat → Nat)
    (s : DrawState (List (FPoint × FPoint))) (q e : FPoint)
    (hq : (mem s.path_data = 81 ∧ q = param_point mem s.path_data 0 1 ∧
        e = param_point mem s.path_data 2 3) ∨
      (mem s.path_data = 84 ∧
        q = ⟨2 * s.curpt.x - s.ctrlpt.x, 2 * s.curpt.y - s.ctrlpt.y⟩ ∧
        e = param_point mem s.path_data 0 1)) :
    ∃ s1, draw_command plot_log advance mem s = some (s1, true) ∧
      s1.curpt = e ∧ s1.ctrlpt = q ∧
      s1.tpoints 0 = device_point s.fctx
        ⟨Int.tdiv (s.curpt.x + 2 * q.x) 3, Int.tdiv (s.curpt.y + 2 * q.y) 3⟩ advance ∧
      s1.tpoints 1 = device_point s.fctx
        ⟨Int.tdiv (e.x + 2 * q.x) 3, Int.tdiv (e.y + 2 * q.y) 3⟩ advance ∧
      s1.tpoints 2 = device_point s.fctx e advance ∧
      s1.fctx.flag_buffer = s.fctx.flag_buffer ++
        flattened s.fctx.path_cur_point (s1.tpoints 0) (s1.tpoints 1) (s1.tpoints 2) ∧
      s1.fctx.path_cur_point = device_point s1.fctx e advance ∧
      (∀ s0, draw_command plot_log advance mem s0 = some (s, true) →
        s.fctx.path_cur_point = device_point s.fctx s.curpt advance) := by
  have hc := switch_decode_cases mem s.path_data s.initpt s.curpt s.ctrlpt
  have hr : reflect s.curpt s.ctrlpt =
      ⟨2 * s.curpt.x - s.ctrlpt.x, 2 * s.curpt.y - s.ctrlpt.y⟩ := by
    simp only [reflect, FPoint.mk.injEq]
    constructor <;> omega
  rcases hq with ⟨h, rfl, rfl⟩ | ⟨h, rfl, rfl⟩
  · obtain ⟨s1, h1, _, a2, a3, _, a5, a6, a7, _, a9⟩ :=
      draw_command_log advance mem s _ (hc.2.2.2.2.1 h)
    have hcur := draw_command_cursor advance mem s s1 h1
    dsimp only at a2 a3 a5 a6 a7
    rw [a2] at hcur
    refine ⟨s1, h1, a2, a3, ?_, ?_, ?_, a6, hcur,
      fun s0 h0 => draw_command_cursor advance mem s0 s h0⟩
    · rw [a5, fctx_transform_points_value _ _ _ _ _ 0 (by omega)]
      simp [Function.update, elevate]
    · rw [a5, fctx_transform_points_value _ _ _ _ _ 1 (by omega)]
      simp [Function.update, elevate]
    · rw [a5, fctx_transform_points_value _ _ _ _ _ 2 (by omega)]
      simp [Function.update]
  · obtain ⟨s1, h1, _, a2, a3, _, a5, a6, a7, _, a9⟩ :=
      draw_command_log advance mem s _ (hc.2.2.2.2.2 h)
    have hcur := draw_command_cursor advance mem s s1 h1
    dsimp only at a2 a3 a5 a6 a7
    rw [a2] at hcur
    rw [hr] at a3 a5
    refine ⟨s1, h1, a2, a3, ?_, ?_, ?_, a6, hcur,
      fun s0 h0 => draw_command_cursor advance mem s0 s h0⟩
    · rw [a5, fctx_transform_points_value _ _ _ _ _ 0 (by omega)]
      simp [Function.update, elevate]
    · rw [a5, fctx_transform_points_value _ _ _ _ _ 1 (by omega)]
      simp [Function.update, elevate]
    · rw [a5, fctx_transform_points_value _ _ _ _ _ 2 (by omega)]
      simp [Function.update]

/-- Witness of `quadratic_elevation`: the `Q 32 48 64 16` of the stream
`M 16 16  Q 32 48 64 16`, with cursor (16, 16): the cubic handed to the flattener is
(16, 16), (26, 37), (42, 37), (64, 16). -/
theorem quadratic_elevation_witness :
    wordsAt [77, 16, 16, 81, 32, 48, 64, 16]
      (after_first_record (wordsAt [77, 16, 16, 81, 32, 48, 64, 16])).path_data = 81 ∧
    draw_command plot_log ⟨0, 0⟩ (wordsAt [77, 16, 16, 81, 32, 48, 64, 16])
        (draw_init log_context) =
      some (after_first_record (wordsAt [77, 16, 16, 81, 32, 48, 64, 16]), true) ∧
    (after_first_record (wordsAt [77, 16, 16, 81, 32, 48, 64, 16])).fctx.path_cur_point
      = ⟨16, 16⟩ ∧
    ∃ s1, draw_command plot_log ⟨0, 0⟩ (wordsAt [77, 16, 16, 81, 32, 48, 64, 16])
        (after_first_record (wordsAt [77, 16, 16, 81, 32, 48, 64, 16])) = some (s1, true) ∧
      s1.curpt = ⟨64, 16⟩ ∧ s1.ctrlpt = ⟨32, 48⟩ ∧
      s1.tpoints 0 = ⟨26, 37⟩ ∧ s1.tpoints 1 = ⟨42, 37⟩ ∧ s1.tpoints 2 = ⟨64, 16⟩ := by
  obtain ⟨s1, h1, a1, a2, a3, a4, a5, _, _, a8⟩ :=
    quadratic_elevation ⟨0, 0⟩ (wordsAt [77, 16, 16, 81, 32, 48, 64, 16])
      (after_first_record (wordsAt [77, 16, 16, 81, 32, 48, 64, 16])) ⟨32, 48⟩ ⟨64, 16⟩
      (Or.inl ⟨rfl, rfl, rfl⟩)
  exact ⟨rfl, rfl, a8 (draw_init log_context) rfl, s1, h1, a1, a2, a3, a4, a5⟩

/-- The first of `k + 1` iterations that all go on. -/
theorem draw_after_succ {β : Type} (plot : PlotEdge β) (advance : FPoint) (mem : Nat → Nat)
    (k : Nat) (u t : DrawState β) (h : draw_after plot advance mem (k + 1) u = some t) :
    ∃ u1, draw_command plot advance mem u = some (u1, true) ∧
      draw_after plot advance mem k u1 = some t := by
  unfold draw_after at h
  cases hc : draw_command plot advance mem u with
  | none => rw [hc] at h; cases h
  | some r =>
    obtain ⟨u1, b⟩ := r
    rw [hc] at h
    cases b
    · cases h
    · exact ⟨u1, rfl, h⟩

/-- Commands other than `M` keep the path-start point, in path units and in device
space, and no command changes the transform. -/
theorem draw_after_start (advance : FPoint) (mem : Nat → Nat) :
    ∀ (k : Nat) (u t : DrawState (List (FPoint × FPoint))),
      draw_after plot_log advance mem k u = some t →
      (∀ j, j < k → ∀ v, draw_after plot_log advance mem j u = some v →
        mem v.path_data ≠ 77) →
      t.initpt = u.initpt ∧ t.fctx.path_init_point = u.fctx.path_init_point ∧
      ∀ p a, device_point t.fctx p a = device_point u.fctx p a := by
  intro k
  induction k with
  | zero =>
    intro u t h _
    unfold draw_after at h
    injection h with h
    subst h
    exact ⟨rfl, rfl, fun _ _ => rfl⟩
  | succ k ih =>
    intro u t h hno
    obtain ⟨u1, h1, h2⟩ := draw_after_succ plot_log advance mem k u t h
    have hu : mem u.path_data ≠ 77 := hno 0 (Nat.succ_pos k) u rfl
    obtain ⟨_, b2, b3⟩ := draw_command_start advance mem u u1 h1
    obtain ⟨c1, c2⟩ := b2 hu
    have hno1 : ∀ j, j < k → ∀ v, draw_after plot_log advance mem j u1 = some v →
        mem v.path_data ≠ 77 := by
      intro j hj v hv
      apply hno (j + 1) (by omega) v
      unfold draw_after
      rw [h1]
      exact hv
    obtain ⟨d1, d2, d3⟩ := ih u1 t h2 hno1
    refine ⟨by rw [d1, c1], by rw [d2, c2], fun p a => by rw [d3, b3]⟩

/-- C17: take an `M` command anywhere in a call of `fctx_draw_commands` (variables `s`
before it), let `k` further commands follow, none of them an `M`, and let the next
command (variables `t` before it) be a `Z`.  The start point in path units is then the
parameter pair of that `M` and the context's `path_init_point` is its device-space image;
the `Z` goes on and plots exactly one edge, from the context's cursor to
`path_init_point`; afterwards `path_cur_point` equals `path_init_point` and the path
cursor `curpt` equals the path start `initpt`, both start points being unchanged. -/
theorem close_path (advance : FPoint) (mem : Nat → Nat)
    (s t : DrawState (List (FPoint × FPoint))) (k : Nat)
    (hM : mem s.path_data = 77)
    (hrun : draw_after plot_log advance mem (k + 1) s = some t)
    (hnoM : ∀ j, 1 ≤ j → j ≤ k → ∀ u, draw_after plot_log advance mem j s = some u →
      mem u.path_data ≠ 77)
    (hZ : mem t.path_data = 90) :
    ∃ t1, draw_command plot_log advance mem t = some (t1, true) ∧
      t.initpt = param_point mem s.path_data 0 1 ∧
      t.fctx.path_init_point =
        device_point t.fctx (param_point mem s.path_data 0 1) advance ∧
      t1.fctx.flag_buffer =
        t.fctx.flag_buffer ++ [(t.fctx.path_cur_point, t.fctx.path_init_point)] ∧
      t1.fctx.path_cur_point = t1.fctx.path_init_point ∧
      t1.fctx.path_init_point = t.fctx.path_init_point ∧
      t1.curpt = t1.initpt ∧ t1.initpt = t.initpt := by
  obtain ⟨u1, h1, h2⟩ := draw_after_succ plot_log advance mem k s t hrun
  obtain ⟨b1, _, b3⟩ := draw_command_start advance mem s u1 h1
  obtain ⟨c1, c2⟩ := b1 hM
  have hno1 : ∀ j, j < k → ∀ v, draw_after plot_log advance mem j u1 = some v →
      mem v.path_data ≠ 77 := by
    intro j hj v hv
    apply hnoM (j + 1) (by omega) (by omega) v
    unfold draw_after
    rw [h1]
    exact hv
  obtain ⟨d1, d2, d3⟩ := draw_after_start advance mem k u1 t h2 hno1
  have hinit : t.initpt = param_point mem s.path_data 0 1 := by rw [d1, c1]
  have hdev : t.fctx.path_init_point =
      device_point t.fctx (param_point mem s.path_data 0 1) advance := by
    rw [d2, c2, c1, d3, b3]
  have hd := (switch_decode_cases mem t.path_data t.initpt t.curpt t.ctrlpt).2.1 hZ
  obtain ⟨t1, g1, g2, g3, _, _, g5, g6, g7, g8, _⟩ := draw_command_log advance mem t _ hd
  dsimp only at g2 g3 g5 g6 g7 g8
  have htp : t1.tpoints 0 = t.fctx.path_init_point := by
    rw [g5, fctx_transform_points_value _ _ _ _ _ 0 (by omega), hdev, hinit]
    simp [Function.update]
  have hini : t1.fctx.path_init_point = t.fctx.path_init_point := by
    rw [g8]
    simp
  refine ⟨t1, g1, hinit, hdev, ?_, ?_, hini, by rw [g3, g2], g2⟩
  · rw [g6]
    simp [command_edges, htp]
  · rw [g7, hini]
    simp [command_cursor, htp]

/-- Witness of `close_path`: the stream `M 16 16  L 48 16  L 48 48  Z`, where the `Z`
plots the edge from (48, 48) back to (16, 16). -/
theorem close_path_witness :
    wordsAt [77, 16, 16, 76, 48, 16, 76, 48, 48, 90] 0 = 77 ∧
    (draw_after plot_log ⟨0, 0⟩ (wordsAt [77, 16, 16, 76, 48, 16, 76, 48, 48, 90]) 3
        (draw_init log_context)).map (fun t => (t.path_data, t.fctx.path_cur_point))
      = some (18, ⟨48, 48⟩) ∧
    wordsAt [77, 16, 16, 76, 48, 16, 76, 48, 48, 90] 18 = 90 ∧
    (draw_after plot_log ⟨0, 0⟩ (wordsAt [77, 16, 16, 76, 48, 16, 76, 48, 48, 90]) 4
        (draw_init log_context)).map
        (fun t => (t.fctx.flag_buffer.getLast?, t.fctx.path_cur_point, t.curpt))
      = some (some (⟨48, 48⟩, ⟨16, 16⟩), ⟨16, 16⟩, ⟨16, 16⟩) ∧
    ∃ t t1, draw_after plot_log ⟨0, 0⟩
          (wordsAt [77, 16, 16, 76, 48, 16, 76, 48, 48, 90]) 3 (draw_init log_context)
          = some t ∧
      draw_command plot_log ⟨0, 0⟩ (wordsAt [77, 16, 16, 76, 48, 16, 76, 48, 48, 90]) t
        = some (t1, true) ∧
      t1.fctx.path_cur_point = t1.fctx.path_init_point ∧ t1.curpt = t1.initpt := by
  refine ⟨by decide, by decide, by decide, by decide, ?_⟩
  obtain ⟨t1, g1, _, _, _, g5, _, g7, _⟩ :=
    close_path ⟨0, 0⟩ (wordsAt [77, 16, 16, 76, 48, 16, 76, 48, 48, 90])
      (draw_init log_context)
      ((draw_after plot_log ⟨0, 0⟩ (wordsAt [77, 16, 16, 76, 48, 16, 76, 48, 48, 90]) 3
        (draw_init log_context)).getD (draw_init log_context)) 2 rfl rfl
      (by
        intro j h1 h2 u hu
        have hj : j = 1 ∨ j = 2 := by omega
        rcases hj with rfl | rfl
        · have e : u = (draw_after plot_log ⟨0, 0⟩
              (wordsAt [77, 16, 16, 76, 48, 16, 76, 48, 48, 90]) 1
              (draw_init log_context)).getD (draw_init log_context) := by
            rw [hu]; rfl
          rw [e]
          decide
        · have e : u = (draw_after plot_log ⟨0, 0⟩
              (wordsAt [77, 16, 16, 76, 48, 16, 76, 48, 48, 90]) 2
              (draw_init log_context)).getD (draw_init log_context) := by
            rw [hu]; rfl
          rw [e]
          decide)
      rfl
  exact ⟨_, t1, rfl, g1, g5, g7⟩

/-! ## `fctx_draw_string` -/

theorem total_advance_cons (g : FGlyph) (gs : List FGlyph) :
    total_advance (g :: gs) = g.horiz_adv_x + total_advance gs := by
  simp [total_advance]

/-- The measurement pass adds up the advances of the glyphs it resolves. -/
theorem measure_loop_resolved (glyph_info : Nat → Option FGlyph) :
    ∀ (text : List Nat) (u : Utf8) (width : Int),
      (measure_loop glyph_info text u width).1 =
        width + total_advance (resolved_glyphs glyph_info text u) ∧
      (measure_loop glyph_info text u width).2 = (utf8_feed text u).2 := by
  intro text
  induction text with
  | nil => intro u width; simp [measure_loop, resolved_glyphs, total_advance, utf8_feed]
  | cons b bs ih =>
    intro u width
    simp only [measure_loop, resolved_glyphs, utf8_feed]
    by_cases h0 : (utf8_decode_byte b u).state = 0
    · rw [if_pos h0, if_pos h0]
      cases hg : glyph_info (utf8_decode_byte b u).cp with
      | none => exact ih _ _
      | some g =>
        dsimp only
        rw [total_advance_cons, (ih _ _).1, (ih _ _).2]
        exact ⟨by omega, rfl⟩
    · rw [if_neg h0, if_neg h0]
      exact ih _ _

/-- The drawing pass draws the glyphs it resolves, and ends with the advance moved by
the sum of their advances. -/
theorem glyph_calls_resolved (glyph_info : Nat → Option FGlyph) :
    ∀ (text : List Nat) (u : Utf8) (advance : FPoint),
      (glyph_calls glyph_info text u advance).1.map Prod.snd =
        resolved_glyphs glyph_info text u ∧
      (glyph_calls glyph_info text u advance).2 =
        ⟨advance.x + total_advance (resolved_glyphs glyph_info text u), advance.y⟩ := by
  intro text
  induction text with
  | nil => intro u advance; simp [glyph_calls, resolved_glyphs, total_advance]
  | cons b bs ih =>
    intro u advance
    simp only [glyph_calls, resolved_glyphs]
    by_cases h0 : (utf8_decode_byte b u).state = 0
    · rw [if_pos h0, if_pos h0]
      cases hg : glyph_info (utf8_decode_byte b u).cp with
      | none => exact ih _ _
      | some g =>
        dsimp only
        rw [total_advance_cons, List.map_cons, (ih _ _).1, (ih _ _).2]
        refine ⟨rfl, ?_⟩
        simp only [FPoint.mk.injEq, and_true]
        omega
    · rw [if_neg h0, if_neg h0]
      exact ih _ _

/-- The advance passed for the `k`-th glyph drawn is the advance at the start of the pass
moved by the advances of the glyphs drawn before it. -/
theorem glyph_calls_advance (glyph_info : Nat → Option FGlyph) :
    ∀ (text : List Nat) (u : Utf8) (advance : FPoint) (k : Nat) (c : FPoint × FGlyph),
      (glyph_calls glyph_info text u advance).1.get? k = some c →
      c.1 = ⟨advance.x + total_advance ((resolved_glyphs glyph_info text u).take k),
        advance.y⟩ := by
  intro text
  induction text with
  | nil => intro u advance k c h; simp [glyph_calls] at h
  | cons b bs ih =>
    intro u advance k c h
    simp only [glyph_calls, resolved_glyphs] at h ⊢
    by_cases h0 : (utf8_decode_byte b u).state = 0
    · rw [if_pos h0] at h ⊢
      cases hg : glyph_info (utf8_decode_byte b u).cp with
      | none => rw [hg] at h; exact ih _ _ _ _ h
      | some g =>
        rw [hg] at h
        dsimp only at h ⊢
        cases k with
        | zero =>
          simp only [List.get?_cons_zero, Option.some.injEq] at h
          subst h
          simp [total_advance]
        | succ k =>
          simp only [List.get?_cons_succ] at h
          rw [ih _ _ _ _ h, List.take_succ_cons, total_advance_cons]
          simp only [FPoint.mk.injEq, and_true]
          omega
    · rw [if_neg h0] at h ⊢
      exact ih _ _ _ _ h

/-- The first glyph drawn gets the advance that the pass starts with. -/
theorem glyph_calls_head (glyph_info : Nat → Option FGlyph) (text : List Nat) (u : Utf8)
    (advance a : FPoint) (g : FGlyph) (rest : List (FPoint × FGlyph))
    (h : (glyph_calls glyph_info text u advance).1 = (a, g) :: rest) : a = advance := by
  have e := glyph_calls_advance glyph_info text u advance 0 (a, g) (by rw [h]; rfl)
  dsimp only at e
  rw [e]
  simp [total_advance]

/-- The drawing pass is the sequence of calls `glyph_calls`. -/
theorem draw_glyphs_calls {β : Type} (plot : PlotEdge β) (glyph_info : Nat → Option FGlyph)
    (glyph_outline : FGlyph → Nat → Nat) :
    ∀ (text : List Nat) (u : Utf8) (advance : FPoint) (fctx : FContext β),
      draw_glyphs plot glyph_info glyph_outline text u advance fctx =
        (run_calls plot glyph_outline (glyph_calls glyph_info text u advance).1 fctx).map
          (fun f => (f, (glyph_calls glyph_info text u advance).2)) := by
  intro text
  induction text with
  | nil => intro u advance fctx; simp [draw_glyphs, glyph_calls, run_calls]
  | cons b bs ih =>
    intro u advance fctx
    simp only [draw_glyphs, glyph_calls]
    by_cases h0 : (utf8_decode_byte b u).state = 0
    · rw [if_pos h0, if_pos h0]
      cases hg : glyph_info (utf8_decode_byte b u).cp with
      | none => exact ih _ _ _
      | some g =>
        dsimp only
        simp only [run_calls]
        cases hc : fctx_draw_commands plot fctx advance (glyph_outline g)
            g.path_data_length with
        | none => rfl
        | some f1 => exact ih _ _ _
    · rw [if_neg h0, if_neg h0]
      exact ih _ _ _

/-- The function `fctx_draw_string` makes the calls `draw_string_calls`, one after the
other. -/
theorem fctx_draw_string_calls {β : Type} (plot : PlotEdge β) (fctx : FContext β)
    (text : List Nat) (font : FFont) (glyph_info : Nat → Option FGlyph)
    (glyph_outline : FGlyph → Nat → Nat) (alignment : GTextAlignment)
    (anchor : FTextAnchor) (code_point0 : Nat) :
    fctx_draw_string plot fctx text font glyph_info glyph_outline alignment anchor
        code_point0 =
      (run_calls plot glyph_outline
        (draw_string_calls glyph_info text font alignment anchor code_point0).1 fctx).map
        (fun f =>
          (f, (draw_string_calls glyph_info text font alignment anchor code_point0).2)) :=
  draw_glyphs_calls plot glyph_info glyph_outline text _ _ fctx

/-- Truncating division by two commutes with negation. -/
theorem tdiv_neg_two (w : Int) : Int.tdiv (-w) 2 = -(Int.tdiv w 2) :=
  Int.neg_tdiv w 2

/-- C18: for every string, font, glyph lookup and prior content of `code_point`, with
`width` the sum of `horiz_adv_x` over the glyphs that the measurement pass resolves: the
advance with which the drawing pass starts, which is the advance passed to
`fctx_draw_commands` for the first glyph drawn, has `x = 0` for left alignment, `-width`
for right alignment and `-width / 2` (truncating) for centre alignment, and `y = 0` for
the baseline anchor, `-ascent` for top, `-descent` for bottom and `-ascent / 2` for
middle.  The function makes exactly the calls `draw_string_calls`. -/
theorem draw_string_initial_offset {β : Type} (plot : PlotEdge β) (fctx : FContext β)
    (glyph_outline : FGlyph → Nat → Nat) (glyph_info : Nat → Option FGlyph)
    (text : List Nat) (font : FFont) (alignment : GTextAlignment) (anchor : FTextAnchor)
    (code_point0 : Nat) :
    (draw_string_start glyph_info text font alignment anchor code_point0).1.x =
      (match alignment with
        | .GTextAlignmentLeft => 0
        | .GTextAlignmentRight =>
          -(total_advance (resolved_glyphs glyph_info text ⟨0, code_point0⟩))
        | .GTextAlignmentCenter =>
          -(Int.tdiv (total_advance (resolved_glyphs glyph_info text ⟨0, code_point0⟩)) 2)) ∧
    (draw_string_start glyph_info text font alignment anchor code_point0).1.y =
      (match anchor with
        | .FTextAnchorBaseline => 0
        | .FTextAnchorTop => -font.ascent
        | .FTextAnchorBottom => -font.descent
        | .FTextAnchorMiddle => -(Int.tdiv font.ascent 2)) ∧
    (∀ a g rest,
      (draw_string_calls glyph_info text font alignment anchor code_point0).1
        = (a, g) :: rest →
      a = (draw_string_start glyph_info text font alignment anchor code_point0).1) ∧
    fctx_draw_string plot fctx text font glyph_info glyph_outline alignment anchor
        code_point0 =
      (run_calls plot glyph_outline
        (draw_string_calls glyph_info text font alignment anchor code_point0).1 fctx).map
        (fun f =>
          (f, (draw_string_calls glyph_info text font alignment anchor code_point0).2)) := by
  have hm := (measure_loop_resolved glyph_info text ⟨0, code_point0⟩ 0).1
  refine ⟨?_, ?_, ?_, fctx_draw_string_calls plot fctx text font glyph_info glyph_outline
    alignment anchor code_point0⟩
  · cases alignment <;> simp [draw_string_start, hm, tdiv_neg_two]
  · cases anchor <;> simp [draw_string_start, tdiv_neg_two]
  · intro a g rest h
    exact glyph_calls_head glyph_info text _ _ a g rest h

/-- Witness of `draw_string_initial_offset`: the string `AB`, whose glyphs have the
advances 10 and 12, centred: the first glyph is drawn with the horizontal offset -11. -/
theorem draw_string_initial_offset_witness :
    total_advance (resolved_glyphs glyphs_AB [65, 66] ⟨0, 0⟩) = 22 ∧
    (draw_string_calls glyphs_AB [65, 66] (font_metrics 800 (-200))
        .GTextAlignmentCenter .FTextAnchorBaseline 0).1
      = [(⟨-11, 0⟩, ⟨0, 0, 10⟩), (⟨-1, 0⟩, ⟨0, 0, 12⟩)] ∧
    (⟨-11, 0⟩ : FPoint) = (draw_string_start glyphs_AB [65, 66] (font_metrics 800 (-200))
        .GTextAlignmentCenter .FTextAnchorBaseline 0).1 :=
  ⟨by decide, by decide,
    (draw_string_initial_offset plot_log log_context (fun _ _ => 0) glyphs_AB [65, 66]
      (font_metrics 800 (-200)) .GTextAlignmentCenter .FTextAnchorBaseline 0).2.2.1
      ⟨-11, 0⟩ ⟨0, 0, 10⟩ [(⟨-1, 0⟩, ⟨0, 0, 12⟩)] (by decide)⟩

/-- From state 0, a byte below `0xFE` makes the decoder forget the prior content of
`*cp`. -/
theorem utf8_first_byte_forgets (b c1 c2 : Nat) (hb : b < 254) :
    utf8_decode_byte b ⟨0, c1⟩ = utf8_decode_byte b ⟨0, c2⟩ := by
  unfold utf8_decode_byte
  simp only [true_or, if_true]
  split_ifs <;> rfl

/-- A pass over a string that is empty or starts with a byte below `0xFE` resolves the
same glyphs whatever `code_point` held before. -/
theorem resolved_glyphs_forgets (glyph_info : Nat → Option FGlyph) (text : List Nat)
    (c1 c2 : Nat) (h : ∀ b, text.head? = some b → b < 254) :
    resolved_glyphs glyph_info text ⟨0, c1⟩ = resolved_glyphs glyph_info text ⟨0, c2⟩ := by
  cases text with
  | nil => rfl
  | cons b bs =>
    simp only [resolved_glyphs]
    rw [utf8_first_byte_forgets b c1 c2 (h b rfl)]

/-- For a string that is empty or starts with a byte below `0xFE` the two passes of
`fctx_draw_string` agree: right-aligned text ends with `advance.x = 0`. -/
theorem draw_string_passes_agree (glyph_info : Nat → Option FGlyph) (text : List Nat)
    (font : FFont) (anchor : FTextAnchor) (code_point0 : Nat)
    (h : ∀ b, text.head? = some b → b < 254) :
    (draw_string_calls glyph_info text font .GTextAlignmentRight anchor code_point0).2.x
      = 0 := by
  unfold draw_string_calls
  dsimp only
  rw [(glyph_calls_resolved glyph_info text _ _).2]
  dsimp only
  rw [resolved_glyphs_forgets glyph_info text _ code_point0 h]
  have hm := (measure_loop_resolved glyph_info text ⟨0, code_point0⟩ 0).1
  simp [draw_string_start, hm]

/-- C19 (the code at the failing input): the string `"\xFEA"`, right-aligned, in a font
that has a glyph for `A` only (advance 10), with `code_point` holding 0 on entry.  In the
measurement pass the byte `0xFE` makes `utf8_decode_byte` return 0 without writing
`code_point`, the stale value 0 has no glyph, and `A` gives the width 10; the drawing
pass starts with `advance.x = -10` and with `code_point` still holding `A` from the first
pass, so the byte `0xFE` draws an `A`, and so does the byte `A`: two glyphs are drawn,
at -10 and at 0, and `advance.x` ends at 10, not at 0.  Each call does get the initial
offset plus the advances of the glyphs drawn before it. -/
theorem draw_string_passes_disagree :
    resolved_glyphs glyphs_AB [254, 65] ⟨0, 0⟩ = [⟨0, 0, 10⟩] ∧
    draw_string_start glyphs_AB [254, 65] (font_metrics 800 (-200))
        .GTextAlignmentRight .FTextAnchorBaseline 0 = (⟨-10, 0⟩, 65) ∧
    draw_string_calls glyphs_AB [254, 65] (font_metrics 800 (-200))
        .GTextAlignmentRight .FTextAnchorBaseline 0
      = ([(⟨-10, 0⟩, ⟨0, 0, 10⟩), (⟨0, 0⟩, ⟨0, 0, 10⟩)], ⟨10, 0⟩) ∧
    (fctx_draw_string plot_log log_context [254, 65] (font_metrics 800 (-200)) glyphs_AB
        (fun _ _ => 0) .GTextAlignmentRight .FTextAnchorBaseline 0).map (fun r => r.2)
      = some ⟨10, 0⟩ := by
  decide

/-! ## `fctx_plot_edge_bw`, scanline by scanline -/

theorem edge_step_y (e : Edge) : (edge_step e).y = e.y + 1 := by
  unfold edge_step
  dsimp only
  split_ifs <;> rfl

/-- The rows of an edge are consecutive, from `e.y` on. -/
theorem edge_rows_sorted : ∀ (n : Nat) (e : Edge),
    List.Pairwise (fun r s : Int × Int => r.2 < s.2) (edge_rows n e) ∧
    ∀ r ∈ edge_rows n e, e.y ≤ r.2 := by
  intro n
  induction n with
  | zero => intro e; simp [edge_rows]
  | succ n ih =>
    intro e
    obtain ⟨h1, h2⟩ := ih (edge_step e)
    have hy := edge_step_y e
    simp only [edge_rows, List.pairwise_cons, List.mem_cons]
    refine ⟨⟨?_, h1⟩, ?_⟩
    · intro r hr
      have := h2 r hr
      omega
    · intro r hr
      rcases hr with rfl | hr
      · exact le_refl _
      · have := h2 r hr
        omega

/-- The second loop of `fctx_plot_edge_bw` applies its body to the rows of the edge, up
to the first row below the plane. -/
theorem plot_rows_bw_rows (stride max_x max_y : Int) : ∀ (n : Nat) (e : Edge)
    (data : Int → Nat), e.height.toNat = n →
    plot_rows_bw stride max_x max_y n e data =
      ((edge_rows n e).takeWhile (fun r => decide (r.2 ≤ max_y))).foldl
        (toggle_flag stride max_x) data := by
  intro n
  induction n with
  | zero => intro e data _; rfl
  | succ n ih =>
    intro e data hn
    have hh := edge_step_height e
    by_cases h : e.height > 0 ∧ e.y ≤ max_y
    · simp only [plot_rows_bw, if_pos h, edge_rows]
      rw [List.takeWhile_cons_of_pos (by simpa using h.2), List.foldl_cons]
      exact ih (edge_step e) _ (by omega)
    · have hy : ¬ e.y ≤ max_y := fun hy => h ⟨by omega, hy⟩
      simp only [plot_rows_bw, if_neg h, edge_rows]
      rw [List.takeWhile_cons_of_neg (by simpa using hy)]
      rfl

/-- The first loop of `fctx_plot_edge_bw` skips the rows of the edge above the plane. -/
theorem skip_rows_rows : ∀ (n : Nat) (e : Edge), e.height.toNat = n →
    edge_rows (skip_rows n e).height.toNat (skip_rows n e) =
      (edge_rows n e).dropWhile (fun r => decide (r.2 < 0)) := by
  intro n
  induction n with
  | zero =>
    intro e hn
    simp only [skip_rows, hn, edge_rows, List.dropWhile_nil]
  | succ n ih =>
    intro e hn
    have hh := edge_step_height e
    by_cases h : e.height > 0 ∧ e.y < 0
    · simp only [skip_rows, if_pos h, edge_rows]
      rw [List.dropWhile_cons_of_pos (by simpa using h.2)]
      exact ih (edge_step e) (by omega)
    · have hy : ¬ e.y < 0 := fun hy => h ⟨by omega, hy⟩
      simp only [skip_rows, if_neg h, hn, edge_rows]
      rw [List.dropWhile_cons_of_neg (by simpa using hy)]

/-- On rows in increasing order, dropping the rows above the plane and stopping at the
first row below it keeps exactly the rows of the plane. -/
theorem visible_rows_filter (max_y : Int) : ∀ (l : List (Int × Int)),
    List.Pairwise (fun r s : Int × Int => r.2 < s.2) l →
    (l.dropWhile (fun r => decide (r.2 < 0))).takeWhile (fun r => decide (r.2 ≤ max_y)) =
      l.filter (fun r => decide (0 ≤ r.2 ∧ r.2 ≤ max_y)) := by
  have key : ∀ (l : List (Int × Int)),
      List.Pairwise (fun r s : Int × Int => r.2 < s.2) l → (∀ r ∈ l, 0 ≤ r.2) →
      l.takeWhile (fun r => decide (r.2 ≤ max_y)) =
        l.filter (fun r => decide (0 ≤ r.2 ∧ r.2 ≤ max_y)) := by
    intro l
    induction l with
    | nil => intro _ _; rfl
    | cons r l ih =>
      intro hp h0
      rw [List.pairwise_cons] at hp
      have hr0 : 0 ≤ r.2 := h0 r (List.mem_cons_self r l)
      by_cases hm : r.2 ≤ max_y
      · rw [List.takeWhile_cons_of_pos (by simpa using hm),
          List.filter_cons_of_pos (by simpa using ⟨hr0, hm⟩),
          ih hp.2 (fun s hs => h0 s (List.mem_cons_of_mem r hs))]
      · rw [List.takeWhile_cons_of_neg (by simpa using hm),
          List.filter_cons_of_neg (by simp; omega)]
        symm
        rw [List.filter_eq_nil_iff]
        intro s hs
        have := hp.1 s hs
        simp only [decide_eq_true_eq, not_and, not_le]
        intro _
        omega
  intro l
  induction l with
  | nil => intro _; rfl
  | cons r l ih =>
    intro hp
    by_cases hneg : r.2 < 0
    · rw [List.dropWhile_cons_of_pos (by simpa using hneg),
        List.filter_cons_of_neg (by simp; omega)]
      exact ih (List.pairwise_cons.mp hp).2
    · rw [List.dropWhile_cons_of_neg (by simpa using hneg)]
      apply key (r :: l) hp
      intro s hs
      rcases List.mem_cons.mp hs with rfl | hs
      · omega
      · have := (List.pairwise_cons.mp hp).1 s hs
        omega

/-- The effect of `*p ^= m` on the bits of the flag bytes, for `m < 256`. -/
theorem xorAt_testBit (data : Int → Nat) (p : Int) (m : Nat) (hd : ∀ q, data q < 256)
    (hm : m < 256) :
    (∀ q, xorAt data p m q < 256) ∧
    ∀ q k, (xorAt data p m q).testBit k =
      Bool.xor ((data q).testBit k) (decide (q = p) && m.testBit k) := by
  have hx : data p ^^^ m < 2 ^ 8 := Nat.xor_lt_two_pow (hd p) hm
  have hmod : (data p ^^^ m) % 256 = data p ^^^ m := Nat.mod_eq_of_lt hx
  constructor
  · intro q
    unfold xorAt
    by_cases hq : q = p
    · subst hq
      rw [Function.update_same]
      exact Nat.mod_lt _ (by decide)
    · rw [Function.update_noteq hq]
      exact hd q
  · intro q k
    unfold xorAt
    by_cases hq : q = p
    · subst hq
      rw [Function.update_same, hmod, Nat.testBit_xor]
      simp
    · rw [Function.update_noteq hq]
      simp [hq]

/-- The body of the second loop of `fctx_plot_edge_bw`, bit by bit: left of the plane it
toggles bit 0 of the first byte of the row, inside the plane it toggles the bit of the
column, right of the plane it changes nothing. -/
theorem toggle_flag_bits (stride max_x : Int) (data : Int → Nat) (r : Int × Int)
    (hd : ∀ q, data q < 256) :
    (∀ q, toggle_flag stride max_x data r q < 256) ∧
    (r.1 < 0 → ∀ q k, (toggle_flag stride max_x data r q).testBit k =
      Bool.xor ((data q).testBit k) (decide (q = r.2 * stride ∧ k = 0))) ∧
    (0 ≤ r.1 → r.1 ≤ max_x → ∀ q k, (toggle_flag stride max_x data r q).testBit k =
      Bool.xor ((data q).testBit k)
        (decide (q = r.2 * stride + r.1 / 8 ∧ (k : Int) = r.1 % 8))) ∧
    (0 ≤ r.1 → max_x < r.1 → toggle_flag stride max_x data r = data) := by
  have h1 := xorAt_testBit data (r.2 * stride) 1 hd (by decide)
  have hj : (Int.tmod r.1 8).toNat < 8 := by
    have := Int.tmod_lt_of_pos r.1 (show (0 : Int) < 8 by decide)
    omega
  have hm : 1 <<< (Int.tmod r.1 8).toNat < 256 := by
    rw [Nat.one_shiftLeft]
    exact Nat.pow_lt_pow_right (by decide) hj
  have h2 := xorAt_testBit data (r.2 * stride + Int.tdiv r.1 8)
    (1 <<< (Int.tmod r.1 8).toNat) hd hm
  refine ⟨?_, ?_, ?_, ?_⟩
  · intro q
    unfold toggle_flag
    split_ifs
    · exact h1.1 q
    · exact h2.1 q
    · exact hd q
  · intro hneg q k
    unfold toggle_flag
    rw [if_pos hneg, h1.2 q k]
    congr 1
    have e : Nat.testBit 1 k = decide (k = 0) := by
      have := @Nat.testBit_two_pow 0 k
      simpa [eq_comm] using this
    rw [e, ← Bool.decide_and]
  · intro h0 hx q k
    unfold toggle_flag
    rw [if_neg (by omega), if_pos hx, h2.2 q k]
    congr 1
    rw [Nat.one_shiftLeft, Nat.testBit_two_pow, ← Bool.decide_and]
    have e1 : Int.tdiv r.1 8 = r.1 / 8 := Int.tdiv_eq_ediv h0 (by decide)
    have e2 : Int.tmod r.1 8 = r.1 % 8 := Int.tmod_eq_emod h0 (by decide)
    rw [e1, e2]
    apply decide_eq_decide.mpr
    constructor
    · rintro ⟨a, b⟩
      exact ⟨a, by omega⟩
    · rintro ⟨a, b⟩
      exact ⟨a, by omega⟩
  · intro h0 hx
    unfold toggle_flag
    rw [if_neg (by omega), if_neg (by omega)]

/-- C20 as stated fails: on the 8 by 8 flag plane (`max_x` = 7) the edge from
(20, 0.5) to (20, 4.5) crosses the visible scanlines 1 to 4 at column 20, right of the
plane, and `fctx_plot_edge_bw` toggles no bit at all: the 32 flag bytes stay zero.  The
mirror edge at column -20 toggles bit 0 of the first byte of the rows 1 to 4. -/
theorem plot_edge_bw_right_of_plane_dropped :
    toInt16 (ctx_bw_8x8.flag_bounds.size_w - 1) = 7 ∧
    (edge_init edge_uninit ⟨320, 8⟩ ⟨320, 72⟩).map (fun e => edge_rows e.height.toNat e)
      = some [(20, 1), (20, 2), (20, 3), (20, 4)] ∧
    (fctx_plot_edge_bw ctx_bw_8x8 ⟨320, 8⟩ ⟨320, 72⟩).map
        (fun f => (List.range 32).map (fun p => f.flag_buffer.mem p))
      = some (List.replicate 32 0) ∧
    (fctx_plot_edge_bw ctx_bw_8x8 ⟨-320, 8⟩ ⟨-320, 72⟩).map
        (fun f => (List.range 32).map (fun p => f.flag_buffer.mem p))
      = some [0, 0, 0, 0, 1, 0, 0, 0, 1, 0, 0, 0, 1, 0, 0, 0, 1, 0, 0, 0,
              0, 0, 0, 0, 0, 0, 0, 0, 0, 0, 0, 0] := by
  decide!

/-- C20, amended: for every edge that `edge_init` accepts, `fctx_plot_edge_bw` applies
the loop body `toggle_flag` once for every scanline that the edge crosses inside the
plane (rows `0 .. max_y`), in order, and does nothing else.  On such a scanline, with `x`
the column of the edge: for `x < 0` bit 0 of the first byte of the row (column 0) is
toggled; for `0 ≤ x ≤ max_x` the bit of column `x` is toggled; for `x > max_x` (and `x ≥ 0`)
nothing is toggled.  So at most one bit is toggled per visible scanline: exactly one when the edge
is left of or inside the plane, none when it is right of it. -/
theorem plot_edge_bw_toggles (fctx : FContext (GBitmap Nat)) (a b : FPoint) (e : Edge)
    (he : (if a.y > b.y then edge_init edge_uninit b a else edge_init edge_uninit a b)
      = some e) :
    fctx_plot_edge_bw fctx a b = some { fctx with flag_buffer := { fctx.flag_buffer with
      mem := ((edge_rows e.height.toNat e).filter (fun r =>
          decide (0 ≤ r.2 ∧ r.2 ≤ toInt16 (fctx.flag_bounds.size_h - 1)))).foldl
        (toggle_flag (toInt16 fctx.flag_buffer.bytes_per_row)
          (toInt16 (fctx.flag_bounds.size_w - 1)))
        fctx.flag_buffer.mem } } ∧
    ∀ (stride max_x : Int) (data : Int → Nat) (r : Int × Int), (∀ q, data q < 256) →
      (∀ q, toggle_flag stride max_x data r q < 256) ∧
      (r.1 < 0 → ∀ q k, (toggle_flag stride max_x data r q).testBit k =
        Bool.xor ((data q).testBit k) (decide (q = r.2 * stride ∧ k = 0))) ∧
      (0 ≤ r.1 → r.1 ≤ max_x → ∀ q k, (toggle_flag stride max_x data r q).testBit k =
        Bool.xor ((data q).testBit k)
          (decide (q = r.2 * stride + r.1 / 8 ∧ (k : Int) = r.1 % 8))) ∧
      (0 ≤ r.1 → max_x < r.1 → toggle_flag stride max_x data r = data) := by
  refine ⟨?_, fun stride max_x data r hd => toggle_flag_bits stride max_x data r hd⟩
  unfold fctx_plot_edge_bw
  rw [he]
  dsimp only
  rw [plot_rows_bw_rows _ _ _ _ _ _ rfl, skip_rows_rows _ e rfl,
    visible_rows_filter _ _ (edge_rows_sorted _ e).1]

/-- Witness of `plot_edge_bw_toggles`: on the 8 by 8 flag plane the edge from
(-20, 0.5) to (-20, 4.5), left of the plane, toggles bit 0 of the first byte of row 1
(byte 4); on a zeroed plane of stride 4 the loop body toggles bit 0 of byte 4 for column
-20 of row 1, bit 3 of byte 4 for column 3, and nothing for column 20. -/
theorem plot_edge_bw_toggles_witness :
    (if (⟨-320, 8⟩ : FPoint).y > (⟨-320, 72⟩ : FPoint).y
      then edge_init edge_uninit ⟨-320, 72⟩ ⟨-320, 8⟩
      else edge_init edge_uninit ⟨-320, 8⟩ ⟨-320, 72⟩) =
      some ((edge_init edge_uninit ⟨-320, 8⟩ ⟨-320, 72⟩).getD edge_uninit) ∧
    (fctx_plot_edge_bw ctx_bw_8x8 ⟨-320, 8⟩ ⟨-320, 72⟩).map
      (fun f => f.flag_buffer.mem 4) = some 1 ∧
    (toggle_flag 4 7 (fun _ => 0) (-20, 1) 4).testBit 0 = true ∧
    (toggle_flag 4 7 (fun _ => 0) (3, 1) 4).testBit 3 = true ∧
    toggle_flag 4 7 (fun _ => 0) (20, 1) = fun _ => 0 := by
  have hz : ∀ q : Int, (fun _ : Int => (0 : Nat)) q < 256 := fun _ => Nat.zero_lt_succ 255
  refine ⟨by decide, ?_, ?_, ?_, ?_⟩
  · rw [(plot_edge_bw_toggles ctx_bw_8x8 ⟨-320, 8⟩ ⟨-320, 72⟩
      ((edge_init edge_uninit ⟨-320, 8⟩ ⟨-320, 72⟩).getD edge_uninit) (by decide)).1]
    decide!
  · rw [((plot_edge_bw_toggles ctx_bw_8x8 ⟨-320, 8⟩ ⟨-320, 72⟩
      ((edge_init edge_uninit ⟨-320, 8⟩ ⟨-320, 72⟩).getD edge_uninit) (by decide)).2
      4 7 (fun _ => 0) (-20, 1) hz).2.1 (by decide) 4 0]
    decide
  · rw [((plot_edge_bw_toggles ctx_bw_8x8 ⟨-320, 8⟩ ⟨-320, 72⟩
      ((edge_init edge_uninit ⟨-320, 8⟩ ⟨-320, 72⟩).getD edge_uninit) (by decide)).2
      4 7 (fun _ => 0) (3, 1) hz).2.2.1 (by decide) (by decide) 4 3]
    decide
  · exact ((plot_edge_bw_toggles ctx_bw_8x8 ⟨-320, 8⟩ ⟨-320, 72⟩
      ((edge_init edge_uninit ⟨-320, 8⟩ ⟨-320, 72⟩).getD edge_uninit) (by decide)).2
      4 7 (fun _ => 0) (20, 1) hz).2.2.2 (by decide) (by decide)

/-! ## `floorDivMod`, `fceil` and the scanline count -/

/-- For a positive denominator `floorDivMod` returns the flooring quotient and the
non-negative remainder. -/
theorem floorDivMod_eq (n d : Int) (hd : 0 < d) : floorDivMod n d = some (n / d, n % d) := by
  unfold floorDivMod
  rw [if_pos hd]
  by_cases hn : n ≥ 0
  · rw [if_pos hn, Int.tdiv_eq_ediv hn (le_of_lt hd), Int.tmod_eq_emod hn (le_of_lt hd)]
  · rw [if_neg hn]
    have hm : 0 ≤ -n := by omega
    dsimp only
    rw [Int.tdiv_eq_ediv hm (le_of_lt hd), Int.tmod_eq_emod hm (le_of_lt hd)]
    have h1 := Int.ediv_add_emod (-n) d
    have h2 := Int.emod_nonneg (-n) (ne_of_gt hd)
    have h3 := Int.emod_lt_of_pos (-n) hd
    by_cases hr : (-n) % d ≠ 0
    · rw [if_pos hr]
      have key : n / d = -(-n / d) - 1 ∧ n % d = d - -n % d := by
        rw [Int.ediv_emod_unique hd]
        refine ⟨?_, by omega, by omega⟩
        have e : d * (-(-n / d) - 1) = -(d * (-n / d)) - d := by ring
        rw [e]
        omega
      rw [key.1, key.2]
    · rw [if_neg hr]
      have hr0 : (-n) % d = 0 := by omega
      have key : n / d = -(-n / d) ∧ n % d = -n % d := by
        rw [Int.ediv_emod_unique hd]
        refine ⟨?_, by omega, by omega⟩
        have e : d * -(-n / d) = -(d * (-n / d)) := by ring
        rw [e]
        omega
      rw [key.1, key.2]

/-- C23: for every numerator `n` and every denominator `d > 0`, `floorDivMod` returns
(the assertion holds) a pair `(floor, mod)` with `floor * d + mod = n` and
`0 ≤ mod < d`: `floor` is the flooring quotient and `mod` the non-negative remainder,
also for negative `n`.  C's truncating `/` gives the same quotient for `n ≥ 0`, and for
`n < 0` it gives `floor + 1` whenever `d` does not divide `n` (and then C's `%` gives
`mod - d`). -/
theorem floorDivMod_floor (n d : Int) (hd : d > 0) :
    ∃ fl md, floorDivMod n d = some (fl, md) ∧
      fl * d + md = n ∧ 0 ≤ md ∧ md < d ∧ fl = n / d ∧ md = n % d ∧
      (∀ q r : Int, q * d + r = n → 0 ≤ r → r < d → q = fl ∧ r = md) ∧
      (0 ≤ n → Int.tdiv n d = fl ∧ Int.tmod n d = md) ∧
      (n < 0 → ¬ d ∣ n → Int.tdiv n d = fl + 1 ∧ Int.tmod n d = md - d) := by
  have h1 := Int.ediv_add_emod n d
  have h2 := Int.emod_nonneg n (ne_of_gt hd)
  have h3 := Int.emod_lt_of_pos n hd
  refine ⟨n / d, n % d, floorDivMod_eq n d hd, ?_, h2, h3, rfl, rfl, ?_, ?_, ?_⟩
  · rw [mul_comm]; exact h1
  · intro q r e r0 rd
    have := (Int.ediv_emod_unique hd).mpr ⟨show r + d * q = n by rw [mul_comm] at e; omega,
      r0, rd⟩
    exact ⟨this.1.symm, this.2.symm⟩
  · intro hn
    exact ⟨Int.tdiv_eq_ediv hn (le_of_lt hd), Int.tmod_eq_emod hn (le_of_lt hd)⟩
  · intro hn hdiv
    have hr : n % d ≠ 0 := fun h0 => hdiv (Int.dvd_of_emod_eq_zero h0)
    have ht := Int.tdiv_add_tmod n d
    have hq : Int.tdiv n d = n / d + 1 := by
      have e : n = -(-n) := by omega
      have hm : 0 ≤ -n := by omega
      rw [e, Int.neg_tdiv, Int.tdiv_eq_ediv hm (le_of_lt hd)]
      rw [← e]
      have g1 := Int.ediv_add_emod (-n) d
      have g2 := Int.emod_nonneg (-n) (ne_of_gt hd)
      have g3 := Int.emod_lt_of_pos (-n) hd
      have key : n / d = -(-n / d) - 1 ∧ n % d = d - -n % d := by
        rw [Int.ediv_emod_unique hd]
        have g4 : (-n) % d ≠ 0 := by
          intro h0
          apply hdiv
          have := Int.dvd_of_emod_eq_zero h0
          exact (Int.dvd_neg).mp this
        refine ⟨?_, by omega, by omega⟩
        have e2 : d * (-(-n / d) - 1) = -(d * (-n / d)) - d := by ring
        rw [e2]
        omega
      rw [key.1]
      omega
    refine ⟨hq, ?_⟩
    rw [hq] at ht
    have e3 : d * (n / d + 1) = d * (n / d) + d := by ring
    rw [e3] at ht
    omega

/-- Witness of `floorDivMod_floor`: -7 by 2 gives floor -4 and remainder 1, where C's
`/` and `%` give -3 and -1; 7 by 2 gives 3 and 1, as C's `/` and `%` do. -/
theorem floorDivMod_floor_witness :
    (floorDivMod (-7) 2 = some (-4, 1) ∧ Int.tdiv (-7) 2 = -4 + 1 ∧
      Int.tmod (-7) 2 = 1 - 2) ∧
    (floorDivMod 7 2 = some (3, 1) ∧ Int.tdiv 7 2 = 3 ∧ Int.tmod 7 2 = 1) := by
  constructor
  · obtain ⟨fl, md, h, _, _, _, _, _, huniq, _, hneg⟩ :=
      floorDivMod_floor (-7) 2 (by decide)
    obtain ⟨e1, e2⟩ := huniq (-4) 1 (by decide) (by decide) (by decide)
    subst e1; subst e2
    exact ⟨h, hneg (by decide) (by decide)⟩
  · obtain ⟨fl, md, h, _, _, _, _, _, huniq, hpos, _⟩ := floorDivMod_floor 7 2 (by decide)
    obtain ⟨e1, e2⟩ := huniq 3 1 (by decide) (by decide) (by decide)
    subst e1; subst e2
    exact ⟨h, hpos (by decide)⟩

/-- The function `fceil` is the ceiling of `value / 16`, written with flooring division. -/
theorem fceil_eq (v : Int) : fceil v = (v + 15) / 16 := by
  unfold fceil FIXED_POINT_SCALE
  dsimp only
  by_cases h : v - 1 + 16 ≥ 0
  · rw [if_pos h, Int.tdiv_eq_ediv h (by decide)]
    omega
  · rw [if_neg h]
    have hm : 0 ≤ -(v - 1 + 16) := by omega
    rw [Int.tdiv_eq_ediv hm (by decide), Int.tmod_eq_emod hm (by decide)]
    split_ifs <;> omega

/-- The function `fceil_aa` is the ceiling of `value / 2`. -/
theorem fceil_aa_eq (v : Int) : fceil_aa v = (v + 1) / 2 := by
  unfold fceil_aa FIXED_POINT_SCALE_AA
  dsimp only
  by_cases h : v - 1 + 2 ≥ 0
  · rw [if_pos h, Int.tdiv_eq_ediv h (by decide)]
    omega
  · rw [if_neg h]
    have hm : 0 ≤ -(v - 1 + 2) := by omega
    rw [Int.tdiv_eq_ediv hm (by decide), Int.tmod_eq_emod hm (by decide)]
    split_ifs <;> omega

/-- For points ordered by `y`, `edge_init` returns: its two calls of `floorDivMod` get
the positive denominator `dN * 16` when the height is not zero.  The edge returned is
the one with the flooring quotients and remainders. -/
theorem edge_init_ordered (e : Edge) (top bottom : FPoint) (h : top.y ≤ bottom.y) :
    (fceil bottom.y - fceil top.y ≠ 0 → 0 < (bottom.y - top.y) * 16 ∧
      edge_init e top bottom = some
        { x := ((bottom.x - top.x) * 16 * fceil top.y - (bottom.x - top.x) * top.y +
              (bottom.y - top.y) * top.x - 1 + (bottom.y - top.y) * 16) /
              ((bottom.y - top.y) * 16)
          xStep := ((bottom.x - top.x) * 16) / ((bottom.y - top.y) * 16)
          numerator := ((bottom.x - top.x) * 16) % ((bottom.y - top.y) * 16)
          denominator := (bottom.y - top.y) * 16
          errorTerm := ((bottom.x - top.x) * 16 * fceil top.y - (bottom.x - top.x) * top.y +
              (bottom.y - top.y) * top.x - 1 + (bottom.y - top.y) * 16) %
              ((bottom.y - top.y) * 16)
          y := fceil top.y
          height := fceil bottom.y - fceil top.y }) ∧
    (fceil bottom.y - fceil top.y = 0 →
      edge_init e top bottom = some { e with y := fceil top.y, height := 0 }) := by
  constructor
  · intro hh
    have hpos : 0 < (bottom.y - top.y) * 16 := by
      have e1 := fceil_eq top.y
      have e2 := fceil_eq bottom.y
      omega
    refine ⟨hpos, ?_⟩
    unfold edge_init
    dsimp only
    rw [if_pos hh, floorDivMod_eq _ _ hpos, floorDivMod_eq _ _ hpos]
  · intro hh
    unfold edge_init
    dsimp only
    rw [if_neg (by omega), hh]

/-- The same for `edge_init_aa`, with the denominator `dN * 2`. -/
theorem edge_init_aa_ordered (e : Edge) (top bottom : FPoint) (h : top.y ≤ bottom.y) :
    (fceil_aa bottom.y - fceil_aa top.y ≠ 0 → 0 < (bottom.y - top.y) * 2 ∧
      edge_init_aa e top bottom = some
        { x := ((bottom.x - top.x) * 2 * fceil_aa top.y - (bottom.x - top.x) * top.y +
              (bottom.y - top.y) * top.x - 1 + (bottom.y - top.y) * 2) /
              ((bottom.y - top.y) * 2)
          xStep := ((bottom.x - top.x) * 2) / ((bottom.y - top.y) * 2)
          numerator := ((bottom.x - top.x) * 2) % ((bottom.y - top.y) * 2)
          denominator := (bottom.y - top.y) * 2
          errorTerm := ((bottom.x - top.x) * 2 * fceil_aa top.y -
              (bottom.x - top.x) * top.y +
              (bottom.y - top.y) * top.x - 1 + (bottom.y - top.y) * 2) %
              ((bottom.y - top.y) * 2)
          y := fceil_aa top.y
          height := fceil_aa bottom.y - fceil_aa top.y }) ∧
    (fceil_aa bottom.y - fceil_aa top.y = 0 →
      edge_init_aa e top bottom = some { e with y := fceil_aa top.y, height := 0 }) := by
  constructor
  · intro hh
    have hpos : 0 < (bottom.y - top.y) * 2 := by
      have e1 := fceil_aa_eq top.y
      have e2 := fceil_aa_eq bottom.y
      omega
    refine ⟨hpos, ?_⟩
    unfold edge_init_aa
    dsimp only
    rw [if_pos hh, floorDivMod_eq _ _ hpos, floorDivMod_eq _ _ hpos]
  · intro hh
    unfold edge_init_aa
    dsimp only
    rw [if_neg (by omega), hh]

/-- An edge whose end points have the same `fceil` of `y` leaves the context as it is:
`fctx_plot_edge_bw` toggles nothing. -/
theorem plot_edge_bw_flat (fctx : FContext (GBitmap Nat)) (a b : FPoint)
    (h : fceil a.y = fceil b.y) : fctx_plot_edge_bw fctx a b = some fctx := by
  have e1 := fceil_eq a.y
  have e2 := fceil_eq b.y
  unfold fctx_plot_edge_bw
  by_cases hab : a.y > b.y
  · rw [if_pos hab, (edge_init_ordered edge_uninit b a (by omega)).2 (by omega)]
    rfl
  · rw [if_neg hab, (edge_init_ordered edge_uninit a b (by omega)).2 (by omega)]
    rfl

/-- An edge whose end points have the same `fceil_aa` of `y` leaves the context as it
is: `fctx_plot_edge_aa` toggles nothing. -/
theorem plot_edge_aa_flat (fctx : FContext (GBitmap Nat)) (a b : FPoint)
    (h : fceil_aa a.y = fceil_aa b.y) : fctx_plot_edge_aa fctx a b = some fctx := by
  unfold fctx_plot_edge_aa
  by_cases hab : a.y > b.y
  · rw [if_pos hab, (edge_init_aa_ordered edge_uninit b a (by omega)).2 (by omega)]
    rfl
  · rw [if_neg hab, (edge_init_aa_ordered edge_uninit a b (by omega)).2 (by omega)]
    rfl

/-- C22: for every value `v`, `fceil v` is the least integer `n` with `16 * n ≥ v`,
whatever the sign of `v` (`fceil (-17) = -1`, `fceil (-16) = -1`, `fceil (-15) = 0`,
`fceil 0 = 0`, `fceil 1 = 1`).  Hence for end points ordered by `y` the scanline count
`fceil bottom.y - fceil top.y` that `edge_init` stores is never negative, and it is 0
exactly when no integer `n` has `top.y ≤ 16 * n < bottom.y`; an edge with a zero
scanline count makes `fctx_plot_edge_bw` return the context unchanged: no flag bit is
toggled. -/
theorem fceil_ceiling :
    (∀ v : Int, v ≤ 16 * fceil v ∧ ∀ n : Int, v ≤ 16 * n → fceil v ≤ n) ∧
    (fceil (-17) = -1 ∧ fceil (-16) = -1 ∧ fceil (-15) = 0 ∧ fceil 0 = 0 ∧ fceil 1 = 1) ∧
    (∀ (e : Edge) (top bottom : FPoint), top.y ≤ bottom.y →
      (∃ e1, edge_init e top bottom = some e1 ∧ e1.y = fceil top.y ∧
        e1.height = fceil bottom.y - fceil top.y ∧ 0 ≤ e1.height) ∧
      (fceil bottom.y - fceil top.y = 0 ↔
        ¬ ∃ n : Int, top.y ≤ 16 * n ∧ 16 * n < bottom.y)) ∧
    (∀ (fctx : FContext (GBitmap Nat)) (a b : FPoint), fceil a.y = fceil b.y →
      fctx_plot_edge_bw fctx a b = some fctx) := by
  refine ⟨?_, by decide, ?_, fun fctx a b h => plot_edge_bw_flat fctx a b h⟩
  · intro v
    have e := fceil_eq v
    refine ⟨by omega, fun n hn => by omega⟩
  · intro e top bottom h
    have e1 := fceil_eq top.y
    have e2 := fceil_eq bottom.y
    constructor
    · by_cases hh : fceil bottom.y - fceil top.y = 0
      · refine ⟨_, (edge_init_ordered e top bottom h).2 hh, rfl, ?_, le_refl _⟩
        exact hh.symm
      · refine ⟨_, ((edge_init_ordered e top bottom h).1 hh).2, rfl, rfl, ?_⟩
        dsimp only
        omega
    · constructor
      · rintro hh ⟨n, h1, h2⟩
        omega
      · intro hno
        by_contra hh
        apply hno
        exact ⟨fceil top.y, by omega, by omega⟩

/-- Witness of `fceil_ceiling`: the end points (0, 1/16) and (3, 15/16) lie between the
scanlines 0 and 1, and the edge between them toggles nothing on the 8 by 8 plane. -/
theorem fceil_ceiling_witness :
    ((1 : Int) ≤ 16 * fceil 1 ∧ fceil 1 ≤ 1) ∧
    (fceil 15 - fceil 1 = 0 ∧ ¬ ∃ n : Int, (1 : Int) ≤ 16 * n ∧ 16 * n < 15) ∧
    fctx_plot_edge_bw ctx_bw_8x8 ⟨0, 1⟩ ⟨48, 15⟩ = some ctx_bw_8x8 :=
  ⟨⟨(fceil_ceiling.1 1).1, (fceil_ceiling.1 1).2 1 (by decide)⟩,
    ⟨by decide,
      ((fceil_ceiling.2.2.1 edge_uninit ⟨0, 1⟩ ⟨48, 15⟩ (by decide)).2).mp (by decide)⟩,
    fceil_ceiling.2.2.2 ctx_bw_8x8 ⟨0, 1⟩ ⟨48, 15⟩ (by decide)⟩

/-- C26: for every context and every pair of points, `fctx_plot_edge_bw` and
`fctx_plot_edge_aa` return: the assertion of `floorDivMod` does not fail.  They pass the
point with the smaller `y` as `top`; for such a pair, whenever the scanline count is not
zero the denominator `dN * 16` (for `edge_init_aa`: `dN * 2`) is strictly positive, so
both calls of `floorDivMod` return, with whatever numerator; when the scanline count is
zero `floorDivMod` is not called (`edge_init` returns the edge it was given, with `y` and
`height` stored) and the context comes back unchanged. -/
theorem plot_edge_assert_unreachable (fctx : FContext (GBitmap Nat)) (a b : FPoint) :
    (∃ f, fctx_plot_edge_bw fctx a b = some f) ∧
    (∃ f, fctx_plot_edge_aa fctx a b = some f) ∧
    (∀ (e : Edge) (top bottom : FPoint), top.y ≤ bottom.y →
      (fceil bottom.y - fceil top.y ≠ 0 → 0 < (bottom.y - top.y) * 16 ∧
        (∀ num, ∃ r, floorDivMod num ((bottom.y - top.y) * 16) = some r) ∧
        ∃ e1, edge_init e top bottom = some e1) ∧
      (fceil_aa bottom.y - fceil_aa top.y ≠ 0 → 0 < (bottom.y - top.y) * 2 ∧
        (∀ num, ∃ r, floorDivMod num ((bottom.y - top.y) * 2) = some r) ∧
        ∃ e1, edge_init_aa e top bottom = some e1) ∧
      (fceil bottom.y - fceil top.y = 0 →
        edge_init e top bottom = some { e with y := fceil top.y, height := 0 }) ∧
      (fceil_aa bottom.y - fceil_aa top.y = 0 →
        edge_init_aa e top bottom = some { e with y := fceil_aa top.y, height := 0 })) ∧
    (fceil a.y = fceil b.y → fctx_plot_edge_bw fctx a b = some fctx) ∧
    (fceil_aa a.y = fceil_aa b.y → fctx_plot_edge_aa fctx a b = some fctx) := by
  refine ⟨?_, ?_, ?_, plot_edge_bw_flat fctx a b, plot_edge_aa_flat fctx a b⟩
  · have key : ∀ top bottom : FPoint, top.y ≤ bottom.y →
        ∃ e1, edge_init edge_uninit top bottom = some e1 := by
      intro top bottom h
      by_cases hh : fceil bottom.y - fceil top.y = 0
      · exact ⟨_, (edge_init_ordered edge_uninit top bottom h).2 hh⟩
      · exact ⟨_, ((edge_init_ordered edge_uninit top bottom h).1 hh).2⟩
    unfold fctx_plot_edge_bw
    by_cases hab : a.y > b.y
    · obtain ⟨e1, he⟩ := key b a (by omega)
      rw [if_pos hab, he]
      exact ⟨_, rfl⟩
    · obtain ⟨e1, he⟩ := key a b (by omega)
      rw [if_neg hab, he]
      exact ⟨_, rfl⟩
  · have key : ∀ top bottom : FPoint, top.y ≤ bottom.y →
        ∃ e1, edge_init_aa edge_uninit top bottom = some e1 := by
      intro top bottom h
      by_cases hh : fceil_aa bottom.y - fceil_aa top.y = 0
      · exact ⟨_, (edge_init_aa_ordered edge_uninit top bottom h).2 hh⟩
      · exact ⟨_, ((edge_init_aa_ordered edge_uninit top bottom h).1 hh).2⟩
    unfold fctx_plot_edge_aa
    by_cases hab : a.y > b.y
    · obtain ⟨e1, he⟩ := key b a (by omega)
      rw [if_pos hab, he]
      exact ⟨_, rfl⟩
    · obtain ⟨e1, he⟩ := key a b (by omega)
      rw [if_neg hab, he]
      exact ⟨_, rfl⟩
  · intro e top bottom h
    refine ⟨?_, ?_, (edge_init_ordered e top bottom h).2,
      (edge_init_aa_ordered e top bottom h).2⟩
    · intro hh
      obtain ⟨hpos, he⟩ := (edge_init_ordered e top bottom h).1 hh
      exact ⟨hpos, fun num => ⟨_, floorDivMod_eq num _ hpos⟩, _, he⟩
    · intro hh
      obtain ⟨hpos, he⟩ := (edge_init_aa_ordered e top bottom h).1 hh
      exact ⟨hpos, fun num => ⟨_, floorDivMod_eq num _ hpos⟩, _, he⟩

/-- Witness of `plot_edge_assert_unreachable`: the edge from (0, 0.5) to (1, 4.5) has a
non-zero scanline count in both rasterizers and positive denominators; the degenerate
edge from (5/16, 5/16) to itself has a zero scanline count and changes nothing. -/
theorem plot_edge_assert_unreachable_witness :
    (0 < ((⟨16, 72⟩ : FPoint).y - (⟨0, 8⟩ : FPoint).y) * 16 ∧
      (∀ num, ∃ r, floorDivMod num (((⟨16, 72⟩ : FPoint).y - (⟨0, 8⟩ : FPoint).y) * 16)
        = some r) ∧
      ∃ e1, edge_init edge_uninit ⟨0, 8⟩ ⟨16, 72⟩ = some e1) ∧
    (0 < ((⟨16, 72⟩ : FPoint).y - (⟨0, 8⟩ : FPoint).y) * 2 ∧
      (∀ num, ∃ r, floorDivMod num (((⟨16, 72⟩ : FPoint).y - (⟨0, 8⟩ : FPoint).y) * 2)
        = some r) ∧
      ∃ e1, edge_init_aa edge_uninit ⟨0, 8⟩ ⟨16, 72⟩ = some e1) ∧
    edge_init edge_uninit ⟨5, 5⟩ ⟨5, 5⟩ =
      some { edge_uninit with y := fceil (⟨5, 5⟩ : FPoint).y, height := 0 } ∧
    edge_init_aa edge_uninit ⟨5, 5⟩ ⟨5, 5⟩ =
      some { edge_uninit with y := fceil_aa (⟨5, 5⟩ : FPoint).y, height := 0 } ∧
    fctx_plot_edge_bw ctx_bw_8x8 ⟨5, 5⟩ ⟨5, 5⟩ = some ctx_bw_8x8 ∧
    fctx_plot_edge_aa ctx_bw_8x8 ⟨5, 5⟩ ⟨5, 5⟩ = some ctx_bw_8x8 :=
  ⟨((plot_edge_assert_unreachable ctx_bw_8x8 ⟨5, 5⟩ ⟨5, 5⟩).2.2.1 edge_uninit ⟨0, 8⟩
      ⟨16, 72⟩ (by decide)).1 (by decide),
    ((plot_edge_assert_unreachable ctx_bw_8x8 ⟨5, 5⟩ ⟨5, 5⟩).2.2.1 edge_uninit ⟨0, 8⟩
      ⟨16, 72⟩ (by decide)).2.1 (by decide),
    ((plot_edge_assert_unreachable ctx_bw_8x8 ⟨5, 5⟩ ⟨5, 5⟩).2.2.1 edge_uninit ⟨5, 5⟩
      ⟨5, 5⟩ (by decide)).2.2.1 (by decide),
    ((plot_edge_assert_unreachable ctx_bw_8x8 ⟨5, 5⟩ ⟨5, 5⟩).2.2.1 edge_uninit ⟨5, 5⟩
      ⟨5, 5⟩ (by decide)).2.2.2 (by decide),
    (plot_edge_assert_unreachable ctx_bw_8x8 ⟨5, 5⟩ ⟨5, 5⟩).2.2.2.1 (by decide),
    (plot_edge_assert_unreachable ctx_bw_8x8 ⟨5, 5⟩ ⟨5, 5⟩).2.2.2.2 (by decide)⟩

/-! ## The edge DDA -/

/-- One `edge_step` of an edge whose error term and slope numerator are remainders of
the denominator: the fields it keeps, and the invariant `x * denominator + errorTerm`
moves by `xStep * denominator + numerator`. -/
theorem edge_step_dda (e : Edge) (h0 : 0 ≤ e.errorTerm) (h1 : e.errorTerm < e.denominator)
    (h2 : 0 ≤ e.numerator) (h3 : e.numerator < e.denominator) :
    (edge_step e).denominator = e.denominator ∧ (edge_step e).xStep = e.xStep ∧
    (edge_step e).numerator = e.numerator ∧ (edge_step e).y = e.y + 1 ∧
    (edge_step e).height = e.height - 1 ∧
    0 ≤ (edge_step e).errorTerm ∧ (edge_step e).errorTerm < e.denominator ∧
    (edge_step e).x * e.denominator + (edge_step e).errorTerm =
      e.x * e.denominator + e.errorTerm + (e.xStep * e.denominator + e.numerator) := by
  unfold edge_step
  dsimp only
  by_cases h : e.errorTerm + e.numerator ≥ e.denominator
  · rw [if_pos h]
    dsimp only
    refine ⟨rfl, rfl, rfl, rfl, rfl, by omega, by omega, ?_⟩
    ring
  · rw [if_neg h]
    dsimp only
    refine ⟨rfl, rfl, rfl, rfl, rfl, by omega, by omega, ?_⟩
    ring

/-- The edge after `k` steps. -/
theorem edge_steps_dda (e : Edge) (h0 : 0 ≤ e.errorTerm) (h1 : e.errorTerm < e.denominator)
    (h2 : 0 ≤ e.numerator) (h3 : e.numerator < e.denominator) :
    ∀ k : Nat,
      (Nat.iterate edge_step k e).denominator = e.denominator ∧
      (Nat.iterate edge_step k e).xStep = e.xStep ∧
      (Nat.iterate edge_step k e).numerator = e.numerator ∧
      (Nat.iterate edge_step k e).y = e.y + k ∧
      (Nat.iterate edge_step k e).height = e.height - k ∧
      0 ≤ (Nat.iterate edge_step k e).errorTerm ∧
      (Nat.iterate edge_step k e).errorTerm < e.denominator ∧
      (Nat.iterate edge_step k e).x * e.denominator + (Nat.iterate edge_step k e).errorTerm =
        e.x * e.denominator + e.errorTerm + k * (e.xStep * e.denominator + e.numerator) := by
  intro k
  induction k with
  | zero => simp [h0, h1]
  | succ k ih =>
    obtain ⟨a1, a2, a3, a4, a5, a6, a7, a8⟩ := ih
    rw [Function.iterate_succ_apply']
    obtain ⟨b1, b2, b3, b4, b5, b6, b7, b8⟩ :=
      edge_step_dda (Nat.iterate edge_step k e) a6 (by rw [a1]; exact a7)
        (by rw [a3]; exact h2) (by rw [a3, a1]; exact h3)
    rw [a1] at b1 b7 b8
    rw [a2, a3] at b8
    refine ⟨b1, by rw [b2, a2], by rw [b3, a3], ?_, ?_, b6, b7, ?_⟩
    · rw [b4, a4]; push_cast; ring
    · rw [b5, a5]; push_cast; ring
    · rw [b8, a8]; push_cast; ring

/-- The first loop of the plot functions is a number of `edge_step`s, all of them on
rows above the plane. -/
theorem skip_rows_iterate : ∀ (n : Nat) (e : Edge), e.height.toNat = n →
    ∃ j : Nat, j ≤ n ∧ skip_rows n e = Nat.iterate edge_step j e ∧
      ∀ i, i < j → (Nat.iterate edge_step i e).y < 0 := by
  intro n
  induction n with
  | zero => intro e _; exact ⟨0, le_refl _, rfl, fun i hi => absurd hi (Nat.not_lt_zero i)⟩
  | succ n ih =>
    intro e hn
    have hh := edge_step_height e
    by_cases h : e.height > 0 ∧ e.y < 0
    · obtain ⟨j, hj, he, hlt⟩ := ih (edge_step e) (by omega)
      refine ⟨j + 1, by omega, ?_, ?_⟩
      · simp only [skip_rows, if_pos h]
        rw [he, Function.iterate_succ_apply]
      · intro i hi
        cases i with
        | zero => exact h.2
        | succ i =>
          rw [Function.iterate_succ_apply]
          exact hlt i (by omega)
    · refine ⟨0, Nat.zero_le _, ?_, fun i hi => absurd hi (Nat.not_lt_zero i)⟩
      simp only [skip_rows, if_neg h]
      rfl

/-- C21: for every pair of points with `top.y < bottom.y` whose `fceil` of `y` differ,
`edge_init` returns an edge `e`, and after `k` calls of `edge_step`, for every
`0 ≤ k < height`: the row is `fceil top.y + k`, the remaining height is
`fceil bottom.y - fceil top.y - k`, the error term is a remainder of the denominator, and
`x` is the ceiling of `X / 16`, where
`X = top.x + (bottom.x - top.x) * (16 * y - top.y) / (bottom.y - top.y)` is the exact
rational `x` of the edge on that scanline: with `A / D` the fraction `X / 16` over the
denominator `D = 16 * (bottom.y - top.y)`, `D * (x - 1) < A ≤ D * x`.  The first loop
of the plot functions is a number `j` of `edge_step`s, so the rows it reaches are rows
`k ≥ j` of the same edge: the column on a row does not depend on where the plane
starts. -/
theorem edge_dda_exact (e0 e : Edge) (top bottom : FPoint)
    (hy : top.y < bottom.y) (hh : fceil top.y ≠ fceil bottom.y)
    (hinit : edge_init e0 top bottom = some e) :
    e.height = fceil bottom.y - fceil top.y ∧ 0 < e.height ∧
    (∀ k : Nat, (k : Int) < e.height →
      (Nat.iterate edge_step k e).y = fceil top.y + k ∧
      (Nat.iterate edge_step k e).height = fceil bottom.y - fceil top.y - k ∧
      0 ≤ (Nat.iterate edge_step k e).errorTerm ∧
      (Nat.iterate edge_step k e).errorTerm < (Nat.iterate edge_step k e).denominator ∧
      (bottom.y - top.y) * top.x +
          (bottom.x - top.x) * (16 * (Nat.iterate edge_step k e).y - top.y)
        ≤ 16 * (bottom.y - top.y) * (Nat.iterate edge_step k e).x ∧
      16 * (bottom.y - top.y) * ((Nat.iterate edge_step k e).x - 1)
        < (bottom.y - top.y) * top.x +
          (bottom.x - top.x) * (16 * (Nat.iterate edge_step k e).y - top.y) ∧
      (Nat.iterate edge_step k e).x =
        Int.ceil (((top.x : ℚ) + ((bottom.x : ℚ) - top.x) *
          (16 * ((Nat.iterate edge_step k e).y : ℚ) - top.y) / ((bottom.y : ℚ) - top.y))
          / 16)) ∧
    (∃ j : Nat, (j : Int) ≤ e.height ∧
      skip_rows e.height.toNat e = Nat.iterate edge_step j e ∧
      ∀ i, i < j → (Nat.iterate edge_step i e).y < 0) := by
  have hne : fceil bottom.y - fceil top.y ≠ 0 := by omega
  obtain ⟨hpos, he⟩ := (edge_init_ordered e0 top bottom (le_of_lt hy)).1 hne
  rw [he] at hinit
  injection hinit with hinit
  have c1 := fceil_eq top.y
  have c2 := fceil_eq bottom.y
  have hheight : e.height = fceil bottom.y - fceil top.y := by rw [← hinit]
  have hden : e.denominator = (bottom.y - top.y) * 16 := by rw [← hinit]
  have hy0 : e.y = fceil top.y := by rw [← hinit]
  have g0 : 0 ≤ e.errorTerm := by
    rw [← hinit]; exact Int.emod_nonneg _ (ne_of_gt hpos)
  have g1 : e.errorTerm < e.denominator := by
    rw [← hinit]; exact Int.emod_lt_of_pos _ hpos
  have g2 : 0 ≤ e.numerator := by
    rw [← hinit]; exact Int.emod_nonneg _ (ne_of_gt hpos)
  have g3 : e.numerator < e.denominator := by
    rw [← hinit]; exact Int.emod_lt_of_pos _ hpos
  have q0 : e.x * e.denominator + e.errorTerm =
      (bottom.x - top.x) * 16 * fceil top.y - (bottom.x - top.x) * top.y +
        (bottom.y - top.y) * top.x - 1 + (bottom.y - top.y) * 16 := by
    rw [← hinit]
    dsimp only
    rw [mul_comm]
    exact Int.ediv_add_emod _ _
  have q1 : e.xStep * e.denominator + e.numerator = (bottom.x - top.x) * 16 := by
    rw [← hinit]
    dsimp only
    rw [mul_comm]
    exact Int.ediv_add_emod _ _
  refine ⟨hheight, by omega, ?_, ?_⟩
  · intro k hk
    obtain ⟨a1, _, _, a4, a5, a6, a7, a8⟩ := edge_steps_dda e g0 g1 g2 g3 k
    rw [q0, q1, hden] at a8
    have hA : (bottom.y - top.y) * top.x +
        (bottom.x - top.x) * (16 * (Nat.iterate edge_step k e).y - top.y)
        ≤ 16 * (bottom.y - top.y) * (Nat.iterate edge_step k e).x := by
      rw [a4, hy0]
      rw [hden] at a7
      nlinarith [a8, a6, a7]
    have hB : 16 * (bottom.y - top.y) * ((Nat.iterate edge_step k e).x - 1)
        < (bottom.y - top.y) * top.x +
          (bottom.x - top.x) * (16 * (Nat.iterate edge_step k e).y - top.y) := by
      rw [a4, hy0]
      nlinarith [a8, a6, a7]
    refine ⟨by rw [a4, hy0], by rw [a5, hheight], a6, by rw [a1]; exact a7, hA, hB, ?_⟩
    symm
    rw [Int.ceil_eq_iff]
    have hdq : (0 : ℚ) < (bottom.y : ℚ) - top.y := by
      have : (0 : Int) < bottom.y - top.y := by omega
      exact_mod_cast this
    have hform : ((top.x : ℚ) + ((bottom.x : ℚ) - top.x) *
        (16 * ((Nat.iterate edge_step k e).y : ℚ) - top.y) / ((bottom.y : ℚ) - top.y)) / 16
        = (((bottom.y : ℚ) - top.y) * top.x + ((bottom.x : ℚ) - top.x) *
            (16 * ((Nat.iterate edge_step k e).y : ℚ) - top.y)) /
          (16 * ((bottom.y : ℚ) - top.y)) := by
      field_simp
      ring
    rw [hform]
    have h16 : (0 : ℚ) < 16 * ((bottom.y : ℚ) - top.y) := by positivity
    constructor
    · rw [lt_div_iff₀ h16]
      have := hB
      have hB2 : (((16 * (bottom.y - top.y) * ((Nat.iterate edge_step k e).x - 1) : Int)) : ℚ)
          < (((bottom.y - top.y) * top.x +
            (bottom.x - top.x) * (16 * (Nat.iterate edge_step k e).y - top.y) : Int) : ℚ) := by
        exact_mod_cast hB
      push_cast at hB2
      linarith
    · rw [div_le_iff₀ h16]
      have hA2 : ((((bottom.y - top.y) * top.x +
            (bottom.x - top.x) * (16 * (Nat.iterate edge_step k e).y - top.y) : Int)) : ℚ)
          ≤ ((16 * (bottom.y - top.y) * (Nat.iterate edge_step k e).x : Int) : ℚ) := by
        exact_mod_cast hA
      push_cast at hA2
      linarith
  · obtain ⟨j, hj, hs, hlt⟩ := skip_rows_iterate e.height.toNat e rfl
    exact ⟨j, by omega, hs, hlt⟩

/-- Witness of `edge_dda_exact`: the edge from (0, 0.5) to (3, 4.5) covers the rows 1
to 4; after two steps it is on row 3, where the exact `x` is 30/16 and the column is 2. -/
theorem edge_dda_exact_witness :
    (⟨0, 8⟩ : FPoint).y < (⟨48, 72⟩ : FPoint).y ∧
    fceil (⟨0, 8⟩ : FPoint).y ≠ fceil (⟨48, 72⟩ : FPoint).y ∧
    edge_init edge_uninit ⟨0, 8⟩ ⟨48, 72⟩ =
      some ((edge_init edge_uninit ⟨0, 8⟩ ⟨48, 72⟩).getD edge_uninit) ∧
    ((edge_init edge_uninit ⟨0, 8⟩ ⟨48, 72⟩).getD edge_uninit).height = 4 ∧
    (Nat.iterate edge_step 2 ((edge_init edge_uninit ⟨0, 8⟩ ⟨48, 72⟩).getD edge_uninit)).x
      = 2 ∧
    (Nat.iterate edge_step 2 ((edge_init edge_uninit ⟨0, 8⟩ ⟨48, 72⟩).getD edge_uninit)).y
      = fceil (⟨0, 8⟩ : FPoint).y + (2 : Nat) ∧
    0 ≤ (Nat.iterate edge_step 2
      ((edge_init edge_uninit ⟨0, 8⟩ ⟨48, 72⟩).getD edge_uninit)).errorTerm :=
  ⟨by decide, by decide, by decide, by decide, by decide,
    ((edge_dda_exact edge_uninit ((edge_init edge_uninit ⟨0, 8⟩ ⟨48, 72⟩).getD edge_uninit)
      ⟨0, 8⟩ ⟨48, 72⟩ (by decide) (by decide) (by decide)).2.2.1 2 (by decide)).1,
    ((edge_dda_exact edge_uninit ((edge_init edge_uninit ⟨0, 8⟩ ⟨48, 72⟩).getD edge_uninit)
      ⟨0, 8⟩ ⟨48, 72⟩ (by decide) (by decide) (by decide)).2.2.1 2 (by decide)).2.2.1⟩

/-! ## The second `fctx_line_to_func` call of `L` and `V` -/

/-- After `fctx_line_to_func`, with a plot-edge function for which a degenerate edge
changes nothing, a second call with the same target changes nothing. -/
theorem line_to_again {β : Type} (plot : PlotEdge β)
    (hflat : ∀ (f : FContext β) (p : FPoint), plot f p p = some f)
    (f f1 : FContext β) (tp : Nat → FPoint) (h : fctx_line_to_func plot f tp = some f1) :
    f1.path_cur_point = tp 0 ∧ plot f1 f1.path_cur_point (tp 0) = some f1 ∧
    fctx_line_to_func plot f1 tp = some f1 := by
  unfold fctx_line_to_func at h
  cases hp : plot f f.path_cur_point (tp 0) with
  | none => rw [hp] at h; cases h
  | some c =>
    rw [hp] at h
    simp only [Option.bind] at h
    injection h with h
    subst h
    refine ⟨rfl, hflat _ _, ?_⟩
    unfold fctx_line_to_func
    dsimp only
    rw [hflat]
    rfl

/-- Both rasterizers leave the context alone on a degenerate edge. -/
theorem plot_edge_degenerate (plot : PlotEdge (GBitmap Nat))
    (hplot : plot = fctx_plot_edge_bw ∨ plot = fctx_plot_edge_aa)
    (f : FContext (GBitmap Nat)) (p : FPoint) : plot f p p = some f := by
  rcases hplot with rfl | rfl
  · exact plot_edge_bw_flat f p p rfl
  · exact plot_edge_aa_flat f p p rfl

/-- C27: with either rasterizer as the plot-edge function, for every interpreter state:
after any `fctx_line_to_func` call a second call with the same target plots the edge from
the new cursor to itself, which changes nothing; so the iteration that decodes an `L` or
a `V` record gives exactly what one call of `fctx_line_to_func` on the transformed target
gives (flag plane, extents and path cursor included), and fails exactly when that call
fails.  The `H` record, which calls `fctx_line_to_func` once, gives the same expression
for its own target. -/
theorem line_to_double_dispatch (plot : PlotEdge (GBitmap Nat))
    (hplot : plot = fctx_plot_edge_bw ∨ plot = fctx_plot_edge_aa)
    (advance : FPoint) (mem : Nat → Nat) (s : DrawState (GBitmap Nat)) :
    (∀ (f f1 : FContext (GBitmap Nat)) (tp : Nat → FPoint),
      fctx_line_to_func plot f tp = some f1 →
      f1.path_cur_point = tp 0 ∧ plot f1 f1.path_cur_point (tp 0) = some f1 ∧
      fctx_line_to_func plot f1 tp = some f1) ∧
    (∀ (p : FPoint) (n : Nat),
      (mem s.path_data = 76 ∧ p = param_point mem s.path_data 0 1 ∧ n = 2) ∨
      (mem s.path_data = 86 ∧ p = ⟨s.curpt.x, toInt16 (mem (s.path_data + 2))⟩ ∧ n = 1) ∨
      (mem s.path_data = 72 ∧ p = ⟨toInt16 (mem (s.path_data + 2)), s.curpt.y⟩ ∧ n = 1) →
      draw_command plot advance mem s =
        (fctx_line_to_func plot
          (fctx_transform_points s.fctx 1 (Function.update ppoints_uninit 0 p)
            s.tpoints advance).1
          (fctx_transform_points s.fctx 1 (Function.update ppoints_uninit 0 p)
            s.tpoints advance).2).map
          (fun f =>
            ({ fctx := f, path_data := s.path_data + 2 + 2 * n, initpt := s.initpt,
               curpt := p, ctrlpt := s.ctrlpt
               tpoints := (fctx_transform_points s.fctx 1
                 (Function.update ppoints_uninit 0 p) s.tpoints advance).2 }, true))) := by
  have hflat := plot_edge_degenerate plot hplot
  refine ⟨fun f f1 tp h => line_to_again plot hflat f f1 tp h, ?_⟩
  intro p n hcase
  have hl := switch_decode_lines mem s.path_data s.initpt s.curpt s.ctrlpt
  unfold draw_command
  rw [draw_switch_eq_decoded]
  unfold draw_switch_decoded
  rcases hcase with ⟨h, rfl, rfl⟩ | ⟨h, rfl, rfl⟩ | ⟨h, rfl, rfl⟩
  · rw [hl.1 h]
    dsimp only
    rw [if_pos rfl]
    cases hc : fctx_line_to_func plot
        (fctx_transform_points s.fctx 1
          (Function.update ppoints_uninit 0 (param_point mem s.path_data 0 1))
          s.tpoints advance).1
        (fctx_transform_points s.fctx 1
          (Function.update ppoints_uninit 0 (param_point mem s.path_data 0 1))
          s.tpoints advance).2 with
    | none => rfl
    | some f =>
      dsimp only [call_func]
      rw [(line_to_again plot hflat _ f _ hc).2.2]
      rfl
  · rw [hl.2.2 h]
    dsimp only
    rw [if_pos rfl]
    cases hc : fctx_line_to_func plot
        (fctx_transform_points s.fctx 1
          (Function.update ppoints_uninit 0 ⟨s.curpt.x, toInt16 (mem (s.path_data + 2))⟩)
          s.tpoints advance).1
        (fctx_transform_points s.fctx 1
          (Function.update ppoints_uninit 0 ⟨s.curpt.x, toInt16 (mem (s.path_data + 2))⟩)
          s.tpoints advance).2 with
    | none => rfl
    | some f =>
      dsimp only [call_func]
      rw [(line_to_again plot hflat _ f _ hc).2.2]
      rfl
  · rw [hl.2.1 h]
    dsimp only
    rw [if_neg (by simp)]
    dsimp only [call_func]
    cases hc : fctx_line_to_func plot
        (fctx_transform_points s.fctx 1
          (Function.update ppoints_uninit 0 ⟨toInt16 (mem (s.path_data + 2)), s.curpt.y⟩)
          s.tpoints advance).1
        (fctx_transform_points s.fctx 1
          (Function.update ppoints_uninit 0 ⟨toInt16 (mem (s.path_data + 2)), s.curpt.y⟩)
          s.tpoints advance).2 with
    | none => rfl
    | some f => rfl

/-- Witness of `line_to_double_dispatch`: the record `L 48 80` as the first record of a
path drawn with the monochrome rasterizer on the 8 by 8 plane; the flag bytes after the
iteration are those of the single edge from (0, 0) to (40, 72) in device units. -/
theorem line_to_double_dispatch_witness :
    wordsAt [76, 48, 80] (draw_init ctx_bw_8x8).path_data = 76 ∧
    fctx_line_to_func fctx_plot_edge_bw ctx_bw_8x8 (fun _ => ⟨40, 72⟩) =
      some ((fctx_line_to_func fctx_plot_edge_bw ctx_bw_8x8 (fun _ => ⟨40, 72⟩)).getD
        ctx_bw_8x8) ∧
    fctx_line_to_func fctx_plot_edge_bw
        ((fctx_line_to_func fctx_plot_edge_bw ctx_bw_8x8 (fun _ => ⟨40, 72⟩)).getD
          ctx_bw_8x8) (fun _ => ⟨40, 72⟩) =
      some ((fctx_line_to_func fctx_plot_edge_bw ctx_bw_8x8 (fun _ => ⟨40, 72⟩)).getD
        ctx_bw_8x8) ∧
    (draw_command fctx_plot_edge_bw ⟨0, 0⟩ (wordsAt [76, 48, 80])
        (draw_init ctx_bw_8x8)).map
        (fun r => (r.1.path_data, r.1.curpt, r.1.fctx.path_cur_point,
          (List.range 32).map (fun q => r.1.fctx.flag_buffer.mem q))) =
      (fctx_plot_edge_bw ctx_bw_8x8 ⟨0, 0⟩ ⟨40, 72⟩).map
        (fun f => (6, ⟨48, 80⟩, ⟨40, 72⟩,
          (List.range 32).map (fun q => f.flag_buffer.mem q))) := by
  refine ⟨by decide, rfl, ?_, ?_⟩
  · exact ((line_to_double_dispatch fctx_plot_edge_bw (Or.inl rfl) ⟨0, 0⟩
      (wordsAt [76, 48, 80]) (draw_init ctx_bw_8x8)).1 ctx_bw_8x8 _ (fun _ => ⟨40, 72⟩)
      rfl).2.2
  · rw [(line_to_double_dispatch fctx_plot_edge_bw (Or.inl rfl) ⟨0, 0⟩
      (wordsAt [76, 48, 80]) (draw_init ctx_bw_8x8)).2 ⟨48, 80⟩ 2
      (Or.inl ⟨by decide, rfl, rfl⟩)]
    decide!

/-! ## The parity sweep of the end-fill functions -/

/-- The flag that `fctx_end_fill_bw` reads for a column `col ≥ 0` is bit `col % 8` of the
byte `col / 8` of the row. -/
theorem flag_set_bw_iff (flag : Int → Nat) (flagRow : GBitmapDataRowInfo) (col : Int)
    (h : 0 ≤ col) :
    flag_set_bw flag flagRow col =
      (flag (flagRow.data + col / 8)).testBit (col % 8).toNat := by
  unfold flag_set_bw
  rw [Int.tdiv_eq_ediv h (by decide), Int.tmod_eq_emod h (by decide), Nat.one_shiftLeft]
  have hj : (col % 8).toNat < 8 := by omega
  have hlt : 2 ^ (col % 8).toNat < 256 :=
    lt_of_lt_of_le (Nat.pow_lt_pow_right (by decide) hj) (by decide)
  rw [Nat.mod_eq_of_lt hlt, Nat.and_two_pow]
  cases hb : (flag (flagRow.data + col / 8)).testBit (col % 8).toNat <;> simp

/-- Clearing the flag of column `col` leaves the flag of every other column alone. -/
theorem flag_clear_other (flag : Int → Nat) (flagRow : GBitmapDataRowInfo) (col c : Int)
    (hcol : 0 ≤ col) (hc : 0 ≤ c) (hne : c ≠ col) :
    flag_set_bw
      (Function.update flag (flagRow.data + Int.tdiv col 8)
        (flag (flagRow.data + Int.tdiv col 8) &&&
          (255 ^^^ ((1 <<< (Int.tmod col 8).toNat) % 256)))) flagRow c =
      flag_set_bw flag flagRow c := by
  rw [flag_set_bw_iff _ _ _ hc, flag_set_bw_iff _ _ _ hc]
  rw [Int.tdiv_eq_ediv hcol (by decide), Int.tmod_eq_emod hcol (by decide),
    Nat.one_shiftLeft]
  have hj : (col % 8).toNat < 8 := by omega
  have hk : (c % 8).toNat < 8 := by omega
  have hlt : 2 ^ (col % 8).toNat < 256 :=
    lt_of_lt_of_le (Nat.pow_lt_pow_right (by decide) hj) (by decide)
  rw [Nat.mod_eq_of_lt hlt]
  by_cases hb : c / 8 = col / 8
  · have hjk : (col % 8).toNat ≠ (c % 8).toNat := by omega
    rw [hb, Function.update_same, Nat.testBit_and, Nat.testBit_xor, Nat.testBit_two_pow]
    have e255 : Nat.testBit 255 (c % 8).toNat = true := by
      have := Nat.testBit_two_pow_sub_one 8 (c % 8).toNat
      simpa [hk] using this
    rw [e255]
    simp [hjk]
  · rw [Function.update_noteq (by omega)]

/-- The parity of `n` columns depends on the indicator on those columns only. -/
theorem odd_from_congr (ind ind1 : Int → Bool) : ∀ (n : Nat) (lo : Int),
    (∀ i : Nat, i < n → ind (lo + i) = ind1 (lo + i)) →
    odd_from ind n lo = odd_from ind1 n lo := by
  intro n
  induction n with
  | zero => intro lo _; rfl
  | succ n ih =>
    intro lo h
    simp only [odd_from]
    have h0 := h 0 (Nat.succ_pos n)
    simp only [Nat.cast_zero, add_zero] at h0
    rw [h0, ih (lo + 1)]
    intro i hi
    have := h (i + 1) (by omega)
    push_cast at this
    rw [show lo + 1 + (i : Int) = lo + ((i : Int) + 1) by ring]
    exact this

/-- The parity `odd_from` is the parity of the number of columns that satisfy `ind`. -/
theorem odd_from_count (ind : Int → Bool) : ∀ (n : Nat) (lo : Int),
    odd_from ind n lo =
      decide (((List.range n).countP (fun i : Nat => ind (lo + (i : Int)))) % 2 = 1) := by
  intro n
  induction n with
  | zero => intro lo; simp [odd_from]
  | succ n ih =>
    intro lo
    simp only [odd_from]
    rw [ih (lo + 1), List.range_succ_eq_map, List.countP_cons, List.countP_map]
    have hfun : ((fun i : Nat => ind (lo + (i : Int))) ∘ Nat.succ) =
        (fun i : Nat => ind (lo + 1 + (i : Int))) := by
      funext i
      simp only [Function.comp, Nat.succ_eq_add_one]
      push_cast
      rw [show lo + ((i : Int) + 1) = lo + 1 + (i : Int) by ring]
    rw [hfun]
    simp only [Nat.cast_zero, add_zero]
    cases hb : ind lo
    · simp
    · simp only [if_true, Bool.true_xor]
      have : ∀ m : Nat, (!decide (m % 2 = 1)) = decide ((m + 1) % 2 = 1) := by
        intro m
        by_cases hm : m % 2 = 1
        · have : ¬ (m + 1) % 2 = 1 := by omega
          simp [hm, this]
        · have : (m + 1) % 2 = 1 := by omega
          simp [hm, this]
      exact this _

/-- The column loop of `fctx_end_fill_bw` from the column `col ≥ 0`: the final `col`, the
pixels of the remaining span (written with the fill colour exactly where the running
parity is odd), the pixels elsewhere (unchanged) and the flag bytes outside the remaining
span (unchanged). -/
theorem end_fill_bw_cols_spec (color : GColor8) (fbRow flagRow : GBitmapDataRowInfo)
    (spanMax : Int) : ∀ (n : Nat) (col : Int) (inside : Bool) (flag : Int → Nat)
    (fb : Int → GColor8), (spanMax - col + 1).toNat = n → 0 ≤ col →
    (end_fill_bw_cols color fbRow flagRow spanMax n col inside flag fb).1 =
      (if col ≤ spanMax then spanMax + 1 else col) ∧
    (∀ c, col ≤ c → c ≤ spanMax →
      (end_fill_bw_cols color fbRow flagRow spanMax n col inside flag fb).2.2
          (fbRow.data + c) =
        if xor inside (odd_from (flag_set_bw flag flagRow) (c - col + 1).toNat col)
        then color else fb (fbRow.data + c)) ∧
    (∀ p, (∀ c, col ≤ c → c ≤ spanMax → p ≠ fbRow.data + c) →
      (end_fill_bw_cols color fbRow flagRow spanMax n col inside flag fb).2.2 p = fb p) ∧
    (∀ q, (∀ c, col ≤ c → c ≤ spanMax → q ≠ flagRow.data + Int.tdiv c 8) →
      (end_fill_bw_cols color fbRow flagRow spanMax n col inside flag fb).2.1 q =
        flag q) := by
  intro n
  induction n with
  | zero =>
    intro col inside flag fb hn hcol
    have hgt : ¬ col ≤ spanMax := by omega
    have e : end_fill_bw_cols color fbRow flagRow spanMax 0 col inside flag fb =
        (col, flag, fb) := rfl
    rw [e]
    exact ⟨by rw [if_neg hgt], fun c h1 h2 => absurd (le_trans h1 h2) hgt,
      fun _ _ => rfl, fun _ _ => rfl⟩
  | succ n ih =>
    intro col inside flag fb hn hcol
    have hle : col ≤ spanMax := by omega
    have hins : (if flag (flagRow.data + Int.tdiv col 8) &&&
          ((1 <<< (Int.tmod col 8).toNat) % 256) ≠ 0 then !inside else inside) =
        xor inside (flag_set_bw flag flagRow col) := by
      unfold flag_set_bw
      by_cases hb : flag (flagRow.data + Int.tdiv col 8) &&&
          ((1 <<< (Int.tmod col 8).toNat) % 256) ≠ 0
      · rw [if_pos hb]; simp [hb]
      · rw [if_neg hb]; simp [hb]
    simp only [end_fill_bw_cols, if_pos hle]
    rw [hins]
    obtain ⟨i1, i2, i3, i4⟩ := ih (col + 1) (xor inside (flag_set_bw flag flagRow col))
      (Function.update flag (flagRow.data + Int.tdiv col 8)
        (flag (flagRow.data + Int.tdiv col 8) &&&
          (255 ^^^ ((1 <<< (Int.tmod col 8).toNat) % 256))))
      (if xor inside (flag_set_bw flag flagRow col) = true
        then Function.update fb (fbRow.data + col) color else fb)
      (by omega) (by omega)
    refine ⟨?_, ?_, ?_, ?_⟩
    · rw [i1]
      split_ifs <;> omega
    · intro c h1 h2
      by_cases hc : c = col
      · subst hc
        rw [i3 _ (fun c1 g1 _ => by omega)]
        have e1 : (c - c + 1).toNat = 1 := by omega
        rw [e1]
        simp only [odd_from, Bool.xor_false]
        by_cases hx : xor inside (flag_set_bw flag flagRow c) = true
        · rw [if_pos hx, if_pos hx, Function.update_same]
        · rw [if_neg hx, if_neg hx]
      · rw [i2 c (by omega) h2]
        have e1 : (c - col + 1).toNat = (c - (col + 1) + 1).toNat + 1 := by omega
        rw [e1]
        simp only [odd_from]
        rw [odd_from_congr _ (flag_set_bw flag flagRow) _ _
          (fun i _ => flag_clear_other flag flagRow col (col + 1 + i) hcol (by omega)
            (by omega))]
        rw [Bool.xor_assoc]
        have e2 : (if xor inside (flag_set_bw flag flagRow col) = true
            then Function.update fb (fbRow.data + col) color else fb) (fbRow.data + c) =
            fb (fbRow.data + c) := by
          split_ifs
          · rw [Function.update_noteq (by omega)]
          · rfl
        rw [e2]
    · intro p hp
      rw [i3 p (fun c g1 g2 => hp c (by omega) g2)]
      split_ifs
      · rw [Function.update_noteq (hp col (le_refl _) hle)]
      · rfl
    · intro q hq
      rw [i4 q (fun c g1 g2 => hq c (by omega) g2)]
      rw [Function.update_noteq (hq col (le_refl _) hle)]

/-- The body of the row loop of `fctx_end_fill_bw` for a row whose span holds no negative
column: the pixels of the span, the pixels elsewhere, and the flag bytes that are not
written. -/
theorem end_fill_bw_row_spec (color : GColor8) (colMin colMax row : Int)
    (flagbuf : GBitmap Nat) (fb : GBitmap GColor8) (h0 : 0 ≤ span_min fb colMin row) :
    (∀ c, span_min fb colMin row ≤ c → c ≤ span_max fb colMax row →
      (end_fill_bw_row color colMin colMax row flagbuf fb).2 ((fb.row_info row).data + c) =
        if odd_from (flag_set_bw flagbuf.mem (flagbuf.row_info row))
            (c - span_min fb colMin row + 1).toNat (span_min fb colMin row)
        then color else fb.mem ((fb.row_info row).data + c)) ∧
    (∀ p, (∀ c, span_min fb colMin row ≤ c → c ≤ span_max fb colMax row →
        p ≠ (fb.row_info row).data + c) →
      (end_fill_bw_row color colMin colMax row flagbuf fb).2 p = fb.mem p) ∧
    (∀ q, (∀ c, FlagTouched fb flagbuf colMin colMax row c → q ≠ flag_addr_bw flagbuf row c) →
      (end_fill_bw_row color colMin colMax row flagbuf fb).1 q = flagbuf.mem q) := by
  obtain ⟨i1, i2, i3, i4⟩ := end_fill_bw_cols_spec color (fb.row_info row)
    (flagbuf.row_info row) (span_max fb colMax row)
    (span_max fb colMax row - span_min fb colMin row + 1).toNat (span_min fb colMin row)
    false flagbuf.mem fb.mem rfl h0
  have hend : (end_fill_bw_cols color (fb.row_info row) (flagbuf.row_info row)
      (span_max fb colMax row)
      (span_max fb colMax row - span_min fb colMin row + 1).toNat (span_min fb colMin row)
      false flagbuf.mem fb.mem).1 = span_end fb colMin colMax row := i1
  have hrow : end_fill_bw_row color colMin colMax row flagbuf fb =
      if span_end fb colMin colMax row < (flagbuf.row_info row).max_x then
        (Function.update (end_fill_bw_cols color (fb.row_info row) (flagbuf.row_info row)
            (span_max fb colMax row)
            (span_max fb colMax row - span_min fb colMin row + 1).toNat
            (span_min fb colMin row) false flagbuf.mem fb.mem).2.1
          ((flagbuf.row_info row).data + Int.tdiv (span_end fb colMin colMax row) 8)
          ((end_fill_bw_cols color (fb.row_info row) (flagbuf.row_info row)
            (span_max fb colMax row)
            (span_max fb colMax row - span_min fb colMin row + 1).toNat
            (span_min fb colMin row) false flagbuf.mem fb.mem).2.1
            ((flagbuf.row_info row).data + Int.tdiv (span_end fb colMin colMax row) 8) &&&
            (255 ^^^ ((1 <<< (Int.tmod (span_end fb colMin colMax row) 8).toNat) % 256))),
          (end_fill_bw_cols color (fb.row_info row) (flagbuf.row_info row)
            (span_max fb colMax row)
            (span_max fb colMax row - span_min fb colMin row + 1).toNat
            (span_min fb colMin row) false flagbuf.mem fb.mem).2.2)
      else
        ((end_fill_bw_cols color (fb.row_info row) (flagbuf.row_info row)
            (span_max fb colMax row)
            (span_max fb colMax row - span_min fb colMin row + 1).toNat
            (span_min fb colMin row) false flagbuf.mem fb.mem).2.1,
          (end_fill_bw_cols color (fb.row_info row) (flagbuf.row_info row)
            (span_max fb colMax row)
            (span_max fb colMax row - span_min fb colMin row + 1).toNat
            (span_min fb colMin row) false flagbuf.mem fb.mem).2.2) := by
    rw [← hend]
    rfl
  have hfb : (end_fill_bw_row color colMin colMax row flagbuf fb).2 =
      (end_fill_bw_cols color (fb.row_info row) (flagbuf.row_info row)
        (span_max fb colMax row)
        (span_max fb colMax row - span_min fb colMin row + 1).toNat
        (span_min fb colMin row) false flagbuf.mem fb.mem).2.2 := by
    rw [hrow]
    split_ifs <;> rfl
  refine ⟨?_, ?_, ?_⟩
  · intro c h1 h2
    rw [hfb, i2 c h1 h2, Bool.false_xor]
  · intro p hp
    rw [hfb, i3 p hp]
  · intro q hq
    have hq1 : (end_fill_bw_cols color (fb.row_info row) (flagbuf.row_info row)
        (span_max fb colMax row)
        (span_max fb colMax row - span_min fb colMin row + 1).toNat
        (span_min fb colMin row) false flagbuf.mem fb.mem).2.1 q = flagbuf.mem q :=
      i4 q (fun c g1 g2 => hq c (Or.inl ⟨g1, g2⟩))
    rw [hrow]
    by_cases hlt : span_end fb colMin colMax row < (flagbuf.row_info row).max_x
    · have hne : q ≠ (flagbuf.row_info row).data +
          Int.tdiv (span_end fb colMin colMax row) 8 := hq _ (Or.inr ⟨rfl, hlt⟩)
      rw [if_pos hlt]
      dsimp only
      rw [Function.update_noteq hne, hq1]
    · rw [if_neg hlt]
      exact hq1

/-- The layout facts for the rows `rowMin .. rowMax` hold for the rows
`rowMin + 1 .. rowMax`. -/
theorem fillLayout_tail {fb : GBitmap GColor8} {flagbuf : GBitmap Nat}
    {flag_addr : Int → Int → Int} {colMin colMax rowMin rowMax : Int}
    (h : FillLayout fb flagbuf flag_addr colMin colMax rowMin rowMax) :
    FillLayout fb flagbuf flag_addr colMin colMax (rowMin + 1) rowMax :=
  { columns := fun r h1 h2 => h.columns r (by omega) h2
    pixels := fun r r1 c c1 h1 h2 h3 h4 => h.pixels r r1 c c1 (by omega) h2 (by omega) h4
    flags := fun r r1 c c1 h1 h2 h3 h4 => h.flags r r1 c c1 (by omega) h2 (by omega) h4 }

/-- The row loop of `fctx_end_fill_bw` from `row` on, for bitmaps laid out as
`FillLayout` asks: every pixel of the span of a remaining row is written with the fill
colour exactly when the number of set flags from the start of the span up to its column
is odd; every other pixel is unchanged. -/
theorem end_fill_bw_rows_spec (color : GColor8) (colMin colMax rowMax : Int)
    (fb0 : GBitmap GColor8) (flagbuf0 : GBitmap Nat) :
    ∀ (n : Nat) (row : Int) (fm : Int → Nat) (pm : Int → GColor8),
    (rowMax - row + 1).toNat = n →
    FillLayout fb0 flagbuf0 (flag_addr_bw flagbuf0) colMin colMax row rowMax →
    (∀ r c, row ≤ r → r ≤ rowMax →
      span_min fb0 colMin r ≤ c → c ≤ span_max fb0 colMax r →
      (end_fill_bw_rows color colMin colMax rowMax n row
          { flagbuf0 with mem := fm } { fb0 with mem := pm }).2.mem
          ((fb0.row_info r).data + c) =
        if odd_from (flag_set_bw fm (flagbuf0.row_info r))
            (c - span_min fb0 colMin r + 1).toNat (span_min fb0 colMin r)
        then color else pm ((fb0.row_info r).data + c)) ∧
    (∀ p, (∀ r c, row ≤ r → r ≤ rowMax →
        span_min fb0 colMin r ≤ c → c ≤ span_max fb0 colMax r →
        p ≠ (fb0.row_info r).data + c) →
      (end_fill_bw_rows color colMin colMax rowMax n row
          { flagbuf0 with mem := fm } { fb0 with mem := pm }).2.mem p = pm p) := by
  intro n
  induction n with
  | zero =>
    intro row fm pm hn _
    exact ⟨fun r c h1 h2 _ _ => by omega, fun _ _ => rfl⟩
  | succ n ih =>
    intro row fm pm hn hlay
    have hle : row ≤ rowMax := by omega
    obtain ⟨r1, r2, r3⟩ := end_fill_bw_row_spec color colMin colMax row
      { flagbuf0 with mem := fm } { fb0 with mem := pm }
      (hlay.columns row (le_refl _) hle)
    obtain ⟨i1, i2⟩ := ih (row + 1)
      (end_fill_bw_row color colMin colMax row
        { flagbuf0 with mem := fm } { fb0 with mem := pm }).1
      (end_fill_bw_row color colMin colMax row
        { flagbuf0 with mem := fm } { fb0 with mem := pm }).2
      (by omega) (fillLayout_tail hlay)
    have hstep : end_fill_bw_rows color colMin colMax rowMax (n + 1) row
        { flagbuf0 with mem := fm } { fb0 with mem := pm } =
        end_fill_bw_rows color colMin colMax rowMax n (row + 1)
          { flagbuf0 with mem := (end_fill_bw_row color colMin colMax row
            { flagbuf0 with mem := fm } { fb0 with mem := pm }).1 }
          { fb0 with mem := (end_fill_bw_row color colMin colMax row
            { flagbuf0 with mem := fm } { fb0 with mem := pm }).2 } := by
      simp only [end_fill_bw_rows, if_pos hle]
    rw [hstep]
    constructor
    · intro r c h1 h2 h3 h4
      by_cases hr : r = row
      · subst hr
        rw [i2 _ (fun r1 c1 g1 g2 g3 g4 hEq => by
          have := hlay.pixels r r1 c c1 (le_refl _) hle (by omega) g2 h3 h4 g3 g4 hEq
          omega)]
        exact r1 c h3 h4
      · rw [i1 r c (by omega) h2 h3 h4]
        have e1 : (end_fill_bw_row color colMin colMax row
            { flagbuf0 with mem := fm } { fb0 with mem := pm }).2
            ((fb0.row_info r).data + c) = pm ((fb0.row_info r).data + c) :=
          r2 _ (fun c1 g3 g4 hEq => by
            have := hlay.pixels r row c c1 h1 h2 (le_refl _) hle h3 h4 g3 g4 hEq
            exact hr this)
        rw [e1]
        rw [odd_from_congr _ (flag_set_bw fm (flagbuf0.row_info r)) _ _ (fun i hi => by
          unfold flag_set_bw
          rw [r3 _ (fun c1 ht hEq => by
            have := hlay.flags row r c1 (span_min fb0 colMin r + i) (le_refl _) hle h1 h2
              ht (by omega) (by omega) hEq.symm
            exact hr this.symm)])]
    · intro p hp
      rw [i2 p (fun r c g1 g2 g3 g4 => hp r c (by omega) g2 g3 g4)]
      exact r2 p (fun c g3 g4 => hp row c (le_refl _) hle g3 g4)

/-- C24: for every context, flag plane and frame buffer laid out as `FillLayout` asks
(rows stored apart, no negative column in a span), `fctx_end_fill_bw` (colour build)
leaves in the frame buffer: for each row `r` in `rowMin .. rowMax` (the rows
`max(0, FIXED_TO_INT(extent_min.y)) .. min(FIXED_TO_INT(extent_max.y), height - 1)`) and
each column `c` of the clipped span `spanMin .. spanMax` of the row, the fill colour if
the number of set flags of that row in the columns `spanMin .. c` is odd, and the prior
pixel otherwise; every pixel that is not in the span of one of these rows keeps its
value. -/
theorem end_fill_bw_parity (fctx : FContext (GBitmap Nat)) (fb : GBitmap GColor8)
    (hlay : FillLayout fb fctx.flag_buffer (flag_addr_bw fctx.flag_buffer)
      (fill_col_min fctx) (fill_col_max fctx) (fill_row_min fctx) (fill_row_max fctx)) :
    (∀ r c, fill_row_min fctx ≤ r → r ≤ fill_row_max fctx →
      span_min fb (fill_col_min fctx) r ≤ c → c ≤ span_max fb (fill_col_max fctx) r →
      (fctx_end_fill_bw fctx fb).2.mem ((fb.row_info r).data + c) =
        if ((List.range (c - span_min fb (fill_col_min fctx) r + 1).toNat).countP
            (fun i : Nat => flag_set_bw fctx.flag_buffer.mem (fctx.flag_buffer.row_info r)
              (span_min fb (fill_col_min fctx) r + (i : Int)))) % 2 = 1
        then fctx.fill_color else fb.mem ((fb.row_info r).data + c)) ∧
    (∀ p, (∀ r c, fill_row_min fctx ≤ r → r ≤ fill_row_max fctx →
        span_min fb (fill_col_min fctx) r ≤ c → c ≤ span_max fb (fill_col_max fctx) r →
        p ≠ (fb.row_info r).data + c) →
      (fctx_end_fill_bw fctx fb).2.mem p = fb.mem p) ∧
    fill_row_min fctx = max 0 (toInt16 (FIXED_TO_INT fctx.extent_min.y)) ∧
    (-32767 ≤ fctx.flag_bounds.size_h → fctx.flag_bounds.size_h ≤ 32768 →
      fill_row_max fctx =
        min (toInt16 (FIXED_TO_INT fctx.extent_max.y)) (fctx.flag_bounds.size_h - 1)) := by
  obtain ⟨i1, i2⟩ := end_fill_bw_rows_spec fctx.fill_color (fill_col_min fctx)
    (fill_col_max fctx) (fill_row_max fctx) fb fctx.flag_buffer
    (fill_row_max fctx - fill_row_min fctx + 1).toNat (fill_row_min fctx)
    fctx.flag_buffer.mem fb.mem rfl hlay
  refine ⟨?_, ?_, ?_, ?_⟩
  · intro r c h1 h2 h3 h4
    have := i1 r c h1 h2 h3 h4
    rw [odd_from_count] at this
    simp only [decide_eq_true_eq] at this
    exact this
  · intro p hp
    exact i2 p hp
  · unfold fill_row_min
    split_ifs <;> omega
  · intro g1 g2
    unfold fill_row_max
    have e : toInt16 (fctx.flag_bounds.size_h - 1) = fctx.flag_bounds.size_h - 1 := by
      unfold toInt16
      omega
    rw [e]
    split_ifs <;> omega

/-- The spans of the 8 by 8 frame buffer under the extents of the whole plane. -/
theorem spans_8x8 (fctx : FContext (GBitmap Nat)) (c : GColor8)
    (h1 : fill_col_min fctx = 0) (h2 : fill_col_max fctx = 7) (r : Int) :
    span_min (fb_rect 8 8 c) (fill_col_min fctx) r = 0 ∧
    span_max (fb_rect 8 8 c) (fill_col_max fctx) r = 7 ∧
    span_end (fb_rect 8 8 c) (fill_col_min fctx) (fill_col_max fctx) r = 8 ∧
    ((fb_rect 8 8 c).row_info r).data = r * 8 := by
  have a1 : span_min (fb_rect 8 8 c) (fill_col_min fctx) r = 0 := by
    rw [h1]; unfold span_min fb_rect; dsimp only; decide
  have a2 : span_max (fb_rect 8 8 c) (fill_col_max fctx) r = 7 := by
    rw [h2]; unfold span_max fb_rect; dsimp only; decide
  refine ⟨a1, a2, ?_, rfl⟩
  unfold span_end
  rw [a1, a2]
  decide

/-- The 8 by 8 frame buffer and the 1-bit flag plane of `ctx_flags_8x8` are laid out as
`FillLayout` asks. -/
theorem fillLayout_8x8_bw :
    FillLayout (fb_rect 8 8 GColorWhite) ctx_flags_8x8.flag_buffer
      (flag_addr_bw ctx_flags_8x8.flag_buffer) (fill_col_min ctx_flags_8x8)
      (fill_col_max ctx_flags_8x8) (fill_row_min ctx_flags_8x8)
      (fill_row_max ctx_flags_8x8) := by
  have hs := spans_8x8 ctx_flags_8x8 GColorWhite (by decide) (by decide)
  have hfa : ∀ r c, flag_addr_bw ctx_flags_8x8.flag_buffer r c = r * 4 + Int.tdiv c 8 :=
    fun r c => rfl
  have hmx : ∀ r, (ctx_flags_8x8.flag_buffer.row_info r).max_x = 7 := fun r => rfl
  refine ⟨?_, ?_, ?_⟩
  · intro r _ _
    rw [(hs r).1]
  · intro r r1 c c1 _ _ _ _ g1 g2 g3 g4 hEq
    rw [(hs r).1] at g1
    rw [(hs r).2.1] at g2
    rw [(hs r1).1] at g3
    rw [(hs r1).2.1] at g4
    rw [(hs r).2.2.2, (hs r1).2.2.2] at hEq
    omega
  · intro r r1 c c1 _ _ _ _ ht g3 g4 hEq
    rw [(hs r1).1] at g3
    rw [(hs r1).2.1] at g4
    rw [hfa, hfa] at hEq
    have hc : 0 ≤ c ∧ c ≤ 7 := by
      rcases ht with ⟨t1, t2⟩ | ⟨t1, t2⟩
      · rw [(hs r).1] at t1
        rw [(hs r).2.1] at t2
        exact ⟨t1, t2⟩
      · rw [(hs r).2.2.1] at t1
        rw [hmx] at t2
        omega
    rw [Int.tdiv_eq_ediv hc.1 (by decide), Int.tdiv_eq_ediv g3 (by decide)] at hEq
    omega

/-- Witness of `end_fill_bw_parity`: the flags of the columns 2 and 5 of row 1 are set;
the pixels of the columns 2, 3 and 4 of that row become black, the pixel of column 5 and
the pixel at address 100, outside the frame buffer's 64 pixels, keep their value. -/
theorem end_fill_bw_parity_witness :
    (fctx_end_fill_bw ctx_flags_8x8 (fb_rect 8 8 GColorWhite)).2.mem
        (((fb_rect 8 8 GColorWhite).row_info 1).data + 3) =
      (if ((List.range (3 - span_min (fb_rect 8 8 GColorWhite)
            (fill_col_min ctx_flags_8x8) 1 + 1).toNat).countP
          (fun i : Nat => flag_set_bw ctx_flags_8x8.flag_buffer.mem
            (ctx_flags_8x8.flag_buffer.row_info 1)
            (span_min (fb_rect 8 8 GColorWhite) (fill_col_min ctx_flags_8x8) 1 +
              (i : Int)))) % 2 = 1
        then ctx_flags_8x8.fill_color
        else (fb_rect 8 8 GColorWhite).mem (((fb_rect 8 8 GColorWhite).row_info 1).data + 3)) ∧
    (fctx_end_fill_bw ctx_flags_8x8 (fb_rect 8 8 GColorWhite)).2.mem 100 =
      (fb_rect 8 8 GColorWhite).mem 100 ∧
    (List.range 8).map (fun c : Nat =>
      (fctx_end_fill_bw ctx_flags_8x8 (fb_rect 8 8 GColorWhite)).2.mem (1 * 8 + (c : Int)))
      = [GColorWhite, GColorWhite, GColorBlack, GColorBlack, GColorBlack, GColorWhite,
         GColorWhite, GColorWhite] ∧
    fill_row_max ctx_flags_8x8 =
      min (toInt16 (FIXED_TO_INT ctx_flags_8x8.extent_max.y))
        (ctx_flags_8x8.flag_bounds.size_h - 1) := by
  have hs := spans_8x8 ctx_flags_8x8 GColorWhite (by decide) (by decide)
  refine ⟨?_, ?_, by decide!,
    (end_fill_bw_parity ctx_flags_8x8 (fb_rect 8 8 GColorWhite) fillLayout_8x8_bw).2.2.2
      (by decide) (by decide)⟩
  · exact (end_fill_bw_parity ctx_flags_8x8 (fb_rect 8 8 GColorWhite) fillLayout_8x8_bw).1
      1 3 (by decide) (by decide) (by rw [(hs 1).1]; decide) (by rw [(hs 1).2.1]; decide)
  · apply (end_fill_bw_parity ctx_flags_8x8 (fb_rect 8 8 GColorWhite)
      fillLayout_8x8_bw).2.1 100
    intro r c g1 g2 g3 g4
    rw [(hs r).1] at g3
    rw [(hs r).2.1] at g4
    rw [(hs r).2.2.2]
    have e2 : fill_row_max ctx_flags_8x8 = 7 := by decide
    rw [e2] at g2
    omega

/-! ## The anti-aliased sweep on a flag plane of bytes `0x00` and `0xFF` -/

/-- The compositing step with full coverage writes the three colour channels of the fill
colour and keeps the alpha field; with no coverage it leaves the pixel alone. -/
theorem end_fill_aa_pixel_full (s d : GColor8) :
    end_fill_aa_pixel s 255 d = ⟨d.a, s.r, s.g, s.b⟩ ∧ end_fill_aa_pixel s 0 d = d := by
  have hb : ∀ x y : Fin 4, blend_channel x y 8 = x := by decide
  have c255 : clamp8 (countBits 255) 0 8 = 8 := by decide
  have c0 : clamp8 (countBits 0) 0 8 = 0 := by decide
  constructor
  · unfold end_fill_aa_pixel
    dsimp only
    rw [c255, if_pos (by decide), hb, hb, hb]
  · unfold end_fill_aa_pixel
    dsimp only
    rw [c0, if_neg (by decide)]

/-- The column loop of `fctx_end_fill_aa` from the column `col` on a row whose remaining
flag bytes are `0x00` or `0xFF`, with the accumulator `mask` at `0xFF` (`inside`) or 0. -/
theorem end_fill_aa_cols_spec (s : GColor8) (fbRow flagRow : GBitmapDataRowInfo)
    (spanMax : Int) : ∀ (n : Nat) (col : Int) (inside : Bool) (flag : Int → Nat)
    (fb : Int → GColor8), (spanMax - col + 1).toNat = n →
    (∀ c, col ≤ c → c ≤ spanMax →
      flag (flagRow.data + c) = 0 ∨ flag (flagRow.data + c) = 255) →
    (end_fill_aa_cols s fbRow flagRow spanMax n col (if inside then 255 else 0) flag fb).1 =
      (if col ≤ spanMax then spanMax + 1 else col) ∧
    (∀ c, col ≤ c → c ≤ spanMax →
      (end_fill_aa_cols s fbRow flagRow spanMax n col (if inside then 255 else 0) flag
          fb).2.2 (fbRow.data + c) =
        if xor inside (odd_from (flag_full_aa flag flagRow) (c - col + 1).toNat col)
        then ⟨(fb (fbRow.data + c)).a, s.r, s.g, s.b⟩ else fb (fbRow.data + c)) ∧
    (∀ p, (∀ c, col ≤ c → c ≤ spanMax → p ≠ fbRow.data + c) →
      (end_fill_aa_cols s fbRow flagRow spanMax n col (if inside then 255 else 0) flag
          fb).2.2 p = fb p) ∧
    (∀ q, (∀ c, col ≤ c → c ≤ spanMax → q ≠ flagRow.data + c) →
      (end_fill_aa_cols s fbRow flagRow spanMax n col (if inside then 255 else 0) flag
          fb).2.1 q = flag q) := by
  intro n
  induction n with
  | zero =>
    intro col inside flag fb hn _
    have hgt : ¬ col ≤ spanMax := by omega
    have e : end_fill_aa_cols s fbRow flagRow spanMax 0 col (if inside then 255 else 0)
        flag fb = (col, flag, fb) := rfl
    rw [e]
    exact ⟨by rw [if_neg hgt], fun c h1 h2 => absurd (le_trans h1 h2) hgt,
      fun _ _ => rfl, fun _ _ => rfl⟩
  | succ n ih =>
    intro col inside flag fb hn hbytes
    have hle : col ≤ spanMax := by omega
    have hmask : (if inside then 255 else 0) ^^^ flag (flagRow.data + col) =
        if xor inside (flag_full_aa flag flagRow col) then 255 else 0 := by
      unfold flag_full_aa
      rcases hbytes col (le_refl _) hle with h0 | h255
      · rw [h0]; cases inside <;> decide
      · rw [h255]; cases inside <;> decide
    rw [end_fill_aa_cols_step s fbRow flagRow spanMax n col _ flag fb hle, hmask]
    obtain ⟨i1, i2, i3, i4⟩ := ih (col + 1) (xor inside (flag_full_aa flag flagRow col))
      (Function.update flag (flagRow.data + col) 0)
      (Function.update fb (fbRow.data + col)
        (end_fill_aa_pixel s (if xor inside (flag_full_aa flag flagRow col) then 255 else 0)
          (fb (fbRow.data + col))))
      (by omega)
      (fun c g1 g2 => by
        rw [Function.update_noteq (by omega)]
        exact hbytes c (by omega) g2)
    refine ⟨?_, ?_, ?_, ?_⟩
    · rw [i1]
      split_ifs <;> omega
    · intro c h1 h2
      by_cases hc : c = col
      · subst hc
        rw [i3 _ (fun c1 g1 _ => by omega), Function.update_same]
        have e1 : (c - c + 1).toNat = 1 := by omega
        rw [e1]
        simp only [odd_from, Bool.xor_false]
        by_cases hx : xor inside (flag_full_aa flag flagRow c) = true
        · rw [if_pos hx, if_pos hx, (end_fill_aa_pixel_full s _).1]
        · rw [if_neg hx, if_neg hx, (end_fill_aa_pixel_full s _).2]
      · rw [i2 c (by omega) h2]
        have e1 : (c - col + 1).toNat = (c - (col + 1) + 1).toNat + 1 := by omega
        rw [e1]
        simp only [odd_from]
        rw [odd_from_congr _ (flag_full_aa flag flagRow) _ _
          (fun i _ => by
            unfold flag_full_aa
            rw [Function.update_noteq (by omega)])]
        rw [Bool.xor_assoc, Function.update_noteq (by omega)]
    · intro p hp
      rw [i3 p (fun c g1 g2 => hp c (by omega) g2)]
      rw [Function.update_noteq (hp col (le_refl _) hle)]
    · intro q hq
      rw [i4 q (fun c g1 g2 => hq c (by omega) g2)]
      rw [Function.update_noteq (hq col (le_refl _) hle)]

/-- The body of the row loop of `fctx_end_fill_aa` for a row whose flag bytes in the span
are `0x00` or `0xFF`. -/
theorem end_fill_aa_row_spec (s : GColor8) (colMin colMax row : Int)
    (flagbuf : GBitmap Nat) (fb : GBitmap GColor8)
    (hbytes : ∀ c, span_min fb colMin row ≤ c → c ≤ span_max fb colMax row →
      flagbuf.mem ((flagbuf.row_info row).data + c) = 0 ∨
      flagbuf.mem ((flagbuf.row_info row).data + c) = 255) :
    (∀ c, span_min fb colMin row ≤ c → c ≤ span_max fb colMax row →
      (end_fill_aa_row s colMin colMax row flagbuf fb).2 ((fb.row_info row).data + c) =
        if odd_from (flag_full_aa flagbuf.mem (flagbuf.row_info row))
            (c - span_min fb colMin row + 1).toNat (span_min fb colMin row)
        then ⟨(fb.mem ((fb.row_info row).data + c)).a, s.r, s.g, s.b⟩
        else fb.mem ((fb.row_info row).data + c)) ∧
    (∀ p, (∀ c, span_min fb colMin row ≤ c → c ≤ span_max fb colMax row →
        p ≠ (fb.row_info row).data + c) →
      (end_fill_aa_row s colMin colMax row flagbuf fb).2 p = fb.mem p) ∧
    (∀ q, (∀ c, FlagTouched fb flagbuf colMin colMax row c → q ≠ flag_addr_aa flagbuf row c) →
      (end_fill_aa_row s colMin colMax row flagbuf fb).1 q = flagbuf.mem q) := by
  obtain ⟨i1, i2, i3, i4⟩ := end_fill_aa_cols_spec s (fb.row_info row)
    (flagbuf.row_info row) (span_max fb colMax row)
    (span_max fb colMax row - span_min fb colMin row + 1).toNat (span_min fb colMin row)
    false flagbuf.mem fb.mem rfl hbytes
  have hend : (end_fill_aa_cols s (fb.row_info row) (flagbuf.row_info row)
      (span_max fb colMax row)
      (span_max fb colMax row - span_min fb colMin row + 1).toNat (span_min fb colMin row)
      0 flagbuf.mem fb.mem).1 = span_end fb colMin colMax row := i1
  have hrow : end_fill_aa_row s colMin colMax row flagbuf fb =
      if span_end fb colMin colMax row < (flagbuf.row_info row).max_x then
        (Function.update (end_fill_aa_cols s (fb.row_info row) (flagbuf.row_info row)
            (span_max fb colMax row)
            (span_max fb colMax row - span_min fb colMin row + 1).toNat
            (span_min fb colMin row) 0 flagbuf.mem fb.mem).2.1
          ((flagbuf.row_info row).data + span_end fb colMin colMax row) 0,
          (end_fill_aa_cols s (fb.row_info row) (flagbuf.row_info row)
            (span_max fb colMax row)
            (span_max fb colMax row - span_min fb colMin row + 1).toNat
            (span_min fb colMin row) 0 flagbuf.mem fb.mem).2.2)
      else
        ((end_fill_aa_cols s (fb.row_info row) (flagbuf.row_info row)
            (span_max fb colMax row)
            (span_max fb colMax row - span_min fb colMin row + 1).toNat
            (span_min fb colMin row) 0 flagbuf.mem fb.mem).2.1,
          (end_fill_aa_cols s (fb.row_info row) (flagbuf.row_info row)
            (span_max fb colMax row)
            (span_max fb colMax row - span_min fb colMin row + 1).toNat
            (span_min fb colMin row) 0 flagbuf.mem fb.mem).2.2) := by
    rw [← hend]
    rfl
  have hfb : (end_fill_aa_row s colMin colMax row flagbuf fb).2 =
      (end_fill_aa_cols s (fb.row_info row) (flagbuf.row_info row)
        (span_max fb colMax row)
        (span_max fb colMax row - span_min fb colMin row + 1).toNat
        (span_min fb colMin row) 0 flagbuf.mem fb.mem).2.2 := by
    rw [hrow]
    split_ifs <;> rfl
  refine ⟨?_, ?_, ?_⟩
  · intro c h1 h2
    rw [hfb]
    have := i2 c h1 h2
    rw [Bool.false_xor] at this
    exact this
  · intro p hp
    rw [hfb]
    exact i3 p hp
  · intro q hq
    have hq1 : (end_fill_aa_cols s (fb.row_info row) (flagbuf.row_info row)
        (span_max fb colMax row)
        (span_max fb colMax row - span_min fb colMin row + 1).toNat
        (span_min fb colMin row) 0 flagbuf.mem fb.mem).2.1 q = flagbuf.mem q :=
      i4 q (fun c g1 g2 => hq c (Or.inl ⟨g1, g2⟩))
    rw [hrow]
    by_cases hlt : span_end fb colMin colMax row < (flagbuf.row_info row).max_x
    · have hne : q ≠ (flagbuf.row_info row).data + span_end fb colMin colMax row :=
        hq _ (Or.inr ⟨rfl, hlt⟩)
      rw [if_pos hlt]
      dsimp only
      rw [Function.update_noteq hne, hq1]
    · rw [if_neg hlt]
      exact hq1

/-- The row loop of `fctx_end_fill_aa` from `row` on, for bitmaps laid out as `FillLayout`
asks and a flag plane whose bytes in the spans are `0x00` or `0xFF`: every pixel of the
span of a remaining row gets the colour channels of the fill colour exactly when the
number of `0xFF` bytes from the start of the span up to its column is odd; every other
pixel is unchanged. -/
theorem end_fill_aa_rows_spec (s : GColor8) (colMin colMax rowMax : Int)
    (fb0 : GBitmap GColor8) (flagbuf0 : GBitmap Nat) :
    ∀ (n : Nat) (row : Int) (fm : Int → Nat) (pm : Int → GColor8),
    (rowMax - row + 1).toNat = n →
    FillLayout fb0 flagbuf0 (flag_addr_aa flagbuf0) colMin colMax row rowMax →
    (∀ r c, row ≤ r → r ≤ rowMax →
      span_min fb0 colMin r ≤ c → c ≤ span_max fb0 colMax r →
      fm ((flagbuf0.row_info r).data + c) = 0 ∨ fm ((flagbuf0.row_info r).data + c) = 255) →
    (∀ r c, row ≤ r → r ≤ rowMax →
      span_min fb0 colMin r ≤ c → c ≤ span_max fb0 colMax r →
      (end_fill_aa_rows s colMin colMax rowMax n row
          { flagbuf0 with mem := fm } { fb0 with mem := pm }).2.mem
          ((fb0.row_info r).data + c) =
        if odd_from (flag_full_aa fm (flagbuf0.row_info r))
            (c - span_min fb0 colMin r + 1).toNat (span_min fb0 colMin r)
        then ⟨(pm ((fb0.row_info r).data + c)).a, s.r, s.g, s.b⟩
        else pm ((fb0.row_info r).data + c)) ∧
    (∀ p, (∀ r c, row ≤ r → r ≤ rowMax →
        span_min fb0 colMin r ≤ c → c ≤ span_max fb0 colMax r →
        p ≠ (fb0.row_info r).data + c) →
      (end_fill_aa_rows s colMin colMax rowMax n row
          { flagbuf0 with mem := fm } { fb0 with mem := pm }).2.mem p = pm p) := by
  intro n
  induction n with
  | zero =>
    intro row fm pm hn _ _
    exact ⟨fun r c h1 h2 _ _ => by omega, fun _ _ => rfl⟩
  | succ n ih =>
    intro row fm pm hn hlay hbytes
    have hle : row ≤ rowMax := by omega
    obtain ⟨r1, r2, r3⟩ := end_fill_aa_row_spec s colMin colMax row
      { flagbuf0 with mem := fm } { fb0 with mem := pm }
      (fun c g1 g2 => hbytes row c (le_refl _) hle g1 g2)
    have hkeep : ∀ r c, row + 1 ≤ r → r ≤ rowMax →
        span_min fb0 colMin r ≤ c → c ≤ span_max fb0 colMax r →
        (end_fill_aa_row s colMin colMax row
          { flagbuf0 with mem := fm } { fb0 with mem := pm }).1
          ((flagbuf0.row_info r).data + c) = fm ((flagbuf0.row_info r).data + c) := by
      intro r c h1 h2 h3 h4
      exact r3 _ (fun c1 ht hEq => by
        have := hlay.flags row r c1 c (le_refl _) hle (by omega) h2 ht h3 h4 hEq.symm
        omega)
    obtain ⟨i1, i2⟩ := ih (row + 1)
      (end_fill_aa_row s colMin colMax row
        { flagbuf0 with mem := fm } { fb0 with mem := pm }).1
      (end_fill_aa_row s colMin colMax row
        { flagbuf0 with mem := fm } { fb0 with mem := pm }).2
      (by omega) (fillLayout_tail hlay)
      (fun r c h1 h2 h3 h4 => by
        rw [hkeep r c h1 h2 h3 h4]
        exact hbytes r c (by omega) h2 h3 h4)
    have hstep : end_fill_aa_rows s colMin colMax rowMax (n + 1) row
        { flagbuf0 with mem := fm } { fb0 with mem := pm } =
        end_fill_aa_rows s colMin colMax rowMax n (row + 1)
          { flagbuf0 with mem := (end_fill_aa_row s colMin colMax row
            { flagbuf0 with mem := fm } { fb0 with mem := pm }).1 }
          { fb0 with mem := (end_fill_aa_row s colMin colMax row
            { flagbuf0 with mem := fm } { fb0 with mem := pm }).2 } := by
      simp only [end_fill_aa_rows, if_pos hle]
    rw [hstep]
    constructor
    · intro r c h1 h2 h3 h4
      by_cases hr : r = row
      · subst hr
        rw [i2 _ (fun r1 c1 g1 g2 g3 g4 hEq => by
          have := hlay.pixels r r1 c c1 (le_refl _) hle (by omega) g2 h3 h4 g3 g4 hEq
          omega)]
        exact r1 c h3 h4
      · rw [i1 r c (by omega) h2 h3 h4]
        have e1 : (end_fill_aa_row s colMin colMax row
            { flagbuf0 with mem := fm } { fb0 with mem := pm }).2
            ((fb0.row_info r).data + c) = pm ((fb0.row_info r).data + c) :=
          r2 _ (fun c1 g3 g4 hEq => by
            have := hlay.pixels r row c c1 h1 h2 (le_refl _) hle h3 h4 g3 g4 hEq
            exact hr this)
        rw [e1]
        rw [odd_from_congr _ (flag_full_aa fm (flagbuf0.row_info r)) _ _ (fun i hi => by
          unfold flag_full_aa
          rw [hkeep r (span_min fb0 colMin r + i) (by omega) h2 (by omega) (by omega)])]
    · intro p hp
      rw [i2 p (fun r c g1 g2 g3 g4 => hp r c (by omega) g2 g3 g4)]
      exact r2 p (fun c g3 g4 => hp row c (le_refl _) hle g3 g4)

/-- C25: take a monochrome context with a 1-bit flag plane and an anti-aliased context
with an 8-bit flag plane, with the same extents, fill colour and bounds, the same frame
buffer, both planes laid out as `FillLayout` asks; let every flag byte of the 8-bit plane
in the swept spans be `0x00` or `0xFF`, and `0xFF` exactly where the flag of the 1-bit
plane is set.  Then the two end-fill functions write the same pixels: at every pixel
where the parity of the flags is odd (`FillWritten`), `fctx_end_fill_bw` stores the fill
colour and `fctx_end_fill_aa` stores its r, g and b channels, keeping the alpha field;
every other pixel is left as it was by both. -/
theorem end_fill_aa_reduces_to_bw (fbw faa : FContext (GBitmap Nat)) (fb : GBitmap GColor8)
    (hsame : faa.extent_min = fbw.extent_min ∧ faa.extent_max = fbw.extent_max ∧
      faa.fill_color = fbw.fill_color ∧ faa.flag_bounds = fbw.flag_bounds)
    (hlbw : FillLayout fb fbw.flag_buffer (flag_addr_bw fbw.flag_buffer)
      (fill_col_min fbw) (fill_col_max fbw) (fill_row_min fbw) (fill_row_max fbw))
    (hlaa : FillLayout fb faa.flag_buffer (flag_addr_aa faa.flag_buffer)
      (fill_col_min fbw) (fill_col_max fbw) (fill_row_min fbw) (fill_row_max fbw))
    (hbytes : ∀ r c, fill_row_min fbw ≤ r → r ≤ fill_row_max fbw →
      span_min fb (fill_col_min fbw) r ≤ c → c ≤ span_max fb (fill_col_max fbw) r →
      faa.flag_buffer.mem ((faa.flag_buffer.row_info r).data + c) = 0 ∨
      faa.flag_buffer.mem ((faa.flag_buffer.row_info r).data + c) = 255)
    (hcorr : ∀ r c, fill_row_min fbw ≤ r → r ≤ fill_row_max fbw →
      span_min fb (fill_col_min fbw) r ≤ c → c ≤ span_max fb (fill_col_max fbw) r →
      (flag_set_bw fbw.flag_buffer.mem (fbw.flag_buffer.row_info r) c = true ↔
        faa.flag_buffer.mem ((faa.flag_buffer.row_info r).data + c) = 255)) (p : Int) :
    (FillWritten fb
        (fun r c => flag_set_bw fbw.flag_buffer.mem (fbw.flag_buffer.row_info r) c)
        (fill_col_min fbw) (fill_col_max fbw) (fill_row_min fbw) (fill_row_max fbw) p →
      (fctx_end_fill_bw fbw fb).2.mem p = fbw.fill_color ∧
      (fctx_end_fill_aa faa fb).2.mem p =
        ⟨(fb.mem p).a, fbw.fill_color.r, fbw.fill_color.g, fbw.fill_color.b⟩) ∧
    (¬ FillWritten fb
        (fun r c => flag_set_bw fbw.flag_buffer.mem (fbw.flag_buffer.row_info r) c)
        (fill_col_min fbw) (fill_col_max fbw) (fill_row_min fbw) (fill_row_max fbw) p →
      (fctx_end_fill_bw fbw fb).2.mem p = fb.mem p ∧
      (fctx_end_fill_aa faa fb).2.mem p = fb.mem p) := by
  obtain ⟨e1, e2, e3, e4⟩ := hsame
  obtain ⟨i1, i2⟩ := end_fill_bw_rows_spec fbw.fill_color (fill_col_min fbw)
    (fill_col_max fbw) (fill_row_max fbw) fb fbw.flag_buffer
    (fill_row_max fbw - fill_row_min fbw + 1).toNat (fill_row_min fbw)
    fbw.flag_buffer.mem fb.mem rfl hlbw
  obtain ⟨j1, j2⟩ := end_fill_aa_rows_spec fbw.fill_color (fill_col_min fbw)
    (fill_col_max fbw) (fill_row_max fbw) fb faa.flag_buffer
    (fill_row_max fbw - fill_row_min fbw + 1).toNat (fill_row_min fbw)
    faa.flag_buffer.mem fb.mem rfl hlaa hbytes
  have hbw : (fctx_end_fill_bw fbw fb).2 =
      (end_fill_bw_rows fbw.fill_color (fill_col_min fbw) (fill_col_max fbw)
        (fill_row_max fbw) (fill_row_max fbw - fill_row_min fbw + 1).toNat
        (fill_row_min fbw) { fbw.flag_buffer with mem := fbw.flag_buffer.mem }
        { fb with mem := fb.mem }).2 := rfl
  have haa : (fctx_end_fill_aa faa fb).2 =
      (end_fill_aa_rows fbw.fill_color (fill_col_min fbw) (fill_col_max fbw)
        (fill_row_max fbw) (fill_row_max fbw - fill_row_min fbw + 1).toNat
        (fill_row_min fbw) { faa.flag_buffer with mem := faa.flag_buffer.mem }
        { fb with mem := fb.mem }).2 := by
    unfold fctx_end_fill_aa fill_col_min fill_col_max fill_row_min fill_row_max
    dsimp only
    rw [e1, e2, e3, e4]
  have hpar : ∀ r c, fill_row_min fbw ≤ r → r ≤ fill_row_max fbw →
      span_min fb (fill_col_min fbw) r ≤ c → c ≤ span_max fb (fill_col_max fbw) r →
      odd_from (flag_full_aa faa.flag_buffer.mem (faa.flag_buffer.row_info r))
          (c - span_min fb (fill_col_min fbw) r + 1).toNat (span_min fb (fill_col_min fbw) r) =
        odd_from (flag_set_bw fbw.flag_buffer.mem (fbw.flag_buffer.row_info r))
          (c - span_min fb (fill_col_min fbw) r + 1).toNat
          (span_min fb (fill_col_min fbw) r) := by
    intro r c h1 h2 h3 h4
    apply odd_from_congr
    intro i hi
    have hc := hcorr r (span_min fb (fill_col_min fbw) r + i) h1 h2 (by omega) (by omega)
    unfold flag_full_aa
    cases hb : flag_set_bw fbw.flag_buffer.mem (fbw.flag_buffer.row_info r)
        (span_min fb (fill_col_min fbw) r + i)
    · have : ¬ faa.flag_buffer.mem ((faa.flag_buffer.row_info r).data +
          (span_min fb (fill_col_min fbw) r + i)) = 255 := by
        intro h
        have := hc.mpr h
        rw [hb] at this
        cases this
      simp [this]
    · simp [hc.mp hb]
  rw [hbw, haa]
  constructor
  · rintro ⟨r, c, h1, h2, h3, h4, rfl, hodd⟩
    have hof : odd_from (flag_set_bw fbw.flag_buffer.mem (fbw.flag_buffer.row_info r))
        (c - span_min fb (fill_col_min fbw) r + 1).toNat
        (span_min fb (fill_col_min fbw) r) = true := by
      rw [odd_from_count]
      simpa using hodd
    rw [i1 r c h1 h2 h3 h4, j1 r c h1 h2 h3 h4, hpar r c h1 h2 h3 h4, hof]
    exact ⟨rfl, rfl⟩
  · intro hnot
    by_cases hin : ∃ r c, fill_row_min fbw ≤ r ∧ r ≤ fill_row_max fbw ∧
        span_min fb (fill_col_min fbw) r ≤ c ∧ c ≤ span_max fb (fill_col_max fbw) r ∧
        p = (fb.row_info r).data + c
    · obtain ⟨r, c, h1, h2, h3, h4, rfl⟩ := hin
      have hof : odd_from (flag_set_bw fbw.flag_buffer.mem (fbw.flag_buffer.row_info r))
          (c - span_min fb (fill_col_min fbw) r + 1).toNat
          (span_min fb (fill_col_min fbw) r) = false := by
        rw [odd_from_count]
        have : ¬ ((List.range (c - span_min fb (fill_col_min fbw) r + 1).toNat).countP
            (fun i : Nat => flag_set_bw fbw.flag_buffer.mem (fbw.flag_buffer.row_info r)
              (span_min fb (fill_col_min fbw) r + (i : Int)))) % 2 = 1 :=
          fun hodd => hnot ⟨r, c, h1, h2, h3, h4, rfl, hodd⟩
        simpa using this
      rw [i1 r c h1 h2 h3 h4, j1 r c h1 h2 h3 h4, hpar r c h1 h2 h3 h4, hof]
      exact ⟨rfl, rfl⟩
    · have hp : ∀ r c, fill_row_min fbw ≤ r → r ≤ fill_row_max fbw →
          span_min fb (fill_col_min fbw) r ≤ c → c ≤ span_max fb (fill_col_max fbw) r →
          p ≠ (fb.row_info r).data + c :=
        fun r c h1 h2 h3 h4 hEq => hin ⟨r, c, h1, h2, h3, h4, hEq⟩
      exact ⟨i2 p hp, j2 p hp⟩

/-- The 8 by 8 frame buffer and the 8-bit flag plane of `ctx_flags_aa_8x8` are laid out
as `FillLayout` asks. -/
theorem fillLayout_8x8_aa :
    FillLayout (fb_rect 8 8 GColorWhite) ctx_flags_aa_8x8.flag_buffer
      (flag_addr_aa ctx_flags_aa_8x8.flag_buffer) (fill_col_min ctx_flags_8x8)
      (fill_col_max ctx_flags_8x8) (fill_row_min ctx_flags_8x8)
      (fill_row_max ctx_flags_8x8) := by
  have hs := spans_8x8 ctx_flags_8x8 GColorWhite (by decide) (by decide)
  have hfa : ∀ r c, flag_addr_aa ctx_flags_aa_8x8.flag_buffer r c = r * 8 + c :=
    fun r c => rfl
  have hmx : ∀ r, (ctx_flags_aa_8x8.flag_buffer.row_info r).max_x = 7 := fun r => rfl
  refine ⟨?_, ?_, ?_⟩
  · intro r _ _
    rw [(hs r).1]
  · intro r r1 c c1 _ _ _ _ g1 g2 g3 g4 hEq
    rw [(hs r).1] at g1
    rw [(hs r).2.1] at g2
    rw [(hs r1).1] at g3
    rw [(hs r1).2.1] at g4
    rw [(hs r).2.2.2, (hs r1).2.2.2] at hEq
    omega
  · intro r r1 c c1 _ _ _ _ ht g3 g4 hEq
    rw [(hs r1).1] at g3
    rw [(hs r1).2.1] at g4
    rw [hfa, hfa] at hEq
    have hc : 0 ≤ c ∧ c ≤ 7 := by
      rcases ht with ⟨t1, t2⟩ | ⟨t1, t2⟩
      · rw [(hs r).1] at t1
        rw [(hs r).2.1] at t2
        exact ⟨t1, t2⟩
      · rw [(hs r).2.2.1] at t1
        rw [hmx] at t2
        omega
    omega

/-- Witness of `end_fill_aa_reduces_to_bw`: the planes of `ctx_flags_8x8` and
`ctx_flags_aa_8x8` hold the same flags (columns 2 and 5 of row 1); the pixel of column 3
of row 1 is written by both functions, the pixel of column 5 by neither. -/
theorem end_fill_aa_reduces_to_bw_witness :
    ((fctx_end_fill_bw ctx_flags_8x8 (fb_rect 8 8 GColorWhite)).2.mem (1 * 8 + 3) =
        ctx_flags_8x8.fill_color ∧
      (fctx_end_fill_aa ctx_flags_aa_8x8 (fb_rect 8 8 GColorWhite)).2.mem (1 * 8 + 3) =
        ⟨((fb_rect 8 8 GColorWhite).mem (1 * 8 + 3)).a, ctx_flags_8x8.fill_color.r,
          ctx_flags_8x8.fill_color.g, ctx_flags_8x8.fill_color.b⟩) ∧
    ((fctx_end_fill_bw ctx_flags_8x8 (fb_rect 8 8 GColorWhite)).2.mem (1 * 8 + 5) =
        (fb_rect 8 8 GColorWhite).mem (1 * 8 + 5) ∧
      (fctx_end_fill_aa ctx_flags_aa_8x8 (fb_rect 8 8 GColorWhite)).2.mem (1 * 8 + 5) =
        (fb_rect 8 8 GColorWhite).mem (1 * 8 + 5)) ∧
    (List.range 8).map (fun c : Nat =>
      (fctx_end_fill_aa ctx_flags_aa_8x8 (fb_rect 8 8 GColorWhite)).2.mem
        (1 * 8 + (c : Int)))
      = [GColorWhite, GColorWhite, GColorBlack, GColorBlack, GColorBlack, GColorWhite,
         GColorWhite, GColorWhite] := by
  have hs := spans_8x8 ctx_flags_8x8 GColorWhite (by decide) (by decide)
  have hrmin : fill_row_min ctx_flags_8x8 = 0 := by decide
  have hrmax : fill_row_max ctx_flags_8x8 = 7 := by decide
  have hbytes : ∀ r c, fill_row_min ctx_flags_8x8 ≤ r → r ≤ fill_row_max ctx_flags_8x8 →
      span_min (fb_rect 8 8 GColorWhite) (fill_col_min ctx_flags_8x8) r ≤ c →
      c ≤ span_max (fb_rect 8 8 GColorWhite) (fill_col_max ctx_flags_8x8) r →
      ctx_flags_aa_8x8.flag_buffer.mem
          ((ctx_flags_aa_8x8.flag_buffer.row_info r).data + c) = 0 ∨
      ctx_flags_aa_8x8.flag_buffer.mem
          ((ctx_flags_aa_8x8.flag_buffer.row_info r).data + c) = 255 := by
    intro r c _ _ _ _
    have e : ctx_flags_aa_8x8.flag_buffer.mem
        ((ctx_flags_aa_8x8.flag_buffer.row_info r).data + c) =
        if r * 8 + c = 10 ∨ r * 8 + c = 13 then 255 else 0 := rfl
    rw [e]
    split_ifs
    · exact Or.inr rfl
    · exact Or.inl rfl
  have hcorr : ∀ r c, fill_row_min ctx_flags_8x8 ≤ r → r ≤ fill_row_max ctx_flags_8x8 →
      span_min (fb_rect 8 8 GColorWhite) (fill_col_min ctx_flags_8x8) r ≤ c →
      c ≤ span_max (fb_rect 8 8 GColorWhite) (fill_col_max ctx_flags_8x8) r →
      (flag_set_bw ctx_flags_8x8.flag_buffer.mem (ctx_flags_8x8.flag_buffer.row_info r) c
          = true ↔
        ctx_flags_aa_8x8.flag_buffer.mem
          ((ctx_flags_aa_8x8.flag_buffer.row_info r).data + c) = 255) := by
    intro r c h1 h2 h3 h4
    rw [hrmin] at h1
    rw [hrmax] at h2
    rw [(hs r).1] at h3
    rw [(hs r).2.1] at h4
    interval_cases r <;> interval_cases c <;> decide
  have key := end_fill_aa_reduces_to_bw ctx_flags_8x8 ctx_flags_aa_8x8
    (fb_rect 8 8 GColorWhite) ⟨rfl, rfl, rfl, rfl⟩ fillLayout_8x8_bw fillLayout_8x8_aa
    hbytes hcorr
  refine ⟨?_, ?_, by decide!⟩
  · apply (key (1 * 8 + 3)).1
    refine ⟨1, 3, by decide, by decide, ?_, ?_, rfl, ?_⟩
    · rw [(hs 1).1]; decide
    · rw [(hs 1).2.1]; decide
    · rw [(hs 1).1]; decide
  · apply (key (1 * 8 + 5)).2
    rintro ⟨r, c, h1, h2, h3, h4, hp, hodd⟩
    rw [(hs r).1] at h3 hodd
    rw [(hs r).2.1] at h4
    rw [(hs r).2.2.2] at hp
    rw [hrmin] at h1
    rw [hrmax] at h2
    have hr : r = 1 := by omega
    have hc : c = 5 := by omega
    subst hr
    subst hc
    revert hodd
    decide

end Fctx
